import Mathlib

/-!
# camera_pi: the detection loop of `camera.cpp`

A shallow embedding of `src/camera.cpp` (with `sendmail` from `src/sendmail.h`).

Modelling conventions.

* A C++ `double` is a rational number (`ℚ`).  Two versions of the arithmetic of `average`
  and of the loop are given.  In `average`, `cycle`, `run` and `mainCycle` the sums, the
  division and the comparison with `THRESHOLD` are exact; the statements on the structure
  of the loop (which calls are made, in which order, what the window holds) are made on
  these.  In `averageDouble`, `mainCycleDouble` and `mainRunDouble` every operation is
  rounded to the nearest binary64 value, ties to even (`roundToDouble`), and the threshold
  is the double that the literal `0.7` denotes; the statements on the value that `average`
  returns and on the decision taken from it are made on these.  Both are instances of
  `cycleWith`, the iteration with the averaging function as a parameter.
* `cv::Mat` is an arbitrary type `Mat` with a distinguished default value (the
  default-constructed empty matrix of `cv::Mat ref_img;`).
* OpenCV, the C library and the Mega SDK are external.  `compareImgDiff` only calls
  OpenCV, so the loop takes the score function as a parameter; the never-ending
  `while (true)` of `main` is unrolled one iteration at a time by `cycle`, which receives
  what the environment answers on that iteration (`CycleInput`) and returns the new local
  variables together with the calls made, in program order (`Effect`).
* The body of `compareImgDiff` is embedded separately, on 8-bit images, with the constants
  of the source; the OpenCV routines it calls are modelled in the exact arithmetic of an
  ordered field (`ℚ`, or `ℝ` with its square root), and the pixel conversion and the
  square root are parameters of the embedding.
* `compareImgDiffOn`, `cycleOn` and `runOn` embed `compareImgDiff` and the loop a second
  time, on a store of pixel buffers in which a `cv::Mat` is the index of its buffer, so
  that clones, writes in place and shared buffers are explicit; they are proved to compute
  what `compareImgDiff` and `cycleWith` compute.
* The macros `AVG_COUNT` and `THRESHOLD` are parameters `K` and `t` of `cycle`;
  `mainCycle` is the instance with the values of the source.
* The loop counter of `average` and the vector size are natural numbers (no wrap-around;
  the source runs with a window of at most `AVG_COUNT + 1 = 4` entries).
* The model starts where the loop starts: the camera was opened (`pCapture` is not `NULL`,
  otherwise `main` returns before the loop).  Every external call is taken to return
  to its caller.
-/

namespace CameraPi

/-! ## Constants of `camera.cpp` -/

/-- Macro `N_Capture`: the sleep at the end of a cycle, in seconds. -/
def N_Capture : Nat := 1

/-- Macro `AVG_COUNT`: capacity of the smoothing window. -/
def AVG_COUNT : Nat := 3

/-- Macro `THRESHOLD`. -/
def THRESHOLD : ℚ := 7 / 10

/-! ## `getDateString` -/

/-- The `while` loop of `getDateString`: every blank and every colon becomes an underscore,
all other characters stay. -/
def replaceSeparators (str : List Char) : List Char :=
  str.map (fun c => if c = ' ' ∨ c = ':' then '_' else c)

/-- Function `getDateString`, applied to the text returned by `asctime`: separators are
replaced, then the character at index `length - 1` is overwritten with `y`.
(For the empty text the source indexes out of bounds; `asctime` never returns it.) -/
def getDateString (date : String) : String :=
  let str := replaceSeparators date.data
  String.mk (str.set (str.length - 1) 'y')

/-! ## `average` -/

/-- Function `average`: the loop adds `vector[0] .. vector[size-1]` to `sum` from the left,
the result is `sum / size`.  The pointer/size pair is one list. -/
def average (vector : List ℚ) : ℚ :=
  let sum := vector.foldl (fun sum x => sum + x) 0
  sum / (vector.length : ℚ)

/-! ## `sendmail` (sendmail.h) -/

/-- What one call of `sendmail` did: the text written to the pipe of
`/usr/sbin/sendmail -t` (`none` when `popen` returned `NULL`), and the returned value. -/
structure SendmailResult where
  piped : Option String
  retval : Int
deriving DecidableEq, Repr

/-- Function `sendmail` of `sendmail.h`; `popenOk` tells whether `popen` gave a pipe. -/
def sendmail (popenOk : Bool) (recipient sender subject message : String) : SendmailResult :=
  if popenOk then
    { piped := some ("To: " ++ recipient ++ "\n" ++ "From: " ++ sender ++ "\n"
        ++ "Subject: " ++ subject ++ "\n\n" ++ message ++ ".\n"),
      retval := 0 }
  else
    { piped := none, retval := -1 }

/-! ## The loop of `main` -/

/-- The calls with an outside effect that one iteration of the loop can make.  Calls that
return a value record it, so that a trace shows what `main` was told. -/
inductive Effect (Mat : Type) where
  | sleep (seconds : Nat)
  | printf (diff : ℚ)
  | imwrite (filename : String) (img : Mat) (ok : Bool)
  | sendmail (recipient sender subject message : String) (result : SendmailResult)
  | loginAndUploadFile (user password filePath : String)
deriving DecidableEq

/-- The three calls of the alert branch: save, mail, upload. -/
def Effect.isDispatch {Mat : Type} : Effect Mat → Bool
  | .imwrite _ _ _ => true
  | .sendmail _ _ _ _ _ => true
  | .loginAndUploadFile _ _ _ => true
  | _ => false

/-- The calls to `sleep`. -/
def Effect.isSleep {Mat : Type} : Effect Mat → Bool
  | .sleep _ => true
  | _ => false

/-- The save/mail/upload part of a trace, in order. -/
def dispatchOf {Mat : Type} (trace : List (Effect Mat)) : List (Effect Mat) :=
  trace.filter Effect.isDispatch

/-- The waits of a trace, in order. -/
def sleepsOf {Mat : Type} (trace : List (Effect Mat)) : List (Effect Mat) :=
  trace.filter Effect.isSleep

/-- The local variables of `main` that live across iterations. -/
structure LoopState (Mat : Type) where
  isRefImageSet : Bool
  img_diff : List ℚ
  ref_img : Mat

/-- The variables as declared before the loop: `false`, an empty vector, an empty matrix. -/
def LoopState.init {Mat : Type} [Inhabited Mat] : LoopState Mat :=
  { isRefImageSet := false, img_diff := [], ref_img := default }

/-- What the environment answers during one iteration: the frame of `cvQueryFrame`
(`none` for `NULL`), the text of `asctime`, the result of `cv::imwrite`, and whether
`popen` succeeds inside `sendmail`.  The last three are only consulted when the
corresponding call is made. -/
structure CycleInput (Mat : Type) where
  pImage : Option Mat
  asctime : String
  imwriteOk : Bool
  popenOk : Bool

/-- Lines 115-119: `push_back(diff)`, then `erase(begin())` when the size exceeds `K`. -/
def pushEvict (K : Nat) (img_diff : List ℚ) (diff : ℚ) : List ℚ :=
  let pushed := img_diff ++ [diff]
  if pushed.length > K then pushed.tail else pushed

/-- Lines 128-133, the body of the alert branch: the file name is computed once, then
`cv::imwrite`, `sendmail` and `loginAndUploadFile` are called one after the other; no
returned value is looked at. -/
def dispatch {Mat : Type} (cur_img : Mat) (inp : CycleInput Mat) : List (Effect Mat) :=
  let filename := getDateString inp.asctime ++ ".jpg"
  [ Effect.imwrite filename cur_img inp.imwriteOk,
    Effect.sendmail "future_wei@qq.com" "camera@pi" "Camera notification"
      "The camera have detected something strange.\n"
      (sendmail inp.popenOk "future_wei@qq.com" "camera@pi" "Camera notification"
        "The camera have detected something strange.\n"),
    Effect.loginAndUploadFile "sunnyfuture@gmail.com" "cxw@2623810" filename ]

/-- Lines 124-134: the test `diff_average < THRESHOLD` and its branch. -/
def alertBranch {Mat : Type} (t : ℚ) (diff_average : ℚ) (cur_img : Mat)
    (inp : CycleInput Mat) : List (Effect Mat) :=
  if diff_average < t then dispatch cur_img inp else []

/-- One iteration of the `while (true)` loop of `main` (lines 96-137). -/
def cycle {Mat : Type} (compareImgDiff : Mat → Mat → ℚ) (K : Nat) (t : ℚ)
    (s : LoopState Mat) (inp : CycleInput Mat) : LoopState Mat × List (Effect Mat) :=
  match inp.pImage with
  | none => (s, [Effect.sleep 10])
  | some pImage =>
    if !s.isRefImageSet then
      ({ s with ref_img := pImage, isRefImageSet := true }, [Effect.sleep N_Capture])
    else
      let cur_img := pImage
      let diff := compareImgDiff s.ref_img cur_img
      let img_diff := pushEvict K s.img_diff diff
      let diff_average := average img_diff
      ({ s with img_diff := img_diff },
        [Effect.printf diff] ++ alertBranch t diff_average cur_img inp
          ++ [Effect.sleep N_Capture])

/-- The iteration with the constants of the source. -/
def mainCycle {Mat : Type} (compareImgDiff : Mat → Mat → ℚ)
    (s : LoopState Mat) (inp : CycleInput Mat) : LoopState Mat × List (Effect Mat) :=
  cycle compareImgDiff AVG_COUNT THRESHOLD s inp

/-- Finitely many iterations: the final variables and the trace of every iteration. -/
def run {Mat : Type} (compareImgDiff : Mat → Mat → ℚ) (K : Nat) (t : ℚ) :
    LoopState Mat → List (CycleInput Mat) → LoopState Mat × List (List (Effect Mat))
  | s, [] => (s, [])
  | s, inp :: rest =>
    let r := cycle compareImgDiff K t s inp
    let rs := run compareImgDiff K t r.1 rest
    (rs.1, r.2 :: rs.2)

/-- The frames delivered by `cvQueryFrame` over a sequence of iterations (the iterations
that returned `NULL` contribute nothing). -/
def frames {Mat : Type} (ins : List (CycleInput Mat)) : List Mat :=
  ins.filterMap (fun inp => inp.pImage)

/-- An iteration on which `cvQueryFrame` returns the frame `f`, at the given clock text,
with both `cv::imwrite` and `popen` succeeding. -/
def captured {Mat : Type} (f : Mat) (asctime : String) : CycleInput Mat :=
  { pImage := some f, asctime := asctime, imwriteOk := true, popenOk := true }

/-- An iteration on which `cvQueryFrame` returns `NULL`. -/
def noFrame {Mat : Type} : CycleInput Mat :=
  { pImage := none, asctime := "", imwriteOk := true, popenOk := true }

/-- The (file name, image) pairs handed to `cv::imwrite` in a trace, in order. -/
def savedImages {Mat : Type} (trace : List (Effect Mat)) : List (String × Mat) :=
  trace.filterMap (fun e =>
    match e with
    | .imwrite filename img _ => some (filename, img)
    | _ => none)

/-- The file paths handed to `loginAndUploadFile` in a trace, in order. -/
def uploadedPaths {Mat : Type} (trace : List (Effect Mat)) : List String :=
  trace.filterMap (fun e =>
    match e with
    | .loginAndUploadFile _ _ filePath => some filePath
    | _ => none)

/-- The `K` most recent entries of a history (all of them when there are fewer). -/
def lastK (K : Nat) (scores : List ℚ) : List ℚ :=
  scores.drop (scores.length - K)

/-- The scores printed (`printf("\tdiff = %f\n", diff)`) in a trace, in order. -/
def printedScores {Mat : Type} (trace : List (Effect Mat)) : List ℚ :=
  trace.filterMap (fun e =>
    match e with
    | .printf diff => some diff
    | _ => none)

/-- Whether the alert branch was taken in a trace: some save/mail/upload call was made. -/
def triggered {Mat : Type} (trace : List (Effect Mat)) : Bool :=
  !(dispatchOf trace).isEmpty

/-! ## `compareImgDiff` and the OpenCV routines it calls

The body of `compareImgDiff` (lines 43-67) is a sequence of calls into OpenCV with the
constants written in the source.  The routines themselves are not part of the repository;
they are modelled below in the exact arithmetic of an ordered field `R`, each from what the
specification says of the step and from the OpenCV reference for the arguments that the
source passes. -/

/-- An 8-bit three-channel pixel (`cv::Vec3b`): blue, green, red before the conversion,
hue, saturation, value after it. -/
structure Vec3b where
  c0 : Fin 256
  c1 : Fin 256
  c2 : Fin 256
deriving DecidableEq, Repr

/-- An 8-bit three-channel `cv::Mat`: `rows * cols` pixels in row-major order. -/
structure Image where
  rows : Nat
  cols : Nat
  data : List Vec3b
  size_eq : data.length = rows * cols

/-- The default-constructed empty matrix. -/
instance : Inhabited Image := ⟨{ rows := 0, cols := 0, data := [], size_eq := rfl }⟩

/-- Conversion of an integer to `uchar` with saturation (`saturate_cast<uchar>`). -/
def saturateByte (z : Int) : Fin 256 :=
  ⟨min z.toNat 255, by omega⟩

/-- Modelled from the spec: `cv::cvtColor` with `CV_BGR2HSV` is an OpenCV routine, not part
of the repository ("converts both frames into a perceptual color space (hue/saturation)").
One pixel of an 8-bit image, after the OpenCV reference: `V = max(R, G, B)`,
`S = 255 (V - min) / V` (0 when `V = 0`), and the hue in degrees, halved to fit a byte,
is `60 (G - B) / (V - min)` when `V = R`, `120 + 60 (B - R) / (V - min)` when `V = G`,
`240 + 60 (R - G) / (V - min)` otherwise, plus 360 when negative; results are rounded to
the nearest integer. -/
def bgr2hsv (p : Vec3b) : Vec3b :=
  let b : Int := p.c0.val
  let g : Int := p.c1.val
  let r : Int := p.c2.val
  let v := max r (max g b)
  let vmin := min r (min g b)
  let diff := v - vmin
  let s := if v = 0 then 0 else (2 * 255 * diff + v) / (2 * v)
  let hnum := if v = r then g - b else if v = g then b - r + 2 * diff else r - g + 4 * diff
  let h := if diff = 0 then 0 else (2 * 30 * hnum + diff) / (2 * diff)
  let h := if h < 0 then h + 180 else h
  { c0 := saturateByte h, c1 := saturateByte s, c2 := saturateByte v }

/-- Modelled from the spec: `cv::calcHist` is an OpenCV routine, not part of the repository
("builds a 2D joint histogram over hue and saturation").  The bin of one channel value for
a uniform range `[low, high)` cut into `histSize` bins of equal width; after the OpenCV
reference, a value that is not between `low` (inclusive) and `high` (exclusive) has no bin
and the pixel is not counted. -/
def binIndex (histSize : Nat) (range : ℚ × ℚ) (v : Fin 256) : Option Nat :=
  if range.1 ≤ (v.val : ℚ) ∧ (v.val : ℚ) < range.2 then
    some (Int.toNat ⌊((v.val : ℚ) - range.1) * (histSize : ℚ) / (range.2 - range.1)⌋)
  else
    none

/-- Modelled from the spec: part of `cv::calcHist` (see `binIndex`).  The position, in the
row-major `histSize.1 × histSize.2` table, of the bin of a pixel for `channels = {0, 1}`;
`none` when one of the two values is outside its range. -/
def binOf (histSize : Nat × Nat) (ranges : (ℚ × ℚ) × (ℚ × ℚ)) (p : Vec3b) : Option Nat :=
  match binIndex histSize.1 ranges.1 p.c0, binIndex histSize.2 ranges.2 p.c1 with
  | some i, some j => some (i * histSize.2 + j)
  | _, _ => none

/-- Modelled from the spec: `cv::calcHist` is an OpenCV routine, not part of the repository
("builds a 2D joint histogram over hue and saturation for each frame (fixed bin counts)").
With one image, channels 0 and 1, no mask, uniform ranges and no accumulation, entry `k` of
the table is the number of pixels whose bin is `k`. -/
def calcHist (pixels : List Vec3b) (histSize : Nat × Nat) (ranges : (ℚ × ℚ) × (ℚ × ℚ)) :
    List Nat :=
  (List.range (histSize.1 * histSize.2)).map
    (fun k => pixels.countP (fun p => binOf histSize ranges p = some k))

/-- The constant `DBL_EPSILON` of `<float.h>`. -/
def DBL_EPSILON : ℚ := 1 / 2 ^ 52

/-- Modelled from the spec: `cv::normalize` is an OpenCV routine, not part of the
repository ("independently normalizes each histogram to a common scale").  With
`NORM_MINMAX`, after the OpenCV reference: the values are mapped affinely so that the
smallest becomes `min alpha beta` and the largest `max alpha beta`; when the largest and the
smallest differ by at most `DBL_EPSILON` the scale is 0. -/
def normalize {R : Type} [LinearOrderedField R] (src : List R) (alpha beta : R) : List R :=
  let smin := src.min?.getD 0
  let smax := src.max?.getD 0
  let dmin := min alpha beta
  let dmax := max alpha beta
  let scale := (dmax - dmin)
    * (if smax - smin > ((DBL_EPSILON : ℚ) : R) then 1 / (smax - smin) else 0)
  let shift := dmin - smin * scale
  src.map (fun x => x * scale + shift)

/-- Modelled from the spec: `cv::compareHist` is an OpenCV routine, not part of the
repository ("returns a statistical correlation coefficient between the two normalized
histograms").  With `CV_COMP_CORREL`, after the OpenCV reference: the sums over the bins are
accumulated, the coefficient is `num / sqrt denom2`, and 1 is returned when `denom2` does
not exceed `DBL_EPSILON` in absolute value.  The square root of `<math.h>` is the parameter
`sqrt`. -/
def compareHist {R : Type} [LinearOrderedField R] (sqrt : R → R) (H1 H2 : List R) : R :=
  let bins := H1.zip H2
  let s12 := (bins.map (fun ab => ab.1 * ab.2)).sum
  let s1 := (bins.map (fun ab => ab.1)).sum
  let s11 := (bins.map (fun ab => ab.1 * ab.1)).sum
  let s2 := (bins.map (fun ab => ab.2)).sum
  let s22 := (bins.map (fun ab => ab.2 * ab.2)).sum
  let total := H1.length
  let scale := 1 / (total : R)
  let num := s12 - s1 * s2 * scale
  let denom2 := (s11 - s1 * s1 * scale) * (s22 - s2 * s2 * scale)
  if |denom2| > ((DBL_EPSILON : ℚ) : R) then num / sqrt denom2 else 1

/-- Lines 47-59 for one frame: the conversion `cvtColor` is applied to every pixel, then
`cv::calcHist` is called with `histSize = {50, 60}`, `h_range = {0, 255}` for channel 0
and `s_range = {0, 180}` for channel 1. -/
def frameHist (cvtColor : Vec3b → Vec3b) (img : Image) : List Nat :=
  let m := img.data.map cvtColor
  let h_bins := 50
  let s_bins := 60
  let histSize := (h_bins, s_bins)
  let h_range : ℚ × ℚ := (0, 255)
  let s_range : ℚ × ℚ := (0, 180)
  let ranges := (h_range, s_range)
  calcHist m histSize ranges

/-- Function `compareImgDiff` (lines 43-67): both frames are converted, the histogram of
each is computed and normalised to `[0, 1]`, and the two are compared by correlation.  The
pixel conversion and the square root are parameters. -/
def compareImgDiff {R : Type} [LinearOrderedField R] (sqrt : R → R)
    (cvtColor : Vec3b → Vec3b) (Ref Test : Image) : R :=
  let hist_ref := normalize ((frameHist cvtColor Ref).map (fun n : Nat => (n : R))) 0 1
  let hist_test := normalize ((frameHist cvtColor Test).map (fun n : Nat => (n : R))) 0 1
  compareHist sqrt hist_ref hist_test

/-- The number of pixels of a frame whose converted hue and saturation both lie inside the
ranges of the source: hue below 255 and saturation below 180. -/
def pixelsInRange (cvtColor : Vec3b → Vec3b) (img : Image) : Nat :=
  img.data.countP (fun p => (cvtColor p).c0.val < 255 ∧ (cvtColor p).c1.val < 180)

/-- A frame of one pixel, pure red: blue 0, green 0, red 255. -/
def redFrame : Image :=
  { rows := 1, cols := 1, data := [{ c0 := 0, c1 := 0, c2 := 255 }], size_eq := rfl }

/-! ## `average` and the loop in binary64 arithmetic

A `double` is a rational number, namely one of the values of the binary64 format; every
operation on doubles returns the exact result rounded to the nearest such value, ties to the
even significand.  Overflow to infinity and NaN are outside this model: the scores lie in
`[-1, 1]`, so the sums of a window stay far below the largest double. -/

/-- Rounding of a rational to the nearest integer, ties to the even integer. -/
def roundHalfEven (q : ℚ) : ℤ :=
  let f := ⌊q⌋
  let r := q - f
  if r < 1 / 2 then f
  else if 1 / 2 < r then f + 1
  else if f % 2 = 0 then f else f + 1

/-- The exponent of the spacing of the doubles around `x`: 53 significant bits, and the
fixed spacing `2 ^ (-1074)` of the subnormal range. -/
def ulpExponent (x : ℚ) : ℤ := max (Int.log 2 |x| - 52) (-1074)

/-- The double nearest to `x` (round to nearest, ties to even): the result that a binary64
operation returns when its exact result is `x`. -/
def roundToDouble (x : ℚ) : ℚ :=
  (roundHalfEven (x / 2 ^ ulpExponent x) : ℚ) * 2 ^ ulpExponent x

/-- Function `average` (lines 69-77) as the program executes it: `sum` starts at `0.0`,
every `sum += vector[i]` is a binary64 addition, and `sum / size` is a binary64 division by
the size converted to `double`. -/
def averageDouble (vector : List ℚ) : ℚ :=
  let sum := vector.foldl (fun sum x => roundToDouble (sum + x)) 0
  roundToDouble (sum / (vector.length : ℚ))

/-- One iteration of the `while (true)` loop of `main` (lines 96-137), with the function
called at line 121 as the parameter `average`. -/
def cycleWith {Mat : Type} (average : List ℚ → ℚ) (compareImgDiff : Mat → Mat → ℚ)
    (K : Nat) (t : ℚ) (s : LoopState Mat) (inp : CycleInput Mat) :
    LoopState Mat × List (Effect Mat) :=
  match inp.pImage with
  | none => (s, [Effect.sleep 10])
  | some pImage =>
    if !s.isRefImageSet then
      ({ s with ref_img := pImage, isRefImageSet := true }, [Effect.sleep N_Capture])
    else
      let cur_img := pImage
      let diff := compareImgDiff s.ref_img cur_img
      let img_diff := pushEvict K s.img_diff diff
      let diff_average := average img_diff
      ({ s with img_diff := img_diff },
        [Effect.printf diff] ++ alertBranch t diff_average cur_img inp
          ++ [Effect.sleep N_Capture])

/-- Finitely many iterations of `cycleWith`. -/
def runWith {Mat : Type} (average : List ℚ → ℚ) (compareImgDiff : Mat → Mat → ℚ)
    (K : Nat) (t : ℚ) :
    LoopState Mat → List (CycleInput Mat) → LoopState Mat × List (List (Effect Mat))
  | s, [] => (s, [])
  | s, inp :: rest =>
    let r := cycleWith average compareImgDiff K t s inp
    let rs := runWith average compareImgDiff K t r.1 rest
    (rs.1, r.2 :: rs.2)

/-- The iteration as the program executes it: `average` in binary64, the window capacity
`AVG_COUNT`, and the double that the literal `0.7` of `THRESHOLD` denotes. -/
def mainCycleDouble {Mat : Type} (compareImgDiff : Mat → Mat → ℚ)
    (s : LoopState Mat) (inp : CycleInput Mat) : LoopState Mat × List (Effect Mat) :=
  cycleWith averageDouble compareImgDiff AVG_COUNT (roundToDouble THRESHOLD) s inp

/-- Finitely many iterations as the program executes them. -/
def mainRunDouble {Mat : Type} (compareImgDiff : Mat → Mat → ℚ) :
    LoopState Mat → List (CycleInput Mat) → LoopState Mat × List (List (Effect Mat)) :=
  runWith averageDouble compareImgDiff AVG_COUNT (roundToDouble THRESHOLD)

/-! ## `compareImgDiff` and the loop on a store of pixel buffers

A `cv::Mat` is a header that designates a pixel buffer: copying a header (`cv::Mat(pImage)`,
a `const cv::Mat &` argument) shares the buffer, `clone` allocates a new one, and a routine
that writes its output matrix writes that buffer.  In this section the buffers alive at one
point of the execution are the entries of a list and a header is the index of its buffer,
so that a write through one header is seen through every header with the same index. -/

/-- The pixels of the buffer that a header designates (the empty matrix when there is no
such buffer). -/
def readMat (mem : List Image) (m : Nat) : Image :=
  mem.getD m default

/-- Method `cv::Mat::clone`: a new buffer is allocated with a copy of the pixels; the
result is the header of the new buffer and the store with it. -/
def clone (mem : List Image) (m : Nat) : Nat × List Image :=
  (mem.length, mem ++ [readMat mem m])

/-- The image with every pixel converted. -/
def convertPixels (code : Vec3b → Vec3b) (img : Image) : Image :=
  { rows := img.rows, cols := img.cols, data := img.data.map code,
    size_eq := by rw [List.length_map]; exact img.size_eq }

/-- Modelled from the spec: `cv::cvtColor(src, dst, code)` is an OpenCV routine, not part
of the repository.  The pixels of `src` are converted and written to the buffer of `dst`
(the source calls it with `dst` equal to `src`, in place). -/
def cvtColorMat (code : Vec3b → Vec3b) (mem : List Image) (src dst : Nat) : List Image :=
  mem.set dst (convertPixels code (readMat mem src))

/-- Function `compareImgDiff` (lines 43-67), statement by statement on the store: the two
arguments are headers; `m_ref` and `m_test` are clones, converted in place; the histograms
are local values; the clones are released when the function returns.  The result is the
score and the store that the caller finds afterwards. -/
def compareImgDiffOn {R : Type} [LinearOrderedField R] (sqrt : R → R)
    (code : Vec3b → Vec3b) (Ref Test : Nat) (mem : List Image) : R × List Image :=
  let c1 := clone mem Ref
  let m_ref := c1.1
  let c2 := clone c1.2 Test
  let m_test := c2.1
  let mem1 := cvtColorMat code c2.2 m_ref m_ref
  let mem2 := cvtColorMat code mem1 m_test m_test
  let h_bins := 50
  let s_bins := 60
  let histSize := (h_bins, s_bins)
  let h_range : ℚ × ℚ := (0, 255)
  let s_range : ℚ × ℚ := (0, 180)
  let ranges := (h_range, s_range)
  let hist_ref := (calcHist (readMat mem2 m_ref).data histSize ranges).map
    (fun n : Nat => (n : R))
  let hist_ref := normalize hist_ref 0 1
  let hist_test := (calcHist (readMat mem2 m_test).data histSize ranges).map
    (fun n : Nat => (n : R))
  let hist_test := normalize hist_test 0 1
  let re := compareHist sqrt hist_ref hist_test
  (re, mem2.take mem.length)

/-- The local variables of `main` that live across iterations, with the store: `ref_img` is
a header. -/
structure MainState where
  mem : List Image
  isRefImageSet : Bool
  img_diff : List ℚ
  ref_img : Nat

/-- The variables as declared before the loop.  Header 0 is the frame buffer of the
capture, which holds arbitrary pixels before the first frame; header 1 is the empty matrix
of `cv::Mat ref_img;`. -/
def MainState.init (buffer : Image) : MainState :=
  { mem := [buffer, default], isRefImageSet := false, img_diff := [], ref_img := 1 }

/-- One iteration of the `while (true)` loop of `main` (lines 96-137) on the store.
`cvQueryFrame` writes the frame it grabbed into the buffer of the capture and returns a
pointer to it; `cv::Mat(pImage)` and `cur_img` are headers of that buffer, `ref_img`
becomes the header of a clone.  The image handed to `cv::imwrite` is what the buffer of
`cur_img` holds after the call of `compareImgDiff`. -/
def cycleOn (average : List ℚ → ℚ) (sqrt : ℚ → ℚ) (code : Vec3b → Vec3b)
    (K : Nat) (t : ℚ) (s : MainState) (inp : CycleInput Image) :
    MainState × List (Effect Image) :=
  match inp.pImage with
  | none => (s, [Effect.sleep 10])
  | some frame =>
    let mem := s.mem.set 0 frame
    let pImage := 0
    if !s.isRefImageSet then
      let c := clone mem pImage
      ({ s with mem := c.2, ref_img := c.1, isRefImageSet := true },
        [Effect.sleep N_Capture])
    else
      let cur_img := pImage
      let r := compareImgDiffOn sqrt code s.ref_img cur_img mem
      let diff := r.1
      let img_diff := pushEvict K s.img_diff diff
      let diff_average := average img_diff
      ({ s with mem := r.2, img_diff := img_diff },
        [Effect.printf diff] ++ alertBranch t diff_average (readMat r.2 cur_img) inp
          ++ [Effect.sleep N_Capture])

/-- Finitely many iterations of `cycleOn`. -/
def runOn (average : List ℚ → ℚ) (sqrt : ℚ → ℚ) (code : Vec3b → Vec3b) (K : Nat) (t : ℚ) :
    MainState → List (CycleInput Image) → MainState × List (List (Effect Image))
  | s, [] => (s, [])
  | s, inp :: rest =>
    let r := cycleOn average sqrt code K t s inp
    let rs := runOn average sqrt code K t r.1 rest
    (rs.1, r.2 :: rs.2)

/-- The variables of the loop with the reference frame in place of its header. -/
def MainState.toLoopState (s : MainState) : LoopState Image :=
  { isRefImageSet := s.isRefImageSet, img_diff := s.img_diff,
    ref_img := readMat s.mem s.ref_img }

/-! ## Lemmas on the window -/

theorem average_eq_sum_div (v : List ℚ) : average v = v.sum / (v.length : ℚ) := by
  unfold average
  have h : ∀ (l : List ℚ) (a : ℚ), l.foldl (fun sum x => sum + x) a = a + l.sum := by
    intro l
    induction l with
    | nil => intro a; simp
    | cons x xs ih => intro a; simp [ih, add_assoc]
  simp [h]

theorem lastK_length (K : Nat) (l : List ℚ) : (lastK K l).length = min l.length K := by
  unfold lastK
  simp
  omega

theorem pushEvict_lastK (K : Nat) (l : List ℚ) (x : ℚ) :
    pushEvict K (lastK K l) x = lastK K (l ++ [x]) := by
  unfold pushEvict lastK
  by_cases h : l.length < K
  · have h0 : l.length - K = 0 := by omega
    have h1 : (l ++ [x]).length - K = 0 := by simp; omega
    rw [h0, h1]
    simp
    omega
  · have hlen : (List.drop (l.length - K) l ++ [x]).length > K := by simp; omega
    simp only [hlen, if_true]
    have h2 : (l ++ [x]).length - K = (l.length - K) + 1 := by simp; omega
    rw [h2]
    rw [← List.drop_one, ← List.drop_drop]
    congr 1
    rw [List.drop_append_of_le_length (by omega)]

theorem foldl_pushEvict_lastK (K : Nat) (l scores : List ℚ) :
    scores.foldl (pushEvict K) (lastK K l) = lastK K (l ++ scores) := by
  induction scores generalizing l with
  | nil => simp
  | cons x xs ih =>
    rw [List.foldl_cons, pushEvict_lastK, ih]
    simp

theorem foldl_pushEvict_nil (K : Nat) (scores : List ℚ) :
    scores.foldl (pushEvict K) [] = lastK K scores := by
  have h := foldl_pushEvict_lastK K [] scores
  simpa [lastK] using h

/-! ## Lemmas on one iteration and on runs -/

section Loop

variable {Mat : Type} (compareImgDiff : Mat → Mat → ℚ) (K : Nat) (t : ℚ)

theorem cycle_noFrame (s : LoopState Mat) (inp : CycleInput Mat) (h : inp.pImage = none) :
    cycle compareImgDiff K t s inp = (s, [Effect.sleep 10]) := by
  simp [cycle, h]

theorem cycle_adopt (s : LoopState Mat) (inp : CycleInput Mat) (f : Mat)
    (h : inp.pImage = some f) (hs : s.isRefImageSet = false) :
    cycle compareImgDiff K t s inp
      = ({ s with ref_img := f, isRefImageSet := true }, [Effect.sleep N_Capture]) := by
  simp [cycle, h, hs]

theorem cycle_compare (s : LoopState Mat) (inp : CycleInput Mat) (f : Mat)
    (h : inp.pImage = some f) (hs : s.isRefImageSet = true) :
    cycle compareImgDiff K t s inp
      = ({ s with img_diff := pushEvict K s.img_diff (compareImgDiff s.ref_img f) },
          [Effect.printf (compareImgDiff s.ref_img f)]
            ++ alertBranch t (average (pushEvict K s.img_diff (compareImgDiff s.ref_img f)))
                f inp
            ++ [Effect.sleep N_Capture]) := by
  simp [cycle, h, hs]

theorem run_append (s : LoopState Mat) (xs ys : List (CycleInput Mat)) :
    run compareImgDiff K t s (xs ++ ys)
      = ((run compareImgDiff K t (run compareImgDiff K t s xs).1 ys).1,
          (run compareImgDiff K t s xs).2
            ++ (run compareImgDiff K t (run compareImgDiff K t s xs).1 ys).2) := by
  induction xs generalizing s with
  | nil => simp [run]
  | cons x xs ih => simp [run, ih]

theorem run_of_set (s : LoopState Mat) (hs : s.isRefImageSet = true)
    (ins : List (CycleInput Mat)) :
    (run compareImgDiff K t s ins).1
      = { s with img_diff :=
            ((frames ins).map (compareImgDiff s.ref_img)).foldl (pushEvict K) s.img_diff } := by
  induction ins generalizing s with
  | nil => simp [run, frames]
  | cons inp rest ih =>
    cases hp : inp.pImage with
    | none =>
      simp only [run, cycle_noFrame compareImgDiff K t s inp hp]
      rw [ih s hs]
      simp [frames, hp]
    | some f =>
      simp only [run, cycle_compare compareImgDiff K t s inp f hp hs]
      rw [ih { s with img_diff := pushEvict K s.img_diff (compareImgDiff s.ref_img f) } hs]
      simp [frames, hp]

theorem run_init [Inhabited Mat] (ins : List (CycleInput Mat)) :
    (run compareImgDiff K t LoopState.init ins).1
      = match frames ins with
        | [] => LoopState.init
        | f0 :: fs =>
          { isRefImageSet := true, img_diff := lastK K (fs.map (compareImgDiff f0)),
            ref_img := f0 } := by
  induction ins with
  | nil => simp [run, frames]
  | cons inp rest ih =>
    cases hp : inp.pImage with
    | none =>
      simp only [run, cycle_noFrame compareImgDiff K t _ inp hp]
      rw [ih]
      simp [frames, hp]
    | some f =>
      have hinit : (LoopState.init : LoopState Mat).isRefImageSet = false := rfl
      simp only [run, cycle_adopt compareImgDiff K t LoopState.init inp f hp hinit]
      rw [run_of_set compareImgDiff K t
        { (LoopState.init : LoopState Mat) with ref_img := f, isRefImageSet := true } rfl]
      simp [frames, hp, LoopState.init, foldl_pushEvict_nil]

theorem dispatchOf_alertBranch (m : ℚ) (cur : Mat) (inp : CycleInput Mat) :
    dispatchOf (alertBranch t m cur inp) = alertBranch t m cur inp := by
  unfold alertBranch dispatchOf
  split <;> simp [dispatch, Effect.isDispatch]

theorem dispatchOf_compare_trace (d m : ℚ) (n : Nat) (cur : Mat) (inp : CycleInput Mat) :
    dispatchOf ([Effect.printf d] ++ alertBranch t m cur inp ++ [Effect.sleep n])
      = alertBranch t m cur inp := by
  have h := dispatchOf_alertBranch t m cur inp
  unfold dispatchOf at h ⊢
  simp [List.filter_append, h, Effect.isDispatch]

theorem alertBranch_ne_nil_iff (m : ℚ) (cur : Mat) (inp : CycleInput Mat) :
    alertBranch t m cur inp ≠ [] ↔ m < t := by
  unfold alertBranch
  by_cases h : m < t <;> simp [h, dispatch]

theorem pushEvict_length (w : List ℚ) (x : ℚ) (h : w.length ≤ K) :
    (pushEvict K w x).length = min (w.length + 1) K := by
  simp only [pushEvict, List.length_append, List.length_singleton]
  split
  · simp only [List.length_tail, List.length_append, List.length_singleton]
    omega
  · simp only [List.length_append, List.length_singleton]
    omega

theorem run_init_window_length [Inhabited Mat] (ins : List (CycleInput Mat)) :
    (run compareImgDiff K t LoopState.init ins).1.img_diff.length ≤ K := by
  rw [run_init]
  cases frames ins with
  | nil => simp [LoopState.init]
  | cons f0 fs => simp only [lastK_length]; omega

theorem run_init_not_set [Inhabited Mat] (ins : List (CycleInput Mat))
    (h : (run compareImgDiff K t LoopState.init ins).1.isRefImageSet = false) :
    (run compareImgDiff K t LoopState.init ins).1 = LoopState.init := by
  rw [run_init] at h ⊢
  cases hf : frames ins with
  | nil => rfl
  | cons f0 fs => rw [hf] at h; simp at h

theorem frames_append (xs ys : List (CycleInput Mat)) :
    frames (xs ++ ys) = frames xs ++ frames ys := by
  simp [frames, List.filterMap_append]

theorem frames_eq_nil (fails : List (CycleInput Mat)) (hf : ∀ i ∈ fails, i.pImage = none) :
    frames fails = [] := by
  induction fails with
  | nil => rfl
  | cons i rest ih =>
    have hi : i.pImage = none := hf i (List.mem_cons_self _ _)
    have hr : frames rest = [] := ih (fun j hj => hf j (List.mem_cons_of_mem _ hj))
    simp only [frames] at hr ⊢
    simp [List.filterMap_cons, hi, hr]

end Loop

/-! ## Lemmas on `getDateString` -/

theorem replaceSeparators_length (l : List Char) :
    (replaceSeparators l).length = l.length := by
  simp [replaceSeparators]

theorem getDateString_data (d : String) (body : List Char) (hd : d.data = body ++ ['\n']) :
    (getDateString d).data = replaceSeparators body ++ ['y'] := by
  have hsplit : replaceSeparators (body ++ ['\n']) = replaceSeparators body ++ ['\n'] := by
    simp [replaceSeparators]
  simp only [getDateString, hd, hsplit, List.length_append, List.length_singleton,
    Nat.add_sub_cancel]
  simp [List.set_append]

theorem not_mem_replaceSeparators (l : List Char) (c : Char) (hc : c = ' ' ∨ c = ':') :
    c ∉ replaceSeparators l := by
  intro h
  simp only [replaceSeparators, List.mem_map] at h
  obtain ⟨a, _, ha⟩ := h
  by_cases hsep : a = ' ' ∨ a = ':'
  · rw [if_pos hsep] at ha
    rcases hc with hc | hc <;> rw [hc] at ha <;> exact absurd ha (by decide)
  · rw [if_neg hsep] at ha
    rw [ha] at hsep
    exact hsep hc

theorem newline_not_mem_replaceSeparators (l : List Char) (hl : '\n' ∉ l) :
    '\n' ∉ replaceSeparators l := by
  intro h
  simp only [replaceSeparators, List.mem_map] at h
  obtain ⟨a, hmem, ha⟩ := h
  by_cases hsep : a = ' ' ∨ a = ':'
  · rw [if_pos hsep] at ha
    exact absurd ha (by decide)
  · rw [if_neg hsep] at ha
    rw [ha] at hmem
    exact hl hmem

theorem replaceSeparators_getElem? (l : List Char) (i : Nat) :
    (replaceSeparators l)[i]?
      = (l[i]?).map (fun c => if c = ' ' ∨ c = ':' then '_' else c) := by
  simp [replaceSeparators]

/-! ## Lemmas on the histogram comparison -/

theorem sum_sq_sub (x : ℚ) (l : List ℚ) :
    (l.map (fun y => (x - y) * (x - y))).sum
      = (l.length : ℚ) * (x * x) - 2 * x * l.sum + (l.map (fun y => y * y)).sum := by
  induction l with
  | nil => simp
  | cons y ys ih =>
    simp only [List.map_cons, List.sum_cons, List.length_cons, ih]
    push_cast
    ring

theorem sum_mul_self_le (l : List ℚ) :
    l.sum * l.sum ≤ (l.length : ℚ) * (l.map (fun y => y * y)).sum := by
  induction l with
  | nil => simp
  | cons x xs ih =>
    have hsq : 0 ≤ (xs.map (fun y => (x - y) * (x - y))).sum := by
      apply List.sum_nonneg
      intro a ha
      obtain ⟨y, _, rfl⟩ := List.mem_map.mp ha
      exact mul_self_nonneg _
    rw [sum_sq_sub] at hsq
    simp only [List.map_cons, List.sum_cons, List.length_cons]
    push_cast
    nlinarith [hsq, ih]

theorem zip_self_eq_map (l : List ℚ) : l.zip l = l.map (fun a => (a, a)) := by
  induction l with
  | nil => rfl
  | cons x xs ih => simp [ih]

theorem compareHist_self (sqrt : ℚ → ℚ) (hsqrt : ∀ a : ℚ, 0 ≤ a → sqrt (a * a) = a)
    (h : List ℚ) : compareHist sqrt h h = 1 := by
  have hvar : 0 ≤ (h.map (fun y => y * y)).sum - h.sum * h.sum * (1 / (h.length : ℚ)) := by
    have hcs := sum_mul_self_le h
    by_cases hn : (h.length : ℚ) = 0
    · have hnil : h = [] := by
        have : h.length = 0 := by exact_mod_cast hn
        exact List.length_eq_zero.mp this
      simp [hnil]
    · have hpos : 0 < (h.length : ℚ) := lt_of_le_of_ne (Nat.cast_nonneg _) (Ne.symm hn)
      have : h.sum * h.sum * (1 / (h.length : ℚ)) ≤ (h.map (fun y => y * y)).sum := by
        rw [mul_one_div, div_le_iff₀ hpos]
        linarith
      linarith
  simp only [compareHist, zip_self_eq_map, List.map_map, Function.comp_def]
  simp only [List.map_id']
  split
  · next hgt =>
    rw [hsqrt _ hvar]
    have hne : (h.map (fun y => y * y)).sum - h.sum * h.sum * (1 / (h.length : ℚ)) ≠ 0 := by
      intro h0
      rw [h0] at hgt
      norm_num [DBL_EPSILON] at hgt
    exact div_self hne
  · rfl

/-! ## Lemmas on the histogram -/

theorem binIndex_lt (n : Nat) (range : ℚ × ℚ) (v : Fin 256) (i : Nat) (hn : 0 < n)
    (h : binIndex n range v = some i) : i < n := by
  unfold binIndex at h
  split at h
  · next hin =>
    have hi := Option.some.inj h
    have hwidth : 0 < range.2 - range.1 := by linarith [hin.1, hin.2]
    have hnum : 0 ≤ ((v.val : ℚ) - range.1) * (n : ℚ) :=
      mul_nonneg (by linarith [hin.1]) (Nat.cast_nonneg n)
    have hx : ((v.val : ℚ) - range.1) * (n : ℚ) / (range.2 - range.1) < ((n : ℤ) : ℚ) := by
      rw [div_lt_iff₀ hwidth]
      have hnq : (0 : ℚ) < (n : ℚ) := by exact_mod_cast hn
      push_cast
      nlinarith [hin.2]
    have hfl := Int.floor_lt.mpr hx
    rw [← hi]
    omega
  · cases h

theorem binIndex_isSome (n : Nat) (hi : ℚ) (v : Fin 256) :
    (binIndex n (0, hi) v).isSome = true ↔ (v.val : ℚ) < hi := by
  unfold binIndex
  have h0 : (0 : ℚ) ≤ (v.val : ℚ) := Nat.cast_nonneg _
  by_cases h : (v.val : ℚ) < hi <;> simp [h, h0]

theorem binOf_lt (hs : Nat × Nat) (rg : (ℚ × ℚ) × (ℚ × ℚ)) (p : Vec3b) (k : Nat)
    (h1 : 0 < hs.1) (h2 : 0 < hs.2) (h : binOf hs rg p = some k) : k < hs.1 * hs.2 := by
  unfold binOf at h
  split at h
  · next i j hi hj =>
    have hk := Option.some.inj h
    have hi2 := binIndex_lt hs.1 rg.1 p.c0 i h1 hi
    have hj2 := binIndex_lt hs.2 rg.2 p.c1 j h2 hj
    rw [← hk]
    calc i * hs.2 + j < i * hs.2 + hs.2 := by omega
      _ = (i + 1) * hs.2 := by ring
      _ ≤ hs.1 * hs.2 := Nat.mul_le_mul_right _ hi2
  · cases h

theorem sum_indicator_range (N : Nat) (o : Option Nat) :
    ((List.range N).map (fun k => if o = some k then 1 else 0)).sum
      = if ∃ k, k < N ∧ o = some k then 1 else 0 := by
  induction N with
  | zero => simp
  | succ n ih =>
    rw [List.range_succ, List.map_append, List.sum_append, ih]
    cases o with
    | none => simp
    | some a =>
      by_cases h1 : a < n
      · have h2 : a ≠ n := by omega
        have h3 : a < n + 1 := by omega
        simp [h1, h2, h3]
      · by_cases h2 : a = n
        · simp [h2]
        · have h3 : ¬ a < n + 1 := by omega
          simp [h1, h2, h3]

theorem calcHist_sum (pixels : List Vec3b) (hs : Nat × Nat) (rg : (ℚ × ℚ) × (ℚ × ℚ))
    (h1 : 0 < hs.1) (h2 : 0 < hs.2) :
    (calcHist pixels hs rg).sum = pixels.countP (fun p => (binOf hs rg p).isSome) := by
  unfold calcHist
  induction pixels with
  | nil => simp
  | cons p ps ih =>
    have hsplit : ∀ k : Nat,
        (p :: ps).countP (fun q => decide (binOf hs rg q = some k))
          = ps.countP (fun q => decide (binOf hs rg q = some k))
            + (if binOf hs rg p = some k then 1 else 0) := by
      intro k
      rw [List.countP_cons]
      simp
    simp only [hsplit, List.sum_map_add, ih, sum_indicator_range]
    rw [List.countP_cons]
    congr 1
    cases hb : binOf hs rg p with
    | none => simp
    | some k0 =>
      have hk := binOf_lt hs rg p k0 h1 h2 hb
      simp [hk]

theorem binOf_isSome_source (p : Vec3b) :
    (binOf (50, 60) ((0, 255), (0, 180)) p).isSome = true
      ↔ p.c0.val < 255 ∧ p.c1.val < 180 := by
  have ha := binIndex_isSome 50 255 p.c0
  have hb := binIndex_isSome 60 180 p.c1
  have hc0 : ((p.c0.val : ℚ) < 255) ↔ p.c0.val < 255 := by exact_mod_cast Iff.rfl
  have hc1 : ((p.c1.val : ℚ) < 180) ↔ p.c1.val < 180 := by exact_mod_cast Iff.rfl
  rw [hc0] at ha
  rw [hc1] at hb
  unfold binOf
  cases h0 : binIndex 50 (0, 255) p.c0 with
  | none =>
    rw [h0] at ha
    simp at ha
    simp
    omega
  | some i =>
    rw [h0] at ha
    cases h1 : binIndex 60 (0, 180) p.c1 with
    | none =>
      rw [h1] at hb
      simp at hb
      simp
      omega
    | some j =>
      rw [h1] at hb
      simp at ha hb
      simp
      omega

theorem frameHist_sum (cvtColor : Vec3b → Vec3b) (img : Image) :
    (frameHist cvtColor img).sum = pixelsInRange cvtColor img := by
  unfold frameHist pixelsInRange
  simp only []
  rw [calcHist_sum _ _ _ (by decide) (by decide), List.countP_map]
  apply List.countP_congr
  intro p _
  simp only [Function.comp_apply]
  rw [binOf_isSome_source]
  simp

/-! ## Lemmas on what an iteration prints and decides -/

section Decisions

variable {Mat : Type} (compareImgDiff : Mat → Mat → ℚ) (K : Nat) (t : ℚ)

theorem printedScores_compare_trace (d m : ℚ) (n : Nat) (cur : Mat) (inp : CycleInput Mat) :
    printedScores ([Effect.printf d] ++ alertBranch t m cur inp ++ [Effect.sleep n]) = [d] := by
  unfold alertBranch
  split <;> simp [printedScores, dispatch]

theorem triggered_compare_trace (d m : ℚ) (n : Nat) (cur : Mat) (inp : CycleInput Mat) :
    triggered ([Effect.printf d] ++ alertBranch t m cur inp ++ [Effect.sleep n])
      = decide (m < t) := by
  unfold triggered
  rw [dispatchOf_compare_trace]
  unfold alertBranch
  by_cases h : m < t <;> simp [h, dispatch]

end Decisions

/-! ## Lemmas on averages below the threshold and on runs of comparisons -/

theorem length_mul_le_sum (l : List ℚ) (a : ℚ) (h : ∀ x ∈ l, a ≤ x) :
    (l.length : ℚ) * a ≤ l.sum := by
  induction l with
  | nil => simp
  | cons x xs ih =>
    have hx : a ≤ x := h x (List.mem_cons_self _ _)
    have := ih (fun y hy => h y (List.mem_cons_of_mem _ hy))
    simp only [List.sum_cons, List.length_cons]
    push_cast
    linarith

theorem sum_le_length_mul (l : List ℚ) (b : ℚ) (h : ∀ x ∈ l, x ≤ b) :
    l.sum ≤ (l.length : ℚ) * b := by
  induction l with
  | nil => simp
  | cons x xs ih =>
    have hx : x ≤ b := h x (List.mem_cons_self _ _)
    have := ih (fun y hy => h y (List.mem_cons_of_mem _ hy))
    simp only [List.sum_cons, List.length_cons]
    push_cast
    linarith

/-- In the exact arithmetic of the model, the average of a non-empty window lies between any
lower and upper bound of its samples (the rounding of `double` sums is not modelled). -/
theorem average_between_exact (l : List ℚ) (a b : ℚ) (hne : l ≠ [])
    (h : ∀ x ∈ l, a ≤ x ∧ x ≤ b) : a ≤ average l ∧ average l ≤ b := by
  rw [average_eq_sum_div]
  have hpos : (0 : ℚ) < (l.length : ℚ) := by
    have : 0 < l.length := List.length_pos.mpr hne
    exact_mod_cast this
  have h1 := length_mul_le_sum l a (fun x hx => (h x hx).1)
  have h2 := sum_le_length_mul l b (fun x hx => (h x hx).2)
  constructor
  · rw [le_div_iff₀ hpos]; linarith
  · rw [div_le_iff₀ hpos]; linarith

theorem lastK_min_length (K : Nat) (l : List ℚ) : lastK (min l.length K) l = lastK K l := by
  unfold lastK
  congr 1
  omega

section Runs

variable {Mat : Type} (compareImgDiff : Mat → Mat → ℚ) (K : Nat) (t : ℚ)

theorem run_all_below (s : LoopState Mat) (hs : s.isRefImageSet = true)
    (ins : List (CycleInput Mat)) (hcap : ∀ inp ∈ ins, inp.pImage ≠ none)
    (hbelow : ∀ k : Nat, k < ins.length →
      average (run compareImgDiff K t s (ins.take (k + 1))).1.img_diff < t) :
    (run compareImgDiff K t s ins).2.map dispatchOf
      = ins.filterMap (fun inp => inp.pImage.map (fun cur => dispatch cur inp)) := by
  induction ins generalizing s with
  | nil => simp [run]
  | cons inp rest ih =>
    cases hp : inp.pImage with
    | none => exact absurd hp (hcap inp (List.mem_cons_self _ _))
    | some cur =>
      have h0 := hbelow 0 (by simp)
      simp only [List.take_succ_cons, List.take_zero, run] at h0
      have hrest : ∀ k : Nat, k < rest.length →
          average (run compareImgDiff K t (cycle compareImgDiff K t s inp).1
            (rest.take (k + 1))).1.img_diff < t := by
        intro k hk
        have := hbelow (k + 1) (by simp; omega)
        simpa only [List.take_succ_cons, run] using this
      have hs2 : (cycle compareImgDiff K t s inp).1.isRefImageSet = true := by
        rw [cycle_compare compareImgDiff K t s inp cur hp hs]
        exact hs
      have ih2 := ih (cycle compareImgDiff K t s inp).1 hs2
        (fun j hj => hcap j (List.mem_cons_of_mem _ hj)) hrest
      simp only [run, List.map_cons, ih2, List.filterMap_cons, hp, Option.map_some']
      congr 1
      rw [cycle_compare compareImgDiff K t s inp cur hp hs] at h0 ⊢
      simp only [dispatchOf_compare_trace]
      simp only [alertBranch]
      rw [if_pos h0]

theorem filterMap_dispatch_length (ins : List (CycleInput Mat))
    (hcap : ∀ inp ∈ ins, inp.pImage ≠ none) :
    (ins.filterMap (fun inp => inp.pImage.map (fun cur => dispatch cur inp))).length
      = ins.length := by
  induction ins with
  | nil => rfl
  | cons inp rest ih =>
    cases hp : inp.pImage with
    | none => exact absurd hp (hcap inp (List.mem_cons_self _ _))
    | some cur =>
      simp only [List.filterMap_cons, hp, Option.map_some', List.length_cons]
      rw [ih (fun j hj => hcap j (List.mem_cons_of_mem _ hj))]

end Runs

/-! ## Lemmas on binary64 rounding -/

theorem roundHalfEven_cases (q : ℚ) :
    roundHalfEven q = ⌊q⌋ ∨ roundHalfEven q = ⌊q⌋ + 1 := by
  unfold roundHalfEven
  simp only []
  split_ifs <;> simp

theorem abs_roundHalfEven_sub_le (q : ℚ) : |(roundHalfEven q : ℚ) - q| ≤ 1 / 2 := by
  have h1 := Int.floor_le q
  have h2 := Int.lt_floor_add_one q
  unfold roundHalfEven
  simp only []
  rw [abs_le]
  split_ifs with ha hb hc
  · constructor <;> linarith
  · push_cast; constructor <;> linarith
  · constructor <;> linarith
  · push_cast; constructor <;> linarith

theorem roundHalfEven_le_of_le (q : ℚ) (M : ℤ) (h : q ≤ M) : roundHalfEven q ≤ M := by
  have h1 := Int.floor_le q
  have hf : ⌊q⌋ ≤ M := by
    have : ((⌊q⌋ : ℤ) : ℚ) ≤ (M : ℚ) := le_trans h1 h
    exact_mod_cast this
  have hstep : (1 : ℚ) / 2 ≤ q - ⌊q⌋ → ⌊q⌋ + 1 ≤ M := by
    intro hr
    have : ((⌊q⌋ : ℤ) : ℚ) < (M : ℚ) := by linarith
    have : ⌊q⌋ < M := by exact_mod_cast this
    omega
  unfold roundHalfEven
  simp only []
  split_ifs with ha hb hc
  · exact hf
  · exact hstep (le_of_lt hb)
  · exact hf
  · exact hstep (not_lt.mp ha)

theorem le_roundHalfEven_of_le (q : ℚ) (M : ℤ) (h : (M : ℚ) ≤ q) : M ≤ roundHalfEven q := by
  have hf : M ≤ ⌊q⌋ := Int.le_floor.mpr h
  rcases roundHalfEven_cases q with hc | hc <;> rw [hc] <;> omega

theorem roundHalfEven_intCast (M : ℤ) : roundHalfEven (M : ℚ) = M :=
  le_antisymm (roundHalfEven_le_of_le _ M le_rfl) (le_roundHalfEven_of_le _ M le_rfl)

theorem roundHalfEven_eq_of_lt (q : ℚ) (z : ℤ) (h1 : (z : ℚ) - 1 / 2 < q)
    (h2 : q < (z : ℚ) + 1 / 2) : roundHalfEven q = z := by
  have hf1 := Int.floor_le q
  have hf2 := Int.lt_floor_add_one q
  have hlo : z - 1 ≤ ⌊q⌋ := by
    apply Int.le_floor.mpr
    push_cast
    linarith
  have hhi : ⌊q⌋ ≤ z := by
    have : ((⌊q⌋ : ℤ) : ℚ) < (z : ℚ) + 1 := by linarith
    have : ⌊q⌋ < z + 1 := by exact_mod_cast this
    omega
  rcases (by omega : ⌊q⌋ = z ∨ ⌊q⌋ = z - 1) with hfz | hfz
  · unfold roundHalfEven
    simp only [hfz]
    have : q - (z : ℚ) < 1 / 2 := by linarith
    rw [if_pos this]
  · unfold roundHalfEven
    simp only [hfz]
    have hc : (((z - 1 : ℤ)) : ℚ) = (z : ℚ) - 1 := by push_cast; ring
    have ha : ¬ (q - ((z - 1 : ℤ) : ℚ) < 1 / 2) := by rw [hc]; linarith
    have hb : (1 : ℚ) / 2 < q - ((z - 1 : ℤ) : ℚ) := by rw [hc]; linarith
    rw [if_neg ha, if_pos hb]
    ring

theorem roundHalfEven_tie_even (z : ℤ) (hz : z % 2 = 0) :
    roundHalfEven ((z : ℚ) + 1 / 2) = z := by
  have hfl : ⌊(z : ℚ) + 1 / 2⌋ = z := by
    rw [Int.floor_eq_iff]
    constructor <;> linarith
  unfold roundHalfEven
  simp only [hfl]
  have h1 : ¬ ((z : ℚ) + 1 / 2 - (z : ℚ) < 1 / 2) := by norm_num
  have h2 : ¬ ((1 : ℚ) / 2 < (z : ℚ) + 1 / 2 - (z : ℚ)) := by norm_num
  rw [if_neg h1, if_neg h2, if_pos hz]

theorem ulpExponent_eq (x : ℚ) (k : ℤ) (h1 : (2 : ℚ) ^ k ≤ |x|) (h2 : |x| < (2 : ℚ) ^ (k + 1))
    (hk : -1074 ≤ k - 52) : ulpExponent x = k - 52 := by
  have hpos : 0 < |x| := lt_of_lt_of_le (by positivity) h1
  have hlog : Int.log 2 |x| = k := by
    apply le_antisymm
    · have := (Int.lt_zpow_iff_log_lt (by norm_num : 1 < 2) hpos).mp (by exact_mod_cast h2)
      omega
    · exact (Int.zpow_le_iff_le_log (by norm_num : 1 < 2) hpos).mp (by exact_mod_cast h1)
  unfold ulpExponent
  rw [hlog]
  exact max_eq_left hk

theorem roundToDouble_eq (x : ℚ) (k m : ℤ) (h1 : (2 : ℚ) ^ k ≤ |x|)
    (h2 : |x| < (2 : ℚ) ^ (k + 1)) (hk : -1074 ≤ k - 52)
    (hm : roundHalfEven (x / 2 ^ (k - 52)) = m) :
    roundToDouble x = (m : ℚ) * 2 ^ (k - 52) := by
  unfold roundToDouble
  rw [ulpExponent_eq x k h1 h2 hk, hm]

theorem two_zpow_ulpExponent_le (x : ℚ) (hx : x ≠ 0) :
    (2 : ℚ) ^ ulpExponent x ≤ 2 ^ (-52 : ℤ) * |x| + 2 ^ (-1074 : ℤ) := by
  unfold ulpExponent
  rcases le_total (Int.log 2 |x| - 52) (-1074) with h | h
  · rw [max_eq_right h]
    have : (0 : ℚ) ≤ 2 ^ (-52 : ℤ) * |x| := by positivity
    linarith
  · rw [max_eq_left h]
    have hpos : 0 < |x| := abs_pos.mpr hx
    have hle := Int.zpow_log_le_self (by norm_num : 1 < 2) hpos
    have hsplit : (2 : ℚ) ^ (Int.log 2 |x| - 52)
        = 2 ^ (-52 : ℤ) * 2 ^ (Int.log 2 |x|) := by
      rw [← zpow_add₀ (by norm_num : (2 : ℚ) ≠ 0)]
      congr 1
      ring
    rw [hsplit]
    have h52 : (0 : ℚ) < 2 ^ (-52 : ℤ) := by positivity
    have h1074 : (0 : ℚ) < 2 ^ (-1074 : ℤ) := by positivity
    have hle2 : (2 : ℚ) ^ (Int.log 2 |x|) ≤ |x| := by exact_mod_cast hle
    nlinarith

theorem roundToDouble_zero : roundToDouble 0 = 0 := by
  unfold roundToDouble
  have : roundHalfEven ((0 : ℚ) / 2 ^ ulpExponent 0) = 0 := by
    rw [zero_div]
    exact_mod_cast roundHalfEven_intCast 0
  rw [this]
  simp

theorem abs_roundToDouble_sub_le (x : ℚ) :
    |roundToDouble x - x| ≤ 2 ^ (-53 : ℤ) * |x| + 2 ^ (-1075 : ℤ) := by
  by_cases hx : x = 0
  · rw [hx, roundToDouble_zero]
    simp
    positivity
  have he : (0 : ℚ) < 2 ^ ulpExponent x := by positivity
  have hq := abs_roundHalfEven_sub_le (x / 2 ^ ulpExponent x)
  have hrw : roundToDouble x - x
      = ((roundHalfEven (x / 2 ^ ulpExponent x) : ℚ) - x / 2 ^ ulpExponent x)
          * 2 ^ ulpExponent x := by
    unfold roundToDouble
    field_simp
  rw [hrw, abs_mul, abs_of_pos he]
  have hb := two_zpow_ulpExponent_le x hx
  have h53 : (2 : ℚ) ^ (-53 : ℤ) = 2 ^ (-52 : ℤ) / 2 := by
    rw [eq_div_iff (by norm_num : (2 : ℚ) ≠ 0)]
    rw [← zpow_add_one₀ (by norm_num : (2 : ℚ) ≠ 0)]
    norm_num
  have h1075 : (2 : ℚ) ^ (-1075 : ℤ) = 2 ^ (-1074 : ℤ) / 2 := by
    rw [eq_div_iff (by norm_num : (2 : ℚ) ≠ 0)]
    rw [← zpow_add_one₀ (by norm_num : (2 : ℚ) ≠ 0)]
    norm_num
  rw [h53, h1075]
  calc |(roundHalfEven (x / 2 ^ ulpExponent x) : ℚ) - x / 2 ^ ulpExponent x|
        * 2 ^ ulpExponent x
      ≤ 1 / 2 * 2 ^ ulpExponent x := mul_le_mul_of_nonneg_right hq (le_of_lt he)
    _ ≤ 1 / 2 * (2 ^ (-52 : ℤ) * |x| + 2 ^ (-1074 : ℤ)) := by
        apply mul_le_mul_of_nonneg_left hb (by norm_num)
    _ = 2 ^ (-52 : ℤ) / 2 * |x| + 2 ^ (-1074 : ℤ) / 2 := by ring

theorem abs_sum_le_length_mul (l : List ℚ) (B : ℚ) (h : ∀ x ∈ l, |x| ≤ B) :
    |l.sum| ≤ (l.length : ℚ) * B := by
  induction l with
  | nil => simp
  | cons x xs ih =>
    have hx := h x (List.mem_cons_self _ _)
    have := ih (fun y hy => h y (List.mem_cons_of_mem _ hy))
    simp only [List.sum_cons, List.length_cons]
    push_cast
    have := abs_add x xs.sum
    linarith

theorem round_step_bound (u η B a E S x y : ℚ) (hu : 0 ≤ u) (hη : 0 ≤ η) (hB : 0 ≤ B)
    (ha : 0 ≤ a) (hau : a * u ≤ 1) (hE : E ≤ a * a * (u * B + η)) (hS : S ≤ a * B)
    (hx : x ≤ B) (hy : y ≤ u * (S + E + x) + η) :
    E + y ≤ (a + 1) * (a + 1) * (u * B + η) := by
  have hε : 0 ≤ u * B + η := by positivity
  have h1 : a * (u * B + η) * (a * u) ≤ a * (u * B + η) * 1 :=
    mul_le_mul_of_nonneg_left hau (mul_nonneg ha hε)
  have h2 : u * E ≤ u * (a * a * (u * B + η)) := mul_le_mul_of_nonneg_left hE hu
  have h3 : u * S ≤ u * (a * B) := mul_le_mul_of_nonneg_left hS hu
  have h4 : u * x ≤ u * B := mul_le_mul_of_nonneg_left hx hu
  have h5 : 0 ≤ a * η := mul_nonneg ha hη
  nlinarith

theorem foldl_round_error (B : ℚ) (hB : 0 ≤ B) (l : List ℚ) (h : ∀ x ∈ l, |x| ≤ B)
    (hlen : (l.length : ℚ) * 2 ^ (-53 : ℤ) ≤ 1) :
    |l.foldl (fun sum x => roundToDouble (sum + x)) 0 - l.sum|
      ≤ (l.length : ℚ) * (l.length : ℚ) * (2 ^ (-53 : ℤ) * B + 2 ^ (-1075 : ℤ)) := by
  induction l using List.reverseRecOn with
  | nil => simp
  | append_singleton l x ih =>
    have hl : ∀ y ∈ l, |y| ≤ B := fun y hy => h y (List.mem_append_left _ hy)
    have hx : |x| ≤ B := h x (by simp)
    have hlen2 : (l.length : ℚ) * 2 ^ (-53 : ℤ) ≤ 1 := by
      have h53 : (0 : ℚ) ≤ 2 ^ (-53 : ℤ) := by positivity
      have : ((l ++ [x]).length : ℚ) = (l.length : ℚ) + 1 := by simp
      rw [this] at hlen
      nlinarith
    have ihl := ih hl hlen2
    have hS := abs_sum_le_length_mul l B hl
    simp only [List.foldl_append, List.foldl_cons, List.foldl_nil, List.sum_append,
      List.sum_cons, List.sum_nil, add_zero, List.length_append, List.length_singleton]
    push_cast
    set s := l.foldl (fun sum x => roundToDouble (sum + x)) 0 with hs
    have hr := abs_roundToDouble_sub_le (s + x)
    have hsx : |s + x| ≤ |l.sum| + |s - l.sum| + |x| := by
      have : s + x = l.sum + (s - l.sum) + x := by ring
      rw [this]
      exact le_trans (abs_add _ _) (add_le_add_right (abs_add _ _) _)
    have htri : |roundToDouble (s + x) - (l.sum + x)|
        ≤ |s - l.sum| + |roundToDouble (s + x) - (s + x)| := by
      have : roundToDouble (s + x) - (l.sum + x)
          = (s - l.sum) + (roundToDouble (s + x) - (s + x)) := by ring
      rw [this]
      exact abs_add _ _
    have h53 : (0 : ℚ) ≤ 2 ^ (-53 : ℤ) := by positivity
    have h1075 : (0 : ℚ) ≤ 2 ^ (-1075 : ℤ) := by positivity
    have hy : |roundToDouble (s + x) - (s + x)|
        ≤ 2 ^ (-53 : ℤ) * (|l.sum| + |s - l.sum| + |x|) + 2 ^ (-1075 : ℤ) := by
      have := mul_le_mul_of_nonneg_left hsx h53
      linarith
    have := round_step_bound (2 ^ (-53 : ℤ)) (2 ^ (-1075 : ℤ)) B (l.length : ℚ)
      |s - l.sum| |l.sum| |x| |roundToDouble (s + x) - (s + x)| h53 h1075 hB
      (Nat.cast_nonneg _) hlen2 ihl hS hx hy
    linarith

theorem round_quotient_bound (u η B n d e q : ℚ) (hu : 0 ≤ u)
    (hε : 0 ≤ u * B + η) (hnu : n * u ≤ 1)
    (hd : d ≤ n * (u * B + η)) (hq : q ≤ B + n * (u * B + η)) (he : e ≤ u * q + η) :
    e + d ≤ (n + 2) * (u * B + η) := by
  have h1 : u * q ≤ u * (B + n * (u * B + η)) := mul_le_mul_of_nonneg_left hq hu
  have h2 : (u * B + η) * (n * u) ≤ (u * B + η) * 1 := mul_le_mul_of_nonneg_left hnu hε
  nlinarith

theorem averageDouble_error (B : ℚ) (hB : 0 ≤ B) (l : List ℚ) (hne : l ≠ [])
    (h : ∀ x ∈ l, |x| ≤ B) (hlen : l.length ≤ 2 ^ 53) :
    |averageDouble l - l.sum / (l.length : ℚ)|
      ≤ ((l.length : ℚ) + 2) * (2 ^ (-53 : ℤ) * B + 2 ^ (-1075 : ℤ)) := by
  have h53 : (0 : ℚ) ≤ 2 ^ (-53 : ℤ) := by positivity
  have h1075 : (0 : ℚ) ≤ 2 ^ (-1075 : ℤ) := by positivity
  have hε : 0 ≤ (2 : ℚ) ^ (-53 : ℤ) * B + 2 ^ (-1075 : ℤ) := by positivity
  have hnpos : (0 : ℚ) < (l.length : ℚ) := by
    have : 0 < l.length := List.length_pos.mpr hne
    exact_mod_cast this
  have hnu : (l.length : ℚ) * 2 ^ (-53 : ℤ) ≤ 1 := by
    have h1 : (l.length : ℚ) ≤ 2 ^ 53 := by exact_mod_cast hlen
    have h2 : (2 : ℚ) ^ 53 * 2 ^ (-53 : ℤ) = 1 := by norm_num
    nlinarith
  have hsum := foldl_round_error B hB l h hnu
  have hS := abs_sum_le_length_mul l B h
  unfold averageDouble
  simp only []
  set s := l.foldl (fun sum x => roundToDouble (sum + x)) 0 with hs
  set n := (l.length : ℚ) with hn
  have hq : |s / n - l.sum / n| ≤ n * (2 ^ (-53 : ℤ) * B + 2 ^ (-1075 : ℤ)) := by
    rw [← sub_div, abs_div, abs_of_pos hnpos, div_le_iff₀ hnpos]
    linarith
  have hmean : |l.sum / n| ≤ B := by
    rw [abs_div, abs_of_pos hnpos, div_le_iff₀ hnpos]
    linarith
  have hqabs : |s / n| ≤ B + n * (2 ^ (-53 : ℤ) * B + 2 ^ (-1075 : ℤ)) := by
    have : s / n = l.sum / n + (s / n - l.sum / n) := by ring
    rw [this]
    exact le_trans (abs_add _ _) (add_le_add hmean hq)
  have hr := abs_roundToDouble_sub_le (s / n)
  have htri : |roundToDouble (s / n) - l.sum / n|
      ≤ |roundToDouble (s / n) - s / n| + |s / n - l.sum / n| := by
    have : roundToDouble (s / n) - l.sum / n
        = (roundToDouble (s / n) - s / n) + (s / n - l.sum / n) := by ring
    rw [this]
    exact abs_add _ _
  exact le_trans htri (round_quotient_bound _ _ B n _ _ _ h53 hε hnu hq hqabs hr)

theorem roundHalfEven_tie_odd (z : ℤ) (hz : z % 2 = 1) :
    roundHalfEven ((z : ℚ) + 1 / 2) = z + 1 := by
  have hfl : ⌊(z : ℚ) + 1 / 2⌋ = z := by
    rw [Int.floor_eq_iff]
    constructor <;> linarith
  unfold roundHalfEven
  simp only [hfl]
  have h1 : ¬ ((z : ℚ) + 1 / 2 - (z : ℚ) < 1 / 2) := by norm_num
  have h2 : ¬ ((1 : ℚ) / 2 < (z : ℚ) + 1 / 2 - (z : ℚ)) := by norm_num
  have h3 : ¬ (z % 2 = 0) := by omega
  rw [if_neg h1, if_neg h2, if_neg h3]

theorem roundToDouble_nonpos (x : ℚ) (h : x ≤ 0) : roundToDouble x ≤ 0 := by
  unfold roundToDouble
  have he : (0 : ℚ) < 2 ^ ulpExponent x := by positivity
  have hq : x / 2 ^ ulpExponent x ≤ ((0 : ℤ) : ℚ) := by
    rw [Int.cast_zero]
    exact div_nonpos_of_nonpos_of_nonneg h (le_of_lt he)
  have hr := roundHalfEven_le_of_le _ 0 hq
  have : (roundHalfEven (x / 2 ^ ulpExponent x) : ℚ) ≤ 0 := by exact_mod_cast hr
  exact mul_nonpos_of_nonpos_of_nonneg this (le_of_lt he)

theorem roundToDouble_nonneg (x : ℚ) (h : 0 ≤ x) : 0 ≤ roundToDouble x := by
  unfold roundToDouble
  have he : (0 : ℚ) < 2 ^ ulpExponent x := by positivity
  have hq : ((0 : ℤ) : ℚ) ≤ x / 2 ^ ulpExponent x := by
    rw [Int.cast_zero]
    exact div_nonneg h (le_of_lt he)
  have hr := le_roundHalfEven_of_le _ 0 hq
  have : (0 : ℚ) ≤ (roundHalfEven (x / 2 ^ ulpExponent x) : ℚ) := by exact_mod_cast hr
  exact mul_nonneg this (le_of_lt he)

theorem ulpExponent_nonpos (x : ℚ) (hx : x ≠ 0) (h : |x| < 2 ^ 53) : ulpExponent x ≤ 0 := by
  have hpos : 0 < |x| := abs_pos.mpr hx
  have hlog : Int.log 2 |x| < 53 := by
    apply (Int.lt_zpow_iff_log_lt (by norm_num : 1 < 2) hpos).mp
    exact_mod_cast h
  unfold ulpExponent
  apply max_le <;> omega

theorem two_zpow_nonpos_eq (e : ℤ) (he : e ≤ 0) :
    (2 : ℚ) ^ e = (((2 ^ (-e).toNat : ℕ) : ℤ) : ℚ)⁻¹ := by
  have h1 : e = -((-e).toNat : ℤ) := by
    rw [Int.toNat_of_nonneg (by omega)]
    ring
  conv_lhs => rw [h1]
  rw [zpow_neg, zpow_natCast]
  push_cast
  rfl

theorem roundToDouble_two_pow_53 : roundToDouble (2 ^ 53) = 2 ^ 53 := by
  rw [roundToDouble_eq (2 ^ 53) 53 (2 ^ 52) (by norm_num) (by norm_num) (by norm_num)
    (by
      have : ((2 : ℚ) ^ 53) / 2 ^ ((53 : ℤ) - 52) = (((2 ^ 52 : ℤ)) : ℚ) := by norm_num
      rw [this]
      exact roundHalfEven_intCast _)]
  norm_num

theorem roundToDouble_neg_two_pow_53 : roundToDouble (-(2 ^ 53)) = -(2 ^ 53) := by
  rw [roundToDouble_eq (-(2 ^ 53)) 53 (-(2 ^ 52)) (by norm_num) (by norm_num) (by norm_num)
    (by
      have : (-(2 : ℚ) ^ 53) / 2 ^ ((53 : ℤ) - 52) = (((-(2 ^ 52) : ℤ)) : ℚ) := by norm_num
      rw [this]
      exact roundHalfEven_intCast _)]
  norm_num

theorem roundToDouble_le_natCast (x : ℚ) (n : ℕ) (hn : n ≤ 2 ^ 53) (h : x ≤ (n : ℚ)) :
    roundToDouble x ≤ (n : ℚ) := by
  have hnq : (n : ℚ) ≤ 2 ^ 53 := by exact_mod_cast hn
  rcases le_or_lt x 0 with hx | hx
  · exact le_trans (roundToDouble_nonpos x hx) (Nat.cast_nonneg n)
  · rcases lt_or_le x (2 ^ 53) with hlt | hge
    · have habs : |x| < 2 ^ 53 := by rw [abs_of_pos hx]; exact hlt
      have he := ulpExponent_nonpos x (ne_of_gt hx) habs
      have hpow := two_zpow_nonpos_eq (ulpExponent x) he
      unfold roundToDouble
      rw [hpow]
      set P : ℕ := 2 ^ (-ulpExponent x).toNat with hP
      have hPpos : (0 : ℚ) < ((P : ℤ) : ℚ) := by
        have : 0 < P := by positivity
        exact_mod_cast this
      have hq : x / (((P : ℤ) : ℚ))⁻¹ ≤ (((n * P : ℕ) : ℤ) : ℚ) := by
        rw [div_inv_eq_mul]
        push_cast
        exact mul_le_mul_of_nonneg_right h (by exact_mod_cast hPpos.le)
      have hr := roundHalfEven_le_of_le _ _ hq
      have hr2 : (roundHalfEven (x / (((P : ℤ) : ℚ))⁻¹) : ℚ) ≤ (n : ℚ) * ((P : ℤ) : ℚ) := by
        have : (roundHalfEven (x / (((P : ℤ) : ℚ))⁻¹) : ℚ) ≤ (((n * P : ℕ) : ℤ) : ℚ) := by
          exact_mod_cast hr
        push_cast at this ⊢
        exact this
      rw [← div_eq_mul_inv, div_le_iff₀ hPpos]
      exact hr2
    · have hx53 : x = 2 ^ 53 := le_antisymm (le_trans h hnq) hge
      rw [hx53, roundToDouble_two_pow_53]
      rw [hx53] at h
      exact h

theorem neg_natCast_le_roundToDouble (x : ℚ) (n : ℕ) (hn : n ≤ 2 ^ 53) (h : -(n : ℚ) ≤ x) :
    -(n : ℚ) ≤ roundToDouble x := by
  have hnq : (n : ℚ) ≤ 2 ^ 53 := by exact_mod_cast hn
  rcases le_or_lt 0 x with hx | hx
  · exact le_trans (neg_nonpos.mpr (Nat.cast_nonneg n)) (roundToDouble_nonneg x hx)
  · rcases lt_or_le (-(2 ^ 53)) x with hlt | hge
    · have habs : |x| < 2 ^ 53 := by rw [abs_of_neg hx]; linarith
      have he := ulpExponent_nonpos x (ne_of_lt hx) habs
      have hpow := two_zpow_nonpos_eq (ulpExponent x) he
      unfold roundToDouble
      rw [hpow]
      set P : ℕ := 2 ^ (-ulpExponent x).toNat with hP
      have hPpos : (0 : ℚ) < ((P : ℤ) : ℚ) := by
        have : 0 < P := by positivity
        exact_mod_cast this
      have hq : (((-((n * P : ℕ) : ℤ)) : ℤ) : ℚ) ≤ x / (((P : ℤ) : ℚ))⁻¹ := by
        rw [div_inv_eq_mul]
        push_cast
        have := mul_le_mul_of_nonneg_right h hPpos.le
        push_cast at this
        linarith
      have hr := le_roundHalfEven_of_le _ _ hq
      have hr2 : -((n : ℚ) * ((P : ℤ) : ℚ)) ≤ (roundHalfEven (x / (((P : ℤ) : ℚ))⁻¹) : ℚ) := by
        have : (((-((n * P : ℕ) : ℤ)) : ℤ) : ℚ)
            ≤ (roundHalfEven (x / (((P : ℤ) : ℚ))⁻¹) : ℚ) := by
          exact_mod_cast hr
        push_cast at this ⊢
        exact this
      rw [← div_eq_mul_inv, le_div_iff₀ hPpos]
      linarith
    · have hx53 : x = -(2 ^ 53) := le_antisymm hge (by linarith)
      rw [hx53, roundToDouble_neg_two_pow_53]
      rw [hx53] at h
      exact h

theorem roundToDouble_seven_tenths (x : ℚ) (hx : x = 7 / 10) :
    roundToDouble x = 3152519739159347 / 4503599627370496 := by
  subst hx
  rw [roundToDouble_eq (7 / 10) (-1) (6305039478318694)
    (by rw [abs_of_nonneg (by norm_num)]; norm_num)
    (by rw [abs_of_nonneg (by norm_num)]; norm_num) (by norm_num)
    (roundHalfEven_eq_of_lt _ (6305039478318694) (by norm_num) (by norm_num))]
  norm_num

theorem roundToDouble_seven_tenths_sum1 (x : ℚ) (hx : x = 3152519739159347 / 4503599627370496) :
    roundToDouble x = 3152519739159347 / 4503599627370496 := by
  subst hx
  rw [roundToDouble_eq (3152519739159347 / 4503599627370496) (-1) (6305039478318694)
    (by rw [abs_of_nonneg (by norm_num)]; norm_num)
    (by rw [abs_of_nonneg (by norm_num)]; norm_num) (by norm_num)
    (roundHalfEven_eq_of_lt _ (6305039478318694) (by norm_num) (by norm_num))]
  norm_num

theorem roundToDouble_seven_tenths_sum2 (x : ℚ) (hx : x = 3152519739159347 / 2251799813685248) :
    roundToDouble x = 3152519739159347 / 2251799813685248 := by
  subst hx
  rw [roundToDouble_eq (3152519739159347 / 2251799813685248) (0) (6305039478318694)
    (by rw [abs_of_nonneg (by norm_num)]; norm_num)
    (by rw [abs_of_nonneg (by norm_num)]; norm_num) (by norm_num)
    (roundHalfEven_eq_of_lt _ (6305039478318694) (by norm_num) (by norm_num))]
  norm_num

theorem roundToDouble_seven_tenths_sum3 (x : ℚ) (hx : x = 9457559217478041 / 4503599627370496) :
    roundToDouble x = 1182194902184755 / 562949953421312 := by
  subst hx
  rw [roundToDouble_eq (9457559217478041 / 4503599627370496) (1) (4728779608739020)
    (by rw [abs_of_nonneg (by norm_num)]; norm_num)
    (by rw [abs_of_nonneg (by norm_num)]; norm_num) (by norm_num)
    (by
      have h : (9457559217478041 / 4503599627370496 : ℚ) / 2 ^ ((1 : ℤ) - 52) = ((4728779608739020 : ℤ) : ℚ) + 1 / 2 := by
        norm_num
      rw [h, roundHalfEven_tie_even (4728779608739020) (by decide)])]
  norm_num

theorem roundToDouble_seven_tenths_quot (x : ℚ) (hx : x = 1182194902184755 / 1688849860263936) :
    roundToDouble x = 6305039478318693 / 9007199254740992 := by
  subst hx
  rw [roundToDouble_eq (1182194902184755 / 1688849860263936) (-1) (6305039478318693)
    (by rw [abs_of_nonneg (by norm_num)]; norm_num)
    (by rw [abs_of_nonneg (by norm_num)]; norm_num) (by norm_num)
    (roundHalfEven_eq_of_lt _ (6305039478318693) (by norm_num) (by norm_num))]
  norm_num

theorem roundToDouble_one_tenth (x : ℚ) (hx : x = 1 / 10) :
    roundToDouble x = 3602879701896397 / 36028797018963968 := by
  subst hx
  rw [roundToDouble_eq (1 / 10) (-4) (7205759403792794)
    (by rw [abs_of_nonneg (by norm_num)]; norm_num)
    (by rw [abs_of_nonneg (by norm_num)]; norm_num) (by norm_num)
    (roundHalfEven_eq_of_lt _ (7205759403792794) (by norm_num) (by norm_num))]
  norm_num

theorem roundToDouble_one_tenth_sum1 (x : ℚ) (hx : x = 3602879701896397 / 36028797018963968) :
    roundToDouble x = 3602879701896397 / 36028797018963968 := by
  subst hx
  rw [roundToDouble_eq (3602879701896397 / 36028797018963968) (-4) (7205759403792794)
    (by rw [abs_of_nonneg (by norm_num)]; norm_num)
    (by rw [abs_of_nonneg (by norm_num)]; norm_num) (by norm_num)
    (roundHalfEven_eq_of_lt _ (7205759403792794) (by norm_num) (by norm_num))]
  norm_num

theorem roundToDouble_one_tenth_sum2 (x : ℚ) (hx : x = 3602879701896397 / 18014398509481984) :
    roundToDouble x = 3602879701896397 / 18014398509481984 := by
  subst hx
  rw [roundToDouble_eq (3602879701896397 / 18014398509481984) (-3) (7205759403792794)
    (by rw [abs_of_nonneg (by norm_num)]; norm_num)
    (by rw [abs_of_nonneg (by norm_num)]; norm_num) (by norm_num)
    (roundHalfEven_eq_of_lt _ (7205759403792794) (by norm_num) (by norm_num))]
  norm_num

theorem roundToDouble_one_tenth_sum3 (x : ℚ) (hx : x = 10808639105689191 / 36028797018963968) :
    roundToDouble x = 1351079888211149 / 4503599627370496 := by
  subst hx
  rw [roundToDouble_eq (10808639105689191 / 36028797018963968) (-2) (5404319552844596)
    (by rw [abs_of_nonneg (by norm_num)]; norm_num)
    (by rw [abs_of_nonneg (by norm_num)]; norm_num) (by norm_num)
    (by
      have h : (10808639105689191 / 36028797018963968 : ℚ) / 2 ^ ((-2 : ℤ) - 52) = ((5404319552844595 : ℤ) : ℚ) + 1 / 2 := by
        norm_num
      rw [h, roundHalfEven_tie_odd (5404319552844595) (by decide)]
      norm_num)]
  norm_num

theorem roundToDouble_one_tenth_quot (x : ℚ) (hx : x = 1351079888211149 / 13510798882111488) :
    roundToDouble x = 7205759403792795 / 72057594037927936 := by
  subst hx
  rw [roundToDouble_eq (1351079888211149 / 13510798882111488) (-4) (7205759403792795)
    (by rw [abs_of_nonneg (by norm_num)]; norm_num)
    (by rw [abs_of_nonneg (by norm_num)]; norm_num) (by norm_num)
    (roundHalfEven_eq_of_lt _ (7205759403792795) (by norm_num) (by norm_num))]
  norm_num

theorem averageDouble_seven_tenths :
    averageDouble [roundToDouble (7 / 10), roundToDouble (7 / 10), roundToDouble (7 / 10)]
      = 6305039478318693 / 9007199254740992 := by
  have e1 : roundToDouble ((0 : ℚ) + 3152519739159347 / 4503599627370496) = 3152519739159347 / 4503599627370496 :=
    roundToDouble_seven_tenths_sum1 _ (by norm_num)
  have e2 : roundToDouble ((3152519739159347 / 4503599627370496 : ℚ) + 3152519739159347 / 4503599627370496) = 3152519739159347 / 2251799813685248 :=
    roundToDouble_seven_tenths_sum2 _ (by norm_num)
  have e3 : roundToDouble ((3152519739159347 / 2251799813685248 : ℚ) + 3152519739159347 / 4503599627370496) = 1182194902184755 / 562949953421312 :=
    roundToDouble_seven_tenths_sum3 _ (by norm_num)
  have e4 : roundToDouble ((1182194902184755 / 562949953421312 : ℚ) / (((0 + 1 + 1 + 1 : ℕ)) : ℚ)) = 6305039478318693 / 9007199254740992 :=
    roundToDouble_seven_tenths_quot _ (by norm_num)
  rw [roundToDouble_seven_tenths (7 / 10) rfl]
  simp only [averageDouble, List.foldl_cons, List.foldl_nil, List.length_cons,
    List.length_nil]
  rw [e1, e2, e3, e4]

theorem averageDouble_one_tenth :
    averageDouble [roundToDouble (1 / 10), roundToDouble (1 / 10), roundToDouble (1 / 10)]
      = 7205759403792795 / 72057594037927936 := by
  have e1 : roundToDouble ((0 : ℚ) + 3602879701896397 / 36028797018963968) = 3602879701896397 / 36028797018963968 :=
    roundToDouble_one_tenth_sum1 _ (by norm_num)
  have e2 : roundToDouble ((3602879701896397 / 36028797018963968 : ℚ) + 3602879701896397 / 36028797018963968) = 3602879701896397 / 18014398509481984 :=
    roundToDouble_one_tenth_sum2 _ (by norm_num)
  have e3 : roundToDouble ((3602879701896397 / 18014398509481984 : ℚ) + 3602879701896397 / 36028797018963968) = 1351079888211149 / 4503599627370496 :=
    roundToDouble_one_tenth_sum3 _ (by norm_num)
  have e4 : roundToDouble ((1351079888211149 / 4503599627370496 : ℚ) / (((0 + 1 + 1 + 1 : ℕ)) : ℚ)) = 7205759403792795 / 72057594037927936 :=
    roundToDouble_one_tenth_quot _ (by norm_num)
  rw [roundToDouble_one_tenth (1 / 10) rfl]
  simp only [averageDouble, List.foldl_cons, List.foldl_nil, List.length_cons,
    List.length_nil]
  rw [e1, e2, e3, e4]

theorem foldl_round_mem_bounds (l : List ℚ) (h : ∀ x ∈ l, -1 ≤ x ∧ x ≤ 1)
    (hlen : l.length ≤ 2 ^ 53) :
    -(l.length : ℚ) ≤ l.foldl (fun sum x => roundToDouble (sum + x)) 0
      ∧ l.foldl (fun sum x => roundToDouble (sum + x)) 0 ≤ (l.length : ℚ) := by
  induction l using List.reverseRecOn with
  | nil => simp
  | append_singleton l x ih =>
    have hl : ∀ y ∈ l, -1 ≤ y ∧ y ≤ 1 := fun y hy => h y (List.mem_append_left _ hy)
    have hx := h x (by simp)
    have hlen1 : (l ++ [x]).length = l.length + 1 := by simp
    have hlen2 : l.length ≤ 2 ^ 53 := by omega
    have hlen3 : l.length + 1 ≤ 2 ^ 53 := by omega
    obtain ⟨ih1, ih2⟩ := ih hl hlen2
    simp only [List.foldl_append, List.foldl_cons, List.foldl_nil, hlen1]
    constructor
    · apply neg_natCast_le_roundToDouble _ (l.length + 1) hlen3
      push_cast
      linarith [hx.1]
    · apply roundToDouble_le_natCast _ (l.length + 1) hlen3
      push_cast
      linarith [hx.2]

theorem averageDouble_mem_unit (l : List ℚ) (hne : l ≠ []) (h : ∀ x ∈ l, -1 ≤ x ∧ x ≤ 1)
    (hlen : l.length ≤ 2 ^ 53) : -1 ≤ averageDouble l ∧ averageDouble l ≤ 1 := by
  obtain ⟨h1, h2⟩ := foldl_round_mem_bounds l h hlen
  have hnpos : (0 : ℚ) < (l.length : ℚ) := by
    have : 0 < l.length := List.length_pos.mpr hne
    exact_mod_cast this
  unfold averageDouble
  simp only []
  constructor
  · have := neg_natCast_le_roundToDouble
      (l.foldl (fun sum x => roundToDouble (sum + x)) 0 / (l.length : ℚ)) 1 (by norm_num)
      (by
        rw [le_div_iff₀ hnpos]
        push_cast
        linarith)
    simpa using this
  · have := roundToDouble_le_natCast
      (l.foldl (fun sum x => roundToDouble (sum + x)) 0 / (l.length : ℚ)) 1 (by norm_num)
      (by
        rw [div_le_iff₀ hnpos]
        push_cast
        linarith)
    simpa using this

/-! ## Lemmas on the loop with the averaging function as a parameter -/

section LoopWith

variable {Mat : Type} (avg : List ℚ → ℚ) (compareImgDiff : Mat → Mat → ℚ) (K : Nat) (t : ℚ)

theorem cycle_eq_cycleWith (s : LoopState Mat) (inp : CycleInput Mat) :
    cycle compareImgDiff K t s inp = cycleWith average compareImgDiff K t s inp := rfl

theorem run_eq_runWith (s : LoopState Mat) (ins : List (CycleInput Mat)) :
    run compareImgDiff K t s ins = runWith average compareImgDiff K t s ins := by
  induction ins generalizing s with
  | nil => rfl
  | cons inp rest ih => simp only [run, runWith, cycle_eq_cycleWith, ih]

theorem cycleWith_noFrame (s : LoopState Mat) (inp : CycleInput Mat)
    (h : inp.pImage = none) :
    cycleWith avg compareImgDiff K t s inp = (s, [Effect.sleep 10]) := by
  simp [cycleWith, h]

theorem cycleWith_adopt (s : LoopState Mat) (inp : CycleInput Mat) (f : Mat)
    (h : inp.pImage = some f) (hs : s.isRefImageSet = false) :
    cycleWith avg compareImgDiff K t s inp
      = ({ s with ref_img := f, isRefImageSet := true }, [Effect.sleep N_Capture]) := by
  simp [cycleWith, h, hs]

theorem cycleWith_compare (s : LoopState Mat) (inp : CycleInput Mat) (f : Mat)
    (h : inp.pImage = some f) (hs : s.isRefImageSet = true) :
    cycleWith avg compareImgDiff K t s inp
      = ({ s with img_diff := pushEvict K s.img_diff (compareImgDiff s.ref_img f) },
          [Effect.printf (compareImgDiff s.ref_img f)]
            ++ alertBranch t (avg (pushEvict K s.img_diff (compareImgDiff s.ref_img f)))
                f inp
            ++ [Effect.sleep N_Capture]) := by
  simp [cycleWith, h, hs]

theorem cycleWith_state (s : LoopState Mat) (inp : CycleInput Mat) :
    (cycleWith avg compareImgDiff K t s inp).1 = (cycle compareImgDiff K t s inp).1 := by
  cases hp : inp.pImage with
  | none => rw [cycleWith_noFrame avg compareImgDiff K t s inp hp,
      cycle_noFrame compareImgDiff K t s inp hp]
  | some f =>
    cases hs : s.isRefImageSet with
    | false => rw [cycleWith_adopt avg compareImgDiff K t s inp f hp hs,
        cycle_adopt compareImgDiff K t s inp f hp hs]
    | true => rw [cycleWith_compare avg compareImgDiff K t s inp f hp hs,
        cycle_compare compareImgDiff K t s inp f hp hs]

theorem runWith_state (s : LoopState Mat) (ins : List (CycleInput Mat)) :
    (runWith avg compareImgDiff K t s ins).1 = (run compareImgDiff K t s ins).1 := by
  induction ins generalizing s with
  | nil => rfl
  | cons inp rest ih =>
    simp only [run, runWith]
    rw [ih, cycleWith_state]

theorem cycleWith_congr_avg (avg2 : List ℚ → ℚ) (hK : 1 ≤ K)
    (hagree : ∀ w : List ℚ, 1 ≤ w.length → w.length ≤ K → avg w = avg2 w)
    (s : LoopState Mat) (hs : s.img_diff.length ≤ K) (inp : CycleInput Mat) :
    cycleWith avg compareImgDiff K t s inp = cycleWith avg2 compareImgDiff K t s inp := by
  cases hp : inp.pImage with
  | none => rw [cycleWith_noFrame avg compareImgDiff K t s inp hp,
      cycleWith_noFrame avg2 compareImgDiff K t s inp hp]
  | some f =>
    cases hf : s.isRefImageSet with
    | false => rw [cycleWith_adopt avg compareImgDiff K t s inp f hp hf,
        cycleWith_adopt avg2 compareImgDiff K t s inp f hp hf]
    | true =>
      rw [cycleWith_compare avg compareImgDiff K t s inp f hp hf,
        cycleWith_compare avg2 compareImgDiff K t s inp f hp hf]
      have hlen := pushEvict_length K s.img_diff (compareImgDiff s.ref_img f) hs
      rw [hagree _ (by rw [hlen]; omega) (by rw [hlen]; omega)]

theorem cycleWith_window_length (s : LoopState Mat) (hs : s.img_diff.length ≤ K)
    (inp : CycleInput Mat) :
    (cycleWith avg compareImgDiff K t s inp).1.img_diff.length ≤ K := by
  cases hp : inp.pImage with
  | none => rw [cycleWith_noFrame avg compareImgDiff K t s inp hp]; exact hs
  | some f =>
    cases hf : s.isRefImageSet with
    | false => rw [cycleWith_adopt avg compareImgDiff K t s inp f hp hf]; exact hs
    | true =>
      rw [cycleWith_compare avg compareImgDiff K t s inp f hp hf]
      simp only [pushEvict_length K s.img_diff _ hs]
      omega

theorem runWith_congr_avg (avg2 : List ℚ → ℚ) (hK : 1 ≤ K)
    (hagree : ∀ w : List ℚ, 1 ≤ w.length → w.length ≤ K → avg w = avg2 w)
    (s : LoopState Mat) (hs : s.img_diff.length ≤ K) (ins : List (CycleInput Mat)) :
    runWith avg compareImgDiff K t s ins = runWith avg2 compareImgDiff K t s ins := by
  induction ins generalizing s with
  | nil => rfl
  | cons inp rest ih =>
    simp only [runWith]
    rw [cycleWith_congr_avg avg compareImgDiff K t avg2 hK hagree s hs inp]
    rw [ih _ (cycleWith_window_length avg2 compareImgDiff K t s hs inp)]

end LoopWith

/-! ## Lemmas on the threshold test in binary64 -/

theorem abs_roundToDouble_sub_le_of_le_one (x : ℚ) (hx : |x| ≤ 1) :
    |roundToDouble x - x| ≤ 1 / 2 ^ 53 + 1 / 2 ^ 1075 := by
  have h := abs_roundToDouble_sub_le x
  have h53 : (2 : ℚ) ^ (-53 : ℤ) = 1 / 2 ^ 53 := by
    rw [zpow_neg, one_div]; norm_cast
  have h1075 : (2 : ℚ) ^ (-1075 : ℤ) = 1 / 2 ^ 1075 := by
    rw [zpow_neg, one_div]; norm_cast
  rw [h53, h1075] at h
  have hp : (0 : ℚ) ≤ 1 / 2 ^ 53 := by positivity
  have := mul_le_mul_of_nonneg_left hx hp
  linarith

theorem small_pow_le : (1 : ℚ) / 2 ^ 1075 ≤ 1 / 2 ^ 55 := by
  apply one_div_le_one_div_of_le (by positivity)
  exact pow_le_pow_right₀ (by norm_num) (by norm_num)

theorem averageDouble_near_mean (l : List ℚ) (hne : l ≠ []) (hlen : l.length ≤ 3)
    (h : ∀ x ∈ l, |x| ≤ 1) : |averageDouble l - l.sum / (l.length : ℚ)| ≤ 1 / 2 ^ 50 := by
  have herr := averageDouble_error 1 (by norm_num) l hne h
    (le_trans hlen (by norm_num))
  have h53 : (2 : ℚ) ^ (-53 : ℤ) = 1 / 2 ^ 53 := by
    rw [zpow_neg, one_div]; norm_cast
  have h1075 : (2 : ℚ) ^ (-1075 : ℤ) = 1 / 2 ^ 1075 := by
    rw [zpow_neg, one_div]; norm_cast
  rw [h53, h1075] at herr
  have hs := small_pow_le
  have hn : (l.length : ℚ) ≤ 3 := by exact_mod_cast hlen
  have hpos : (0 : ℚ) ≤ 1 / 2 ^ 53 * 1 + 1 / 2 ^ 1075 := by positivity
  have h1 : ((l.length : ℚ) + 2) * (1 / 2 ^ 53 * 1 + 1 / 2 ^ 1075)
      ≤ 5 * (1 / 2 ^ 53 * 1 + 1 / 2 ^ 1075) :=
    mul_le_mul_of_nonneg_right (by linarith) hpos
  have h2 : (5 : ℚ) * (1 / 2 ^ 53 * 1 + 1 / 2 ^ 55) ≤ 1 / 2 ^ 50 := by norm_num
  linarith

theorem abs_threshold_sub_le : |roundToDouble (7 / 10) - 7 / 10| ≤ 1 / 2 ^ 52 := by
  have h := abs_roundToDouble_sub_le_of_le_one (7 / 10)
    (by rw [abs_of_nonneg (by norm_num)]; norm_num)
  have hs := small_pow_le
  have : (1 : ℚ) / 2 ^ 53 + 1 / 2 ^ 55 ≤ 1 / 2 ^ 52 := by norm_num
  linarith

theorem averageDouble_lt_threshold_of_mean (l : List ℚ) (hne : l ≠ []) (hlen : l.length ≤ 3)
    (h : ∀ x ∈ l, |x| ≤ 1) (hm : l.sum / (l.length : ℚ) ≤ 7 / 10 - 1 / 2 ^ 49) :
    averageDouble l < roundToDouble (7 / 10) := by
  have h1 := averageDouble_near_mean l hne hlen h
  have h2 := abs_threshold_sub_le
  rw [abs_le] at h1 h2
  have : (1 : ℚ) / 2 ^ 50 + 1 / 2 ^ 52 < 1 / 2 ^ 49 := by norm_num
  linarith [h1.2, h2.1]

theorem averageDouble_ge_threshold_of_mean (l : List ℚ) (hne : l ≠ []) (hlen : l.length ≤ 3)
    (h : ∀ x ∈ l, |x| ≤ 1) (hm : 7 / 10 + 1 / 2 ^ 49 ≤ l.sum / (l.length : ℚ)) :
    ¬ averageDouble l < roundToDouble (7 / 10) := by
  have h1 := averageDouble_near_mean l hne hlen h
  have h2 := abs_threshold_sub_le
  rw [abs_le] at h1 h2
  have : (1 : ℚ) / 2 ^ 50 + 1 / 2 ^ 52 < 1 / 2 ^ 49 := by norm_num
  intro hlt
  linarith [h1.1, h2.2]

theorem roundToDouble_near_threshold_a (x : ℚ) (hx : x = 8106479329266891 / 9007199254740992) :
    roundToDouble x = 8106479329266891 / 9007199254740992 := by
  subst hx
  rw [roundToDouble_eq (8106479329266891 / 9007199254740992) (-1) (8106479329266891)
    (by rw [abs_of_nonneg (by norm_num)]; norm_num)
    (by rw [abs_of_nonneg (by norm_num)]; norm_num) (by norm_num)
    (roundHalfEven_eq_of_lt _ (8106479329266891) (by norm_num) (by norm_num))]
  norm_num

theorem roundToDouble_near_threshold_b (x : ℚ) (hx : x = 2026619832316723 / 2251799813685248) :
    roundToDouble x = 2026619832316723 / 2251799813685248 := by
  subst hx
  rw [roundToDouble_eq (2026619832316723 / 2251799813685248) (-1) (8106479329266892)
    (by rw [abs_of_nonneg (by norm_num)]; norm_num)
    (by rw [abs_of_nonneg (by norm_num)]; norm_num) (by norm_num)
    (roundHalfEven_eq_of_lt _ (8106479329266892) (by norm_num) (by norm_num))]
  norm_num

theorem roundToDouble_near_threshold_c (x : ℚ) (hx : x = 5404319552844597 / 18014398509481984) :
    roundToDouble x = 5404319552844597 / 18014398509481984 := by
  subst hx
  rw [roundToDouble_eq (5404319552844597 / 18014398509481984) (-2) (5404319552844597)
    (by rw [abs_of_nonneg (by norm_num)]; norm_num)
    (by rw [abs_of_nonneg (by norm_num)]; norm_num) (by norm_num)
    (roundHalfEven_eq_of_lt _ (5404319552844597) (by norm_num) (by norm_num))]
  norm_num

theorem roundToDouble_near_threshold_sum2 (x : ℚ) (hx : x = 16212958658533783 / 9007199254740992) :
    roundToDouble x = 2026619832316723 / 1125899906842624 := by
  subst hx
  rw [roundToDouble_eq (16212958658533783 / 9007199254740992) (0) (8106479329266892)
    (by rw [abs_of_nonneg (by norm_num)]; norm_num)
    (by rw [abs_of_nonneg (by norm_num)]; norm_num) (by norm_num)
    (by
      have h : (16212958658533783 / 9007199254740992 : ℚ) / 2 ^ ((0 : ℤ) - 52) = ((8106479329266891 : ℤ) : ℚ) + 1 / 2 := by
        norm_num
      rw [h, roundHalfEven_tie_odd (8106479329266891) (by decide)]
      norm_num)]
  norm_num

theorem roundToDouble_near_threshold_sum3 (x : ℚ) (hx : x = 37830236869912165 / 18014398509481984) :
    roundToDouble x = 4728779608739021 / 2251799813685248 := by
  subst hx
  rw [roundToDouble_eq (37830236869912165 / 18014398509481984) (1) (4728779608739021)
    (by rw [abs_of_nonneg (by norm_num)]; norm_num)
    (by rw [abs_of_nonneg (by norm_num)]; norm_num) (by norm_num)
    (roundHalfEven_eq_of_lt _ (4728779608739021) (by norm_num) (by norm_num))]
  norm_num

theorem roundToDouble_near_threshold_quot (x : ℚ) (hx : x = 4728779608739021 / 6755399441055744) :
    roundToDouble x = 6305039478318695 / 9007199254740992 := by
  subst hx
  rw [roundToDouble_eq (4728779608739021 / 6755399441055744) (-1) (6305039478318695)
    (by rw [abs_of_nonneg (by norm_num)]; norm_num)
    (by rw [abs_of_nonneg (by norm_num)]; norm_num) (by norm_num)
    (roundHalfEven_eq_of_lt _ (6305039478318695) (by norm_num) (by norm_num))]
  norm_num

theorem averageDouble_near_threshold :
    averageDouble [8106479329266891 / 9007199254740992, 2026619832316723 / 2251799813685248, 5404319552844597 / 18014398509481984]
      = 6305039478318695 / 9007199254740992 := by
  have e1 : roundToDouble ((0 : ℚ) + 8106479329266891 / 9007199254740992) = 8106479329266891 / 9007199254740992 :=
    roundToDouble_near_threshold_a _ (by norm_num)
  have e2 : roundToDouble ((8106479329266891 / 9007199254740992 : ℚ) + 2026619832316723 / 2251799813685248) = 2026619832316723 / 1125899906842624 :=
    roundToDouble_near_threshold_sum2 _ (by norm_num)
  have e3 : roundToDouble ((2026619832316723 / 1125899906842624 : ℚ) + 5404319552844597 / 18014398509481984) = 4728779608739021 / 2251799813685248 :=
    roundToDouble_near_threshold_sum3 _ (by norm_num)
  have e4 : roundToDouble ((4728779608739021 / 2251799813685248 : ℚ) / (((0 + 1 + 1 + 1 : ℕ)) : ℚ)) = 6305039478318695 / 9007199254740992 :=
    roundToDouble_near_threshold_quot _ (by norm_num)
  simp only [averageDouble, List.foldl_cons, List.foldl_nil, List.length_cons,
    List.length_nil]
  rw [e1, e2, e3, e4]

theorem abs_roundToDouble_sub_le_52 (x : ℚ) (hx : |x| ≤ 1) :
    |roundToDouble x - x| ≤ 1 / 2 ^ 52 := by
  have h := abs_roundToDouble_sub_le_of_le_one x hx
  have hs := small_pow_le
  have : (1 : ℚ) / 2 ^ 53 + 1 / 2 ^ 55 ≤ 1 / 2 ^ 52 := by norm_num
  linarith

theorem lastK_min_ne_nil (n : Nat) (l : List ℚ) (h : l.length = n + 1) :
    lastK (min (n + 1) 3) l ≠ [] ∧ (lastK (min (n + 1) 3) l).length ≤ 3 := by
  have hl : (lastK (min (n + 1) 3) l).length = min (n + 1) 3 := by
    unfold lastK
    rw [List.length_drop]
    omega
  constructor
  · intro h0
    rw [h0, List.length_nil] at hl
    omega
  · rw [hl]; omega

theorem three_scores_cycle (r x y z : ℚ) (inp1 inp2 inp3 inp4 : CycleInput ℚ)
    (h1 : inp1.pImage = some r) (h2 : inp2.pImage = some x) (h3 : inp3.pImage = some y)
    (h4 : inp4.pImage = some z) :
    (mainCycleDouble (fun _ c : ℚ => c)
        (mainRunDouble (fun _ c : ℚ => c) LoopState.init [inp1, inp2, inp3]).1 inp4).1.img_diff
      = [x, y, z]
    ∧ dispatchOf (mainCycleDouble (fun _ c : ℚ => c)
        (mainRunDouble (fun _ c : ℚ => c) LoopState.init [inp1, inp2, inp3]).1 inp4).2
      = alertBranch (roundToDouble THRESHOLD) (averageDouble [x, y, z]) z inp4 := by
  have hs : (mainRunDouble (fun _ c : ℚ => c) LoopState.init [inp1, inp2, inp3]).1
      = { isRefImageSet := true, img_diff := [x, y], ref_img := r } := by
    simp [mainRunDouble, runWith, cycleWith, h1, h2, h3, LoopState.init, pushEvict,
      AVG_COUNT]
  rw [hs, mainCycleDouble, cycleWith_compare _ _ _ _ _ _ z h4 rfl]
  simp only [dispatchOf_compare_trace]
  simp [pushEvict, AVG_COUNT]

/-! ## Lemmas on the correlation of two histograms -/

section Correlation

variable {R : Type} [LinearOrderedField R]

theorem sum_sq_affine (l : List (R × R)) (t : R) :
    (l.map (fun ab => (ab.1 * t + ab.2) * (ab.1 * t + ab.2))).sum
      = (l.map (fun ab => ab.1 * ab.1)).sum * t * t
        + 2 * (l.map (fun ab => ab.1 * ab.2)).sum * t
        + (l.map (fun ab => ab.2 * ab.2)).sum := by
  induction l with
  | nil => simp
  | cons x xs ih =>
    simp only [List.map_cons, List.sum_cons, ih]
    ring

theorem sum_mul_sq_le (l : List (R × R)) :
    (l.map (fun ab => ab.1 * ab.2)).sum * (l.map (fun ab => ab.1 * ab.2)).sum
      ≤ (l.map (fun ab => ab.1 * ab.1)).sum * (l.map (fun ab => ab.2 * ab.2)).sum := by
  have h : ∀ t : R, 0 ≤ (l.map (fun ab => ab.1 * ab.1)).sum * (t * t)
      + 2 * (l.map (fun ab => ab.1 * ab.2)).sum * t
      + (l.map (fun ab => ab.2 * ab.2)).sum := by
    intro t
    have hnn : 0 ≤ (l.map (fun ab => (ab.1 * t + ab.2) * (ab.1 * t + ab.2))).sum := by
      apply List.sum_nonneg
      intro a ha
      obtain ⟨y, _, rfl⟩ := List.mem_map.mp ha
      exact mul_self_nonneg _
    rw [sum_sq_affine] at hnn
    linarith
  have hd : discrim ((l.map (fun ab => ab.1 * ab.1)).sum)
      (2 * (l.map (fun ab => ab.1 * ab.2)).sum) ((l.map (fun ab => ab.2 * ab.2)).sum) ≤ 0 :=
    discrim_le_zero h
  unfold discrim at hd
  nlinarith [hd]

theorem sum_centered_mul (l : List (R × R)) (p q : R) :
    (l.map (fun ab => (ab.1 - p) * (ab.2 - q))).sum
      = (l.map (fun ab => ab.1 * ab.2)).sum - q * (l.map (fun ab => ab.1)).sum
        - p * (l.map (fun ab => ab.2)).sum + (l.length : R) * p * q := by
  induction l with
  | nil => simp
  | cons x xs ih =>
    simp only [List.map_cons, List.sum_cons, List.length_cons, ih]
    push_cast
    ring

theorem sum_centered_sq_fst (l : List (R × R)) (p : R) :
    (l.map (fun ab => (ab.1 - p) * (ab.1 - p))).sum
      = (l.map (fun ab => ab.1 * ab.1)).sum - 2 * p * (l.map (fun ab => ab.1)).sum
        + (l.length : R) * p * p := by
  induction l with
  | nil => simp
  | cons x xs ih =>
    simp only [List.map_cons, List.sum_cons, List.length_cons, ih]
    push_cast
    ring

theorem sum_centered_sq_snd (l : List (R × R)) (q : R) :
    (l.map (fun ab => (ab.2 - q) * (ab.2 - q))).sum
      = (l.map (fun ab => ab.2 * ab.2)).sum - 2 * q * (l.map (fun ab => ab.2)).sum
        + (l.length : R) * q * q := by
  induction l with
  | nil => simp
  | cons x xs ih =>
    simp only [List.map_cons, List.sum_cons, List.length_cons, ih]
    push_cast
    ring

/-- The covariance and the two variances of the correlation, for bins counted by the
length of the list: Cauchy-Schwarz on the centred values. -/
theorem covariance_sq_le (l : List (R × R)) :
    0 ≤ (l.map (fun ab => ab.1 * ab.1)).sum
          - (l.map (fun ab => ab.1)).sum * (l.map (fun ab => ab.1)).sum
            * (1 / (l.length : R))
      ∧ 0 ≤ (l.map (fun ab => ab.2 * ab.2)).sum
          - (l.map (fun ab => ab.2)).sum * (l.map (fun ab => ab.2)).sum
            * (1 / (l.length : R))
      ∧ ((l.map (fun ab => ab.1 * ab.2)).sum
          - (l.map (fun ab => ab.1)).sum * (l.map (fun ab => ab.2)).sum
            * (1 / (l.length : R)))
        * ((l.map (fun ab => ab.1 * ab.2)).sum
          - (l.map (fun ab => ab.1)).sum * (l.map (fun ab => ab.2)).sum
            * (1 / (l.length : R)))
        ≤ ((l.map (fun ab => ab.1 * ab.1)).sum
            - (l.map (fun ab => ab.1)).sum * (l.map (fun ab => ab.1)).sum
              * (1 / (l.length : R)))
          * ((l.map (fun ab => ab.2 * ab.2)).sum
            - (l.map (fun ab => ab.2)).sum * (l.map (fun ab => ab.2)).sum
              * (1 / (l.length : R))) := by
  by_cases hn : (l.length : R) = 0
  · have hnil : l = [] := by
      have : l.length = 0 := by exact_mod_cast hn
      exact List.length_eq_zero.mp this
    subst hnil
    simp
  · have hcs := sum_mul_sq_le (l.map (fun ab : R × R =>
      (ab.1 - (l.map (fun ab : R × R => ab.1)).sum * (1 / (l.length : R)),
        ab.2 - (l.map (fun ab : R × R => ab.2)).sum * (1 / (l.length : R)))))
    simp only [List.map_map, Function.comp_def] at hcs
    rw [sum_centered_mul, sum_centered_sq_fst, sum_centered_sq_snd] at hcs
    have h1 : 0 ≤ (l.map (fun ab =>
        (ab.1 - (l.map (fun ab => ab.1)).sum * (1 / (l.length : R)))
          * (ab.1 - (l.map (fun ab => ab.1)).sum * (1 / (l.length : R))))).sum := by
      apply List.sum_nonneg
      intro a ha
      obtain ⟨y, _, rfl⟩ := List.mem_map.mp ha
      exact mul_self_nonneg _
    have h2 : 0 ≤ (l.map (fun ab =>
        (ab.2 - (l.map (fun ab => ab.2)).sum * (1 / (l.length : R)))
          * (ab.2 - (l.map (fun ab => ab.2)).sum * (1 / (l.length : R))))).sum := by
      apply List.sum_nonneg
      intro a ha
      obtain ⟨y, _, rfl⟩ := List.mem_map.mp ha
      exact mul_self_nonneg _
    rw [sum_centered_sq_fst] at h1
    rw [sum_centered_sq_snd] at h2
    have e1 : (l.map (fun ab => ab.1 * ab.1)).sum
          - 2 * ((l.map (fun ab => ab.1)).sum * (1 / (l.length : R)))
            * (l.map (fun ab => ab.1)).sum
          + (l.length : R) * ((l.map (fun ab => ab.1)).sum * (1 / (l.length : R)))
            * ((l.map (fun ab => ab.1)).sum * (1 / (l.length : R)))
        = (l.map (fun ab => ab.1 * ab.1)).sum
          - (l.map (fun ab => ab.1)).sum * (l.map (fun ab => ab.1)).sum
            * (1 / (l.length : R)) := by
      field_simp
      ring
    have e2 : (l.map (fun ab => ab.2 * ab.2)).sum
          - 2 * ((l.map (fun ab => ab.2)).sum * (1 / (l.length : R)))
            * (l.map (fun ab => ab.2)).sum
          + (l.length : R) * ((l.map (fun ab => ab.2)).sum * (1 / (l.length : R)))
            * ((l.map (fun ab => ab.2)).sum * (1 / (l.length : R)))
        = (l.map (fun ab => ab.2 * ab.2)).sum
          - (l.map (fun ab => ab.2)).sum * (l.map (fun ab => ab.2)).sum
            * (1 / (l.length : R)) := by
      field_simp
      ring
    have e3 : (l.map (fun ab => ab.1 * ab.2)).sum
          - (l.map (fun ab => ab.2)).sum * (1 / (l.length : R))
            * (l.map (fun ab => ab.1)).sum
          - (l.map (fun ab => ab.1)).sum * (1 / (l.length : R))
            * (l.map (fun ab => ab.2)).sum
          + (l.length : R) * ((l.map (fun ab => ab.1)).sum * (1 / (l.length : R)))
            * ((l.map (fun ab => ab.2)).sum * (1 / (l.length : R)))
        = (l.map (fun ab => ab.1 * ab.2)).sum
          - (l.map (fun ab => ab.1)).sum * (l.map (fun ab => ab.2)).sum
            * (1 / (l.length : R)) := by
      field_simp
      ring
    rw [e1] at h1 hcs
    rw [e2] at h2 hcs
    rw [e3] at hcs
    exact ⟨h1, h2, hcs⟩

theorem correlation_mem_unit (sqrt : R → R)
    (hsqrt : ∀ x : R, 0 ≤ x → 0 ≤ sqrt x ∧ sqrt x * sqrt x = x)
    (num d eps : R) (heps : 0 ≤ eps) (hd : 0 ≤ d) (hcs : num * num ≤ d) :
    -1 ≤ (if |d| > eps then num / sqrt d else 1)
      ∧ (if |d| > eps then num / sqrt d else 1) ≤ 1 := by
  split
  · next hgt =>
    rw [abs_of_nonneg hd] at hgt
    have hdpos := lt_of_le_of_lt heps hgt
    obtain ⟨hs0, hss⟩ := hsqrt d hd
    have hspos : 0 < sqrt d := by
      rcases eq_or_lt_of_le hs0 with h0 | h0
      · rw [← h0] at hss
        simp only [mul_zero] at hss
        rw [← hss] at hdpos
        exact absurd hdpos (lt_irrefl _)
      · exact h0
    rw [← hss] at hcs
    have habs := abs_le_of_sq_le_sq' (by nlinarith [hcs]) hs0
    rw [le_div_iff₀ hspos, div_le_one hspos]
    constructor
    · linarith [habs.1]
    · exact habs.2
  · exact ⟨by norm_num, le_refl 1⟩

theorem compareHist_mem_unit (sqrt : R → R)
    (hsqrt : ∀ x : R, 0 ≤ x → 0 ≤ sqrt x ∧ sqrt x * sqrt x = x)
    (H1 H2 : List R) (hlen : H1.length = H2.length) :
    -1 ≤ compareHist sqrt H1 H2 ∧ compareHist sqrt H1 H2 ≤ 1 := by
  obtain ⟨h1, h2, hcs⟩ := covariance_sq_le (H1.zip H2)
  have hz : (H1.zip H2).length = H1.length := by
    rw [List.length_zip, hlen, min_self]
  rw [hz] at h1 h2 hcs
  have heps : (0 : R) ≤ ((DBL_EPSILON : ℚ) : R) := by
    have : (0 : ℚ) ≤ DBL_EPSILON := by norm_num [DBL_EPSILON]
    exact_mod_cast this
  simp only [compareHist]
  exact correlation_mem_unit sqrt hsqrt _ _ _ heps (mul_nonneg h1 h2) hcs

theorem normalize_length (src : List R) (alpha beta : R) :
    (normalize src alpha beta).length = src.length := by
  simp [normalize]

theorem compareImgDiff_mem_unit (sqrt : R → R)
    (hsqrt : ∀ x : R, 0 ≤ x → 0 ≤ sqrt x ∧ sqrt x * sqrt x = x)
    (cvtColor : Vec3b → Vec3b) (Ref Test : Image) :
    -1 ≤ compareImgDiff sqrt cvtColor Ref Test
      ∧ compareImgDiff sqrt cvtColor Ref Test ≤ 1 := by
  unfold compareImgDiff
  apply compareHist_mem_unit sqrt hsqrt
  rw [normalize_length, normalize_length]
  simp only [List.length_map, frameHist, calcHist, List.length_range]

end Correlation

theorem window_mem_scores {Mat : Type} [Inhabited Mat] (avg : List ℚ → ℚ)
    (score : Mat → Mat → ℚ) (K : Nat) (t : ℚ) (ins : List (CycleInput Mat)) (x : ℚ)
    (hx : x ∈ (runWith avg score K t LoopState.init ins).1.img_diff) :
    ∃ a b : Mat, x = score a b := by
  rw [runWith_state, run_init] at hx
  cases hf : frames ins with
  | nil =>
    rw [hf] at hx
    simp [LoopState.init] at hx
  | cons f0 fs =>
    rw [hf] at hx
    simp only [lastK] at hx
    have hm := List.mem_of_mem_drop hx
    obtain ⟨c, _, rfl⟩ := List.mem_map.mp hm
    exact ⟨f0, c, rfl⟩

/-! ## Lemmas on the store of pixel buffers -/

theorem readMat_append_left (mem extra : List Image) (m : Nat) (h : m < mem.length) :
    readMat (mem ++ extra) m = readMat mem m := by
  unfold readMat
  rw [List.getD_eq_getElem?_getD, List.getD_eq_getElem?_getD, List.getElem?_append_left h]

theorem readMat_append_length (mem : List Image) (a : Image) (rest : List Image) :
    readMat (mem ++ a :: rest) mem.length = a := by
  unfold readMat
  rw [List.getD_eq_getElem?_getD, List.getElem?_append_right (le_refl _)]
  simp

theorem readMat_append_length_succ (mem : List Image) (a b : Image) (rest : List Image) :
    readMat (mem ++ a :: b :: rest) (mem.length + 1) = b := by
  unfold readMat
  rw [List.getD_eq_getElem?_getD, List.getElem?_append_right (by omega)]
  simp

theorem set_append_length (mem : List Image) (a x : Image) (rest : List Image) :
    (mem ++ a :: rest).set mem.length x = mem ++ x :: rest := by
  induction mem with
  | nil => rfl
  | cons y ys ih => simp [ih]

theorem set_append_length_succ (mem : List Image) (a b x : Image) (rest : List Image) :
    (mem ++ a :: b :: rest).set (mem.length + 1) x = mem ++ a :: x :: rest := by
  induction mem with
  | nil => rfl
  | cons y ys ih => simp [ih]

theorem readMat_set_zero (mem : List Image) (x : Image) (h : 0 < mem.length) :
    readMat (mem.set 0 x) 0 = x := by
  cases mem with
  | nil => simp at h
  | cons y ys => rfl

theorem readMat_set_zero_ne (mem : List Image) (x : Image) (m : Nat) (h : m ≠ 0) :
    readMat (mem.set 0 x) m = readMat mem m := by
  cases mem with
  | nil => rfl
  | cons y ys =>
    cases m with
    | zero => exact absurd rfl h
    | succ k => rfl

theorem compareImgDiffOn_eq {R : Type} [LinearOrderedField R] (sqrt : R → R)
    (code : Vec3b → Vec3b) (Ref Test : Nat) (mem : List Image)
    (hTest : Test < mem.length) :
    compareImgDiffOn sqrt code Ref Test mem
      = (compareImgDiff sqrt code (readMat mem Ref) (readMat mem Test), mem) := by
  have h1 : readMat (mem ++ [readMat mem Ref]) Test = readMat mem Test :=
    readMat_append_left mem _ Test hTest
  have hlen : (mem ++ [readMat mem Ref]).length = mem.length + 1 := by simp
  have e2 : (mem ++ [readMat mem Ref]) ++ [readMat mem Test]
      = mem ++ readMat mem Ref :: readMat mem Test :: [] := by simp
  simp only [compareImgDiffOn, clone, cvtColorMat, h1, hlen, e2]
  rw [readMat_append_length, set_append_length, readMat_append_length_succ,
    set_append_length_succ, readMat_append_length, readMat_append_length_succ,
    List.take_left']
  · rfl
  · rfl

section StoreLoop

variable (avg : List ℚ → ℚ) (sqrt : ℚ → ℚ) (code : Vec3b → Vec3b) (K : Nat) (t : ℚ)

theorem toLoopState_init (buffer : Image) :
    (MainState.init buffer).toLoopState = LoopState.init := rfl

theorem cycleOn_noFrame (s : MainState) (inp : CycleInput Image) (h : inp.pImage = none) :
    cycleOn avg sqrt code K t s inp = (s, [Effect.sleep 10]) := by
  simp [cycleOn, h]

theorem cycleOn_adopt (s : MainState) (inp : CycleInput Image) (frame : Image)
    (h : inp.pImage = some frame) (hs : s.isRefImageSet = false) :
    cycleOn avg sqrt code K t s inp
      = ({ s with mem := s.mem.set 0 frame ++ [readMat (s.mem.set 0 frame) 0],
                  ref_img := (s.mem.set 0 frame).length, isRefImageSet := true },
          [Effect.sleep N_Capture]) := by
  simp [cycleOn, h, hs, clone]

theorem cycleOn_compare (s : MainState) (inp : CycleInput Image) (frame : Image)
    (h : inp.pImage = some frame) (hs : s.isRefImageSet = true) :
    cycleOn avg sqrt code K t s inp
      = ({ s with mem := (compareImgDiffOn sqrt code s.ref_img 0 (s.mem.set 0 frame)).2,
                  img_diff := pushEvict K s.img_diff
                    (compareImgDiffOn sqrt code s.ref_img 0 (s.mem.set 0 frame)).1 },
          [Effect.printf (compareImgDiffOn sqrt code s.ref_img 0 (s.mem.set 0 frame)).1]
            ++ alertBranch t (avg (pushEvict K s.img_diff
                (compareImgDiffOn sqrt code s.ref_img 0 (s.mem.set 0 frame)).1))
                (readMat (compareImgDiffOn sqrt code s.ref_img 0 (s.mem.set 0 frame)).2 0) inp
            ++ [Effect.sleep N_Capture]) := by
  simp [cycleOn, h, hs]

theorem cycleOn_refines (s : MainState) (inp : CycleInput Image)
    (h0 : s.ref_img ≠ 0) (hlt : s.ref_img < s.mem.length) :
    (cycleOn avg sqrt code K t s inp).2
        = (cycleWith avg (compareImgDiff sqrt code) K t s.toLoopState inp).2
      ∧ (cycleOn avg sqrt code K t s inp).1.toLoopState
        = (cycleWith avg (compareImgDiff sqrt code) K t s.toLoopState inp).1
      ∧ (cycleOn avg sqrt code K t s inp).1.ref_img ≠ 0
      ∧ (cycleOn avg sqrt code K t s inp).1.ref_img
          < (cycleOn avg sqrt code K t s inp).1.mem.length := by
  have hpos : 0 < s.mem.length := by omega
  cases hp : inp.pImage with
  | none =>
    rw [cycleWith_noFrame avg _ K t _ inp hp, cycleOn_noFrame avg sqrt code K t s inp hp]
    exact ⟨rfl, rfl, h0, hlt⟩
  | some frame =>
    have hl : (s.mem.set 0 frame).length = s.mem.length := by simp
    have hr0 : readMat (s.mem.set 0 frame) 0 = frame := readMat_set_zero _ _ hpos
    cases hs : s.isRefImageSet with
    | false =>
      have hs2 : s.toLoopState.isRefImageSet = false := hs
      rw [cycleWith_adopt avg _ K t _ inp frame hp hs2,
        cycleOn_adopt avg sqrt code K t s inp frame hp hs]
      refine ⟨rfl, ?_, ?_, ?_⟩
      · simp only [MainState.toLoopState, readMat_append_length, hr0]
      · simp only [hl]
        omega
      · simp
    | true =>
      have hs2 : s.toLoopState.isRefImageSet = true := hs
      have hc := compareImgDiffOn_eq sqrt code s.ref_img 0 (s.mem.set 0 frame)
        (by rw [hl]; exact hpos)
      rw [cycleWith_compare avg _ K t _ inp frame hp hs2,
        cycleOn_compare avg sqrt code K t s inp frame hp hs, hc]
      simp only [readMat_set_zero_ne _ _ _ h0, hr0]
      refine ⟨rfl, ?_, h0, ?_⟩
      · simp only [MainState.toLoopState, readMat_set_zero_ne _ _ _ h0]
      · rw [hl]; exact hlt

theorem runOn_refines (s : MainState) (ins : List (CycleInput Image))
    (h0 : s.ref_img ≠ 0) (hlt : s.ref_img < s.mem.length) :
    (runOn avg sqrt code K t s ins).2
        = (runWith avg (compareImgDiff sqrt code) K t s.toLoopState ins).2
      ∧ (runOn avg sqrt code K t s ins).1.toLoopState
        = (runWith avg (compareImgDiff sqrt code) K t s.toLoopState ins).1 := by
  induction ins generalizing s with
  | nil => exact ⟨rfl, rfl⟩
  | cons inp rest ih =>
    obtain ⟨c1, c2, c3, c4⟩ := cycleOn_refines avg sqrt code K t s inp h0 hlt
    obtain ⟨r1, r2⟩ := ih (cycleOn avg sqrt code K t s inp).1 c3 c4
    simp only [runOn, runWith]
    rw [c1, r1, r2, c2]
    exact ⟨rfl, rfl⟩

theorem runOn_init_refines (buffer : Image) (ins : List (CycleInput Image)) :
    (runOn avg sqrt code K t (MainState.init buffer) ins).2
        = (runWith avg (compareImgDiff sqrt code) K t LoopState.init ins).2
      ∧ (runOn avg sqrt code K t (MainState.init buffer) ins).1.toLoopState
        = (runWith avg (compareImgDiff sqrt code) K t LoopState.init ins).1 :=
  runOn_refines avg sqrt code K t (MainState.init buffer) ins
    (by simp [MainState.init]) (by simp [MainState.init])

end StoreLoop

section CongrWith

variable {Mat : Type} (avg : List ℚ → ℚ) (compareImgDiff : Mat → Mat → ℚ) (K : Nat) (t : ℚ)

theorem cycleWith_congr (s : LoopState Mat) (inp1 inp2 : CycleInput Mat)
    (h : inp1.pImage = inp2.pImage) :
    (cycleWith avg compareImgDiff K t s inp1).1 = (cycleWith avg compareImgDiff K t s inp2).1
      ∧ printedScores (cycleWith avg compareImgDiff K t s inp1).2
          = printedScores (cycleWith avg compareImgDiff K t s inp2).2
      ∧ triggered (cycleWith avg compareImgDiff K t s inp1).2
          = triggered (cycleWith avg compareImgDiff K t s inp2).2 := by
  cases hp : inp2.pImage with
  | none =>
    rw [hp] at h
    rw [cycleWith_noFrame avg compareImgDiff K t s inp1 h,
      cycleWith_noFrame avg compareImgDiff K t s inp2 hp]
    exact ⟨rfl, rfl, rfl⟩
  | some f =>
    rw [hp] at h
    cases hs : s.isRefImageSet with
    | false =>
      rw [cycleWith_adopt avg compareImgDiff K t s inp1 f h hs,
        cycleWith_adopt avg compareImgDiff K t s inp2 f hp hs]
      exact ⟨rfl, rfl, rfl⟩
    | true =>
      rw [cycleWith_compare avg compareImgDiff K t s inp1 f h hs,
        cycleWith_compare avg compareImgDiff K t s inp2 f hp hs]
      refine ⟨rfl, ?_, ?_⟩
      · simp only [printedScores_compare_trace]
      · simp only [triggered_compare_trace]

theorem runWith_congr (s : LoopState Mat) (ins1 ins2 : List (CycleInput Mat))
    (h : ins1.map (fun inp => inp.pImage) = ins2.map (fun inp => inp.pImage)) :
    (runWith avg compareImgDiff K t s ins1).1 = (runWith avg compareImgDiff K t s ins2).1
      ∧ (runWith avg compareImgDiff K t s ins1).2.map printedScores
          = (runWith avg compareImgDiff K t s ins2).2.map printedScores
      ∧ (runWith avg compareImgDiff K t s ins1).2.map triggered
          = (runWith avg compareImgDiff K t s ins2).2.map triggered := by
  induction ins1 generalizing s ins2 with
  | nil =>
    cases ins2 with
    | nil => exact ⟨rfl, rfl, rfl⟩
    | cons b bs => simp at h
  | cons a as ih =>
    cases ins2 with
    | nil => simp at h
    | cons b bs =>
      simp only [List.map_cons, List.cons.injEq] at h
      obtain ⟨hc1, hc2, hc3⟩ := cycleWith_congr avg compareImgDiff K t s a b h.1
      simp only [runWith, List.map_cons]
      rw [hc1, hc2, hc3]
      obtain ⟨hr1, hr2, hr3⟩ := ih (cycleWith avg compareImgDiff K t s b).1 bs h.2
      rw [hr1, hr2, hr3]
      exact ⟨rfl, rfl, rfl⟩

end CongrWith

/-! ## The claims -/

/-- C1, as the program computes: for every capacity `K` with `1 ≤ K ≤ 2 ^ 53` and every
sequence of `n ≥ K` scores pushed through the push-then-evict step of the loop, starting
from the empty vector, the window holds exactly `K` samples, they are the `K` most recently
pushed scores, and the value that `average` computes over the window in binary64 differs
from the arithmetic mean of these `K` scores (not of all `n`) by at most
`(K + 2) * (2 ^ (-53) * B + 2 ^ (-1075))`, where `B` bounds the scores in absolute value. -/
theorem average_window_near_mean_of_last_K (K : Nat) (hK : 1 ≤ K) (hK53 : K ≤ 2 ^ 53)
    (scores : List ℚ) (hn : K ≤ scores.length) (B : ℚ) (hB : ∀ x ∈ scores, |x| ≤ B) :
    (scores.foldl (pushEvict K) []).length = K
      ∧ scores.foldl (pushEvict K) [] = scores.drop (scores.length - K)
      ∧ |averageDouble (scores.foldl (pushEvict K) [])
            - (scores.drop (scores.length - K)).sum / (K : ℚ)|
          ≤ ((K : ℚ) + 2) * (2 ^ (-53 : ℤ) * B + 2 ^ (-1075 : ℤ)) := by
  have hw := foldl_pushEvict_nil K scores
  have hl : (lastK K scores).length = K := by
    rw [lastK_length]; omega
  have hne : lastK K scores ≠ [] := by
    intro h0
    rw [h0] at hl
    simp at hl
    omega
  have hBw : ∀ x ∈ lastK K scores, |x| ≤ B := fun x hx =>
    hB x (List.mem_of_mem_drop hx)
  have hB0 : 0 ≤ B := by
    obtain ⟨x, hx⟩ := List.exists_mem_of_ne_nil _ hne
    exact le_trans (abs_nonneg x) (hBw x hx)
  have herr := averageDouble_error B hB0 (lastK K scores) hne hBw (by rw [hl]; exact hK53)
  rw [hl] at herr
  refine ⟨by rw [hw, hl], by rw [hw, lastK], ?_⟩
  rw [hw]
  exact herr

/-- Witness of C1: capacity 2 and the scores 1, 0, 0, bounded by 1; the window is
`[0, 0]`. -/
theorem average_window_near_mean_of_last_K_witness :
    (1 ≤ 2 ∧ 2 ≤ 2 ^ 53 ∧ 2 ≤ ([1, 0, 0] : List ℚ).length
        ∧ ∀ x ∈ ([1, 0, 0] : List ℚ), |x| ≤ 1)
      ∧ ([1, 0, 0] : List ℚ).foldl (pushEvict 2) []
          = ([1, 0, 0] : List ℚ).drop (([1, 0, 0] : List ℚ).length - 2)
      ∧ ([1, 0, 0] : List ℚ).foldl (pushEvict 2) [] = [0, 0] :=
  have hB : ∀ x ∈ ([1, 0, 0] : List ℚ), |x| ≤ 1 := by
    intro x hx
    simp only [List.mem_cons, List.mem_singleton, List.not_mem_nil, or_false] at hx
    rcases hx with h | h | h <;> rw [h] <;> norm_num
  ⟨⟨by decide, by norm_num, by decide, hB⟩,
    (average_window_near_mean_of_last_K 2 (by decide) (by norm_num) [1, 0, 0] (by decide)
      1 hB).2.1,
    by simp [pushEvict]⟩

/-- Counterexample to C1 as stated: capacity 3 and the double nearest to 0.1 pushed three
times.  The window holds these three doubles and their arithmetic mean is that double, but
the value that `average` computes in binary64 is the next double above it
(0.10000000000000002). -/
theorem average_window_eq_mean_counterexample :
    roundToDouble (roundToDouble (1 / 10)) = roundToDouble (1 / 10)
      ∧ [roundToDouble (1 / 10), roundToDouble (1 / 10), roundToDouble (1 / 10)].foldl
            (pushEvict 3) []
          = [roundToDouble (1 / 10), roundToDouble (1 / 10), roundToDouble (1 / 10)]
      ∧ ([roundToDouble (1 / 10), roundToDouble (1 / 10), roundToDouble (1 / 10)].drop
            ([roundToDouble (1 / 10), roundToDouble (1 / 10),
              roundToDouble (1 / 10)].length - 3)).sum / ((3 : Nat) : ℚ)
          = roundToDouble (1 / 10)
      ∧ averageDouble
            ([roundToDouble (1 / 10), roundToDouble (1 / 10), roundToDouble (1 / 10)].foldl
              (pushEvict 3) [])
          = roundToDouble (1 / 10) + 2 ^ (-56 : ℤ)
      ∧ averageDouble
            ([roundToDouble (1 / 10), roundToDouble (1 / 10), roundToDouble (1 / 10)].foldl
              (pushEvict 3) [])
          ≠ ([roundToDouble (1 / 10), roundToDouble (1 / 10), roundToDouble (1 / 10)].drop
              ([roundToDouble (1 / 10), roundToDouble (1 / 10),
                roundToDouble (1 / 10)].length - 3)).sum / ((3 : Nat) : ℚ) := by
  have hw : [roundToDouble (1 / 10), roundToDouble (1 / 10), roundToDouble (1 / 10)].foldl
        (pushEvict 3) []
      = [roundToDouble (1 / 10), roundToDouble (1 / 10), roundToDouble (1 / 10)] := by
    simp [pushEvict]
  have hd := roundToDouble_one_tenth (1 / 10) rfl
  have havg := averageDouble_one_tenth
  have hmean : ([roundToDouble (1 / 10), roundToDouble (1 / 10),
        roundToDouble (1 / 10)].drop
        ([roundToDouble (1 / 10), roundToDouble (1 / 10),
          roundToDouble (1 / 10)].length - 3)).sum / ((3 : Nat) : ℚ)
      = roundToDouble (1 / 10) := by
    simp only [List.length_cons, List.length_nil, List.drop_zero, List.sum_cons,
      List.sum_nil, Nat.sub_self, Nat.zero_add, Nat.reduceAdd]
    push_cast
    ring
  refine ⟨?_, hw, hmean, ?_, ?_⟩
  · rw [hd]
    exact roundToDouble_one_tenth_sum1 _ rfl
  · rw [hw, havg, hd]
    norm_num
  · rw [hw, hmean, havg, hd]
    norm_num

/-- C2: the alert test is a strict comparison.  On an iteration that compares a frame
(reference set, frame captured) the save/mail/upload calls are made if and only if the
average of the window after the push is strictly below the threshold, for every threshold;
the alert branch is not taken when the smoothed value equals the threshold, and an iteration
of the source constants whose window is the single score 0.7 makes none of the calls. -/
theorem trigger_iff_average_lt_threshold {Mat : Type} (compareImgDiff : Mat → Mat → ℚ)
    (K : Nat) (t : ℚ) (s : LoopState Mat) (inp : CycleInput Mat) (cur : Mat) :
    (dispatchOf (cycle compareImgDiff K t { s with isRefImageSet := true }
          { inp with pImage := some cur }).2 ≠ []
        ↔ average (cycle compareImgDiff K t { s with isRefImageSet := true }
            { inp with pImage := some cur }).1.img_diff < t)
      ∧ (∀ m : ℚ, alertBranch t m cur inp ≠ [] ↔ m < t)
      ∧ alertBranch t t cur inp = []
      ∧ (average (mainCycle (fun _ c : ℚ => c)
            { isRefImageSet := true, img_diff := [], ref_img := 1 }
            (captured (7 / 10) "Thu Oct 29 19:10:00 2026\n")).1.img_diff = THRESHOLD
          ∧ dispatchOf (mainCycle (fun _ c : ℚ => c)
            { isRefImageSet := true, img_diff := [], ref_img := 1 }
            (captured (7 / 10) "Thu Oct 29 19:10:00 2026\n")).2 = []) := by
  refine ⟨?_, fun m => alertBranch_ne_nil_iff t m cur inp, ?_, ?_, ?_⟩
  · rw [cycle_compare compareImgDiff K t _ _ cur rfl rfl]
    simp only [dispatchOf_compare_trace]
    exact alertBranch_ne_nil_iff t _ cur _
  · simp [alertBranch]
  · simp [mainCycle, cycle, captured, pushEvict, average, THRESHOLD, AVG_COUNT]
  · simp [mainCycle, cycle, captured, pushEvict, average, THRESHOLD, AVG_COUNT, alertBranch,
      dispatchOf, dispatch, Effect.isDispatch, Effect.isSleep, N_Capture]

/-- C3: for every capacity `K` and every sequence of pushed scores, the window after the
last push is the last `min n K` scores in insertion order; pushing 0.9, 0.8, 0.6, 0.95 with
capacity 3 leaves `[0.8, 0.6, 0.95]`, whose average is 2.35/3, within 0.0001 of 0.7833. -/
theorem window_eq_last_min_n_K (K : Nat) (scores : List ℚ) :
    scores.foldl (pushEvict K) []
        = scores.drop (scores.length - min scores.length K)
      ∧ (scores.foldl (pushEvict K) []).length = min scores.length K
      ∧ ([0.9, 0.8, 0.6, 0.95] : List ℚ).foldl (pushEvict 3) [] = [0.8, 0.6, 0.95]
      ∧ average (([0.9, 0.8, 0.6, 0.95] : List ℚ).foldl (pushEvict 3) []) = 2.35 / 3
      ∧ |average (([0.9, 0.8, 0.6, 0.95] : List ℚ).foldl (pushEvict 3) []) - 0.7833|
          < 0.0001 := by
  have hw := foldl_pushEvict_nil K scores
  have hd : scores.length - min scores.length K = scores.length - K := by omega
  have hc : ([0.9, 0.8, 0.6, 0.95] : List ℚ).foldl (pushEvict 3) [] = [0.8, 0.6, 0.95] := by
    simp [pushEvict]
  refine ⟨by rw [hw, hd, lastK], by rw [hw, lastK_length], hc, ?_, ?_⟩
  · rw [hc]; simp [average]; norm_num
  · rw [hc]; simp [average]; rw [abs_lt]; constructor <;> norm_num

/-- C4: in every state reached by the loop from its initial variables, under any sequence of
failed captures, the adoption of the reference and comparisons, the window has at most `K`
entries, before and after a further iteration; an iteration that compares (reference set and
a frame captured) takes the length from `L` to `min (L + 1) K`, every other iteration leaves
the length as it is. -/
theorem window_length_le_capacity {Mat : Type} [Inhabited Mat]
    (compareImgDiff : Mat → Mat → ℚ) (K : Nat) (t : ℚ)
    (ins : List (CycleInput Mat)) (inp : CycleInput Mat) :
    (run compareImgDiff K t LoopState.init ins).1.img_diff.length ≤ K
      ∧ (cycle compareImgDiff K t
            (run compareImgDiff K t LoopState.init ins).1 inp).1.img_diff.length ≤ K
      ∧ (cycle compareImgDiff K t
            (run compareImgDiff K t LoopState.init ins).1 inp).1.img_diff.length
          = if (run compareImgDiff K t LoopState.init ins).1.isRefImageSet = true
                ∧ inp.pImage.isSome = true
            then min ((run compareImgDiff K t LoopState.init ins).1.img_diff.length + 1) K
            else (run compareImgDiff K t LoopState.init ins).1.img_diff.length := by
  have hlen := run_init_window_length compareImgDiff K t ins
  have hstep : (cycle compareImgDiff K t
            (run compareImgDiff K t LoopState.init ins).1 inp).1.img_diff.length
          = if (run compareImgDiff K t LoopState.init ins).1.isRefImageSet = true
                ∧ inp.pImage.isSome = true
            then min ((run compareImgDiff K t LoopState.init ins).1.img_diff.length + 1) K
            else (run compareImgDiff K t LoopState.init ins).1.img_diff.length := by
    generalize (run compareImgDiff K t LoopState.init ins).1 = s at hlen ⊢
    cases hp : inp.pImage with
    | none => simp [cycle_noFrame compareImgDiff K t s inp hp]
    | some f =>
      cases hs : s.isRefImageSet with
      | false => simp [cycle_adopt compareImgDiff K t s inp f hp hs]
      | true =>
        simp [cycle_compare compareImgDiff K t s inp f hp hs,
          pushEvict_length K s.img_diff _ hlen]
  refine ⟨hlen, ?_, hstep⟩
  rw [hstep]
  split <;> omega

/-- C5: as the program executes it (the average computed in binary64 and compared with the
double that `0.7` denotes), the first captured frame becomes the reference; after any
further iterations, an iteration that captures a frame leaves in the window the last
`min n 3` of the `n` scores computed so far against that reference, and makes the
save/mail/upload calls, each once and in this order, exactly when the value that `average`
returns for this window is below the threshold, and makes none of them otherwise.  When the
scores of the window lie in `[-1, 1]`, this decision is the one of the exact mean as soon as
the mean is at least `2 ^ (-49)` away from 0.7.  In the run whose scores are the doubles
0.95, 0.92, 0.5, 0.3 the first four iterations make no such call, the window after the
fourth holds 0.95, 0.92, 0.5 and its average is within `2 ^ (-49)` of 0.79, the window after
the fifth holds 0.92, 0.5, 0.3 and its average is within 0.001 of 0.573, and the fifth
iteration makes the three calls once. -/
theorem end_to_end_dispatch_binary64 {Mat : Type} [Inhabited Mat]
    (compareImgDiff : Mat → Mat → ℚ) (inp0 : CycleInput Mat) (f0 : Mat)
    (ins : List (CycleInput Mat)) (inp : CycleInput Mat) (cur : Mat) :
    (mainCycleDouble compareImgDiff LoopState.init { inp0 with pImage := some f0 }).1
        = { isRefImageSet := true, img_diff := [], ref_img := f0 }
      ∧ (mainCycleDouble compareImgDiff
            (mainRunDouble compareImgDiff LoopState.init
              ({ inp0 with pImage := some f0 } :: ins)).1
            { inp with pImage := some cur }).1.img_diff
          = lastK (min ((frames ins).length + 1) 3)
              ((frames ins ++ [cur]).map (compareImgDiff f0))
      ∧ dispatchOf (mainCycleDouble compareImgDiff
            (mainRunDouble compareImgDiff LoopState.init
              ({ inp0 with pImage := some f0 } :: ins)).1
            { inp with pImage := some cur }).2
          = (if averageDouble (lastK (min ((frames ins).length + 1) 3)
                  ((frames ins ++ [cur]).map (compareImgDiff f0))) < roundToDouble THRESHOLD
             then
               [ Effect.imwrite (getDateString inp.asctime ++ ".jpg") cur inp.imwriteOk,
                 Effect.sendmail "future_wei@qq.com" "camera@pi" "Camera notification"
                   "The camera have detected something strange.\n"
                   (sendmail inp.popenOk "future_wei@qq.com" "camera@pi"
                     "Camera notification" "The camera have detected something strange.\n"),
                 Effect.loginAndUploadFile "sunnyfuture@gmail.com" "cxw@2623810"
                   (getDateString inp.asctime ++ ".jpg") ]
             else [])
      ∧ ((∀ x ∈ lastK (min ((frames ins).length + 1) 3)
              ((frames ins ++ [cur]).map (compareImgDiff f0)), |x| ≤ 1) →
          ((lastK (min ((frames ins).length + 1) 3)
                ((frames ins ++ [cur]).map (compareImgDiff f0))).sum
              / ((lastK (min ((frames ins).length + 1) 3)
                ((frames ins ++ [cur]).map (compareImgDiff f0))).length : ℚ)
              ≤ 7 / 10 - 1 / 2 ^ 49 →
            averageDouble (lastK (min ((frames ins).length + 1) 3)
                ((frames ins ++ [cur]).map (compareImgDiff f0))) < roundToDouble THRESHOLD)
          ∧ (7 / 10 + 1 / 2 ^ 49
              ≤ (lastK (min ((frames ins).length + 1) 3)
                ((frames ins ++ [cur]).map (compareImgDiff f0))).sum
              / ((lastK (min ((frames ins).length + 1) 3)
                ((frames ins ++ [cur]).map (compareImgDiff f0))).length : ℚ) →
            ¬ averageDouble (lastK (min ((frames ins).length + 1) 3)
                ((frames ins ++ [cur]).map (compareImgDiff f0))) < roundToDouble THRESHOLD))
      ∧ ((mainRunDouble (fun _ c : ℚ => c) LoopState.init
            [captured 1 "Thu Oct 29 19:10:00 2026\n",
             captured (roundToDouble (95 / 100)) "Thu Oct 29 19:10:01 2026\n",
             captured (roundToDouble (92 / 100)) "Thu Oct 29 19:10:02 2026\n",
             captured (roundToDouble (5 / 10)) "Thu Oct 29 19:10:03 2026\n",
             captured (roundToDouble (3 / 10)) "Thu Oct 29 19:10:04 2026\n"]).2.map dispatchOf
          = [[], [], [], [],
              [ Effect.imwrite "Thu_Oct_29_19_10_04_2026y.jpg" (roundToDouble (3 / 10)) true,
                Effect.sendmail "future_wei@qq.com" "camera@pi" "Camera notification"
                  "The camera have detected something strange.\n"
                  (sendmail true "future_wei@qq.com" "camera@pi"
                    "Camera notification" "The camera have detected something strange.\n"),
                Effect.loginAndUploadFile "sunnyfuture@gmail.com" "cxw@2623810"
                  "Thu_Oct_29_19_10_04_2026y.jpg" ]]
        ∧ (mainRunDouble (fun _ c : ℚ => c) LoopState.init
            [captured 1 "Thu Oct 29 19:10:00 2026\n",
             captured (roundToDouble (95 / 100)) "Thu Oct 29 19:10:01 2026\n",
             captured (roundToDouble (92 / 100)) "Thu Oct 29 19:10:02 2026\n",
             captured (roundToDouble (5 / 10)) "Thu Oct 29 19:10:03 2026\n"]).1.img_diff
          = [roundToDouble (95 / 100), roundToDouble (92 / 100), roundToDouble (5 / 10)]
        ∧ |averageDouble
              [roundToDouble (95 / 100), roundToDouble (92 / 100), roundToDouble (5 / 10)]
            - 79 / 100| ≤ 1 / 2 ^ 49
        ∧ (mainRunDouble (fun _ c : ℚ => c) LoopState.init
            [captured 1 "Thu Oct 29 19:10:00 2026\n",
             captured (roundToDouble (95 / 100)) "Thu Oct 29 19:10:01 2026\n",
             captured (roundToDouble (92 / 100)) "Thu Oct 29 19:10:02 2026\n",
             captured (roundToDouble (5 / 10)) "Thu Oct 29 19:10:03 2026\n",
             captured (roundToDouble (3 / 10)) "Thu Oct 29 19:10:04 2026\n"]).1.img_diff
          = [roundToDouble (92 / 100), roundToDouble (5 / 10), roundToDouble (3 / 10)]
        ∧ |averageDouble
              [roundToDouble (92 / 100), roundToDouble (5 / 10), roundToDouble (3 / 10)]
            - 573 / 1000| < 1 / 1000) := by
  have hs : (mainRunDouble compareImgDiff LoopState.init
              ({ inp0 with pImage := some f0 } :: ins)).1
        = { isRefImageSet := true,
            img_diff := lastK AVG_COUNT ((frames ins).map (compareImgDiff f0)),
            ref_img := f0 } := by
    rw [mainRunDouble, runWith_state, run_init]
    simp [frames]
  have hw : pushEvict AVG_COUNT (lastK AVG_COUNT ((frames ins).map (compareImgDiff f0)))
        (compareImgDiff f0 cur)
      = lastK (min ((frames ins).length + 1) 3)
          ((frames ins ++ [cur]).map (compareImgDiff f0)) := by
    rw [pushEvict_lastK]
    simp only [lastK, AVG_COUNT, List.map_append, List.map_cons, List.map_nil,
      List.length_append, List.length_map, List.length_singleton]
    congr 1
    omega
  have hW := lastK_min_ne_nil (frames ins).length
    ((frames ins ++ [cur]).map (compareImgDiff f0)) (by simp)
  have hthr : THRESHOLD = 7 / 10 := by norm_num [THRESHOLD]
  have hscen : ∀ d1 d2 d3 d4 : ℚ, |d1 - 95 / 100| ≤ 1 / 2 ^ 52 → |d2 - 92 / 100| ≤ 1 / 2 ^ 52 →
      |d3 - 5 / 10| ≤ 1 / 2 ^ 52 → |d4 - 3 / 10| ≤ 1 / 2 ^ 52 →
      ((mainRunDouble (fun _ c : ℚ => c) LoopState.init
            [captured 1 "Thu Oct 29 19:10:00 2026\n",
             captured d1 "Thu Oct 29 19:10:01 2026\n",
             captured d2 "Thu Oct 29 19:10:02 2026\n",
             captured d3 "Thu Oct 29 19:10:03 2026\n",
             captured d4 "Thu Oct 29 19:10:04 2026\n"]).2.map dispatchOf
          = [[], [], [], [],
              [ Effect.imwrite "Thu_Oct_29_19_10_04_2026y.jpg" d4 true,
                Effect.sendmail "future_wei@qq.com" "camera@pi" "Camera notification"
                  "The camera have detected something strange.\n"
                  (sendmail true "future_wei@qq.com" "camera@pi"
                    "Camera notification" "The camera have detected something strange.\n"),
                Effect.loginAndUploadFile "sunnyfuture@gmail.com" "cxw@2623810"
                  "Thu_Oct_29_19_10_04_2026y.jpg" ]]
        ∧ (mainRunDouble (fun _ c : ℚ => c) LoopState.init
            [captured 1 "Thu Oct 29 19:10:00 2026\n",
             captured d1 "Thu Oct 29 19:10:01 2026\n",
             captured d2 "Thu Oct 29 19:10:02 2026\n",
             captured d3 "Thu Oct 29 19:10:03 2026\n"]).1.img_diff = [d1, d2, d3]
        ∧ |averageDouble [d1, d2, d3] - 79 / 100| ≤ 1 / 2 ^ 49
        ∧ (mainRunDouble (fun _ c : ℚ => c) LoopState.init
            [captured 1 "Thu Oct 29 19:10:00 2026\n",
             captured d1 "Thu Oct 29 19:10:01 2026\n",
             captured d2 "Thu Oct 29 19:10:02 2026\n",
             captured d3 "Thu Oct 29 19:10:03 2026\n",
             captured d4 "Thu Oct 29 19:10:04 2026\n"]).1.img_diff = [d2, d3, d4]
        ∧ |averageDouble [d2, d3, d4] - 573 / 1000| < 1 / 1000) := by
    intro d1 d2 d3 d4 b1 b2 b3 b4
    rw [abs_le] at b1 b2 b3 b4
    have e : (1 : ℚ) / 2 ^ 52 ≤ 1 / 1000 := by norm_num
    have e49 : (1 : ℚ) / 2 ^ 49 ≤ 1 / 1000 := by norm_num
    have e50 : (1 : ℚ) / 2 ^ 50 + 1 / 2 ^ 52 ≤ 1 / 2 ^ 49 := by norm_num
    have a1 : |d1| ≤ 1 := by rw [abs_le]; constructor <;> linarith [b1.1, b1.2]
    have a2 : |d2| ≤ 1 := by rw [abs_le]; constructor <;> linarith [b2.1, b2.2]
    have a3 : |d3| ≤ 1 := by rw [abs_le]; constructor <;> linarith [b3.1, b3.2]
    have a4 : |d4| ≤ 1 := by rw [abs_le]; constructor <;> linarith [b4.1, b4.2]
    have m1 : ∀ x ∈ [d1], |x| ≤ 1 := by
      intro x hx; simp only [List.mem_cons, List.mem_singleton, List.not_mem_nil, or_false] at hx
      rw [hx]; exact a1
    have m2 : ∀ x ∈ [d1, d2], |x| ≤ 1 := by
      intro x hx; simp only [List.mem_cons, List.mem_singleton, List.not_mem_nil, or_false] at hx
      rcases hx with h | h <;> rw [h] <;> assumption
    have m3 : ∀ x ∈ [d1, d2, d3], |x| ≤ 1 := by
      intro x hx; simp only [List.mem_cons, List.mem_singleton, List.not_mem_nil, or_false] at hx
      rcases hx with h | h | h <;> rw [h] <;> assumption
    have m4 : ∀ x ∈ [d2, d3, d4], |x| ≤ 1 := by
      intro x hx; simp only [List.mem_cons, List.mem_singleton, List.not_mem_nil, or_false] at hx
      rcases hx with h | h | h <;> rw [h] <;> assumption
    have h1 : ¬ averageDouble [d1] < roundToDouble THRESHOLD := by
      rw [hthr]
      apply averageDouble_ge_threshold_of_mean _ (by simp) (by simp) m1
      norm_num
      linarith [b1.1]
    have h2 : ¬ averageDouble [d1, d2] < roundToDouble THRESHOLD := by
      rw [hthr]
      apply averageDouble_ge_threshold_of_mean _ (by simp) (by simp) m2
      norm_num
      linarith [b1.1, b2.1]
    have h3 : ¬ averageDouble [d1, d2, d3] < roundToDouble THRESHOLD := by
      rw [hthr]
      apply averageDouble_ge_threshold_of_mean _ (by simp) (by simp) m3
      norm_num
      linarith [b1.1, b2.1, b3.1]
    have h4 : averageDouble [d2, d3, d4] < roundToDouble THRESHOLD := by
      rw [hthr]
      apply averageDouble_lt_threshold_of_mean _ (by simp) (by simp) m4
      norm_num
      linarith [b2.2, b3.2, b4.2]
    have n3 := averageDouble_near_mean [d1, d2, d3] (by simp) (by simp) m3
    have n4 := averageDouble_near_mean [d2, d3, d4] (by simp) (by simp) m4
    have hdate : getDateString "Thu Oct 29 19:10:04 2026\n" = "Thu_Oct_29_19_10_04_2026y" := by
      decide
    refine ⟨?_, ?_, ?_, ?_, ?_⟩
    · simp [mainRunDouble, runWith, cycleWith, captured, LoopState.init, pushEvict,
        alertBranch, dispatch, dispatchOf, Effect.isDispatch, AVG_COUNT, N_Capture, hdate,
        h1, h2, h3, h4]
    · simp [mainRunDouble, runWith, cycleWith, captured, LoopState.init, pushEvict, AVG_COUNT]
    · norm_num at n3
      rw [abs_le] at n3 ⊢
      constructor <;> linarith [n3.1, n3.2, b1.1, b1.2, b2.1, b2.2, b3.1, b3.2]
    · simp [mainRunDouble, runWith, cycleWith, captured, LoopState.init, pushEvict, AVG_COUNT]
    · norm_num at n4
      rw [abs_le] at n4
      rw [abs_lt]
      constructor <;> linarith [n4.1, n4.2, b2.1, b2.2, b3.1, b3.2, b4.1, b4.2]
  refine ⟨?_, ?_, ?_, ?_, ?_⟩
  · simp [mainCycleDouble, cycleWith, LoopState.init]
  · rw [hs, mainCycleDouble, cycleWith_compare _ compareImgDiff _ _ _ _ cur rfl rfl]
    exact hw
  · rw [hs, mainCycleDouble, cycleWith_compare _ compareImgDiff _ _ _ _ cur rfl rfl]
    simp only [dispatchOf_compare_trace]
    rw [hw]
    simp [alertBranch, dispatch]
  · intro hb
    rw [hthr]
    exact ⟨averageDouble_lt_threshold_of_mean _ hW.1 hW.2 hb,
      averageDouble_ge_threshold_of_mean _ hW.1 hW.2 hb⟩
  · exact hscen _ _ _ _
      (abs_roundToDouble_sub_le_52 _ (by rw [abs_of_nonneg (by norm_num)]; norm_num))
      (abs_roundToDouble_sub_le_52 _ (by rw [abs_of_nonneg (by norm_num)]; norm_num))
      (abs_roundToDouble_sub_le_52 _ (by rw [abs_of_nonneg (by norm_num)]; norm_num))
      (abs_roundToDouble_sub_le_52 _ (by rw [abs_of_nonneg (by norm_num)]; norm_num))

theorem end_to_end_dispatch_binary64_witness :
    (∀ x ∈ ([3 / 10] : List ℚ), |x| ≤ 1)
      ∧ ([3 / 10] : List ℚ).sum / (([3 / 10] : List ℚ).length : ℚ) ≤ 7 / 10 - 1 / 2 ^ 49
      ∧ averageDouble [3 / 10] < roundToDouble THRESHOLD := by
  have h := (end_to_end_dispatch_binary64 (fun _ c : ℚ => c) (captured 1 "") 1 []
    (captured (3 / 10) "") (3 / 10)).2.2.2.1
  have hW : lastK (min ((frames ([] : List (CycleInput ℚ))).length + 1) 3)
      ((frames ([] : List (CycleInput ℚ)) ++ [3 / 10]).map (fun c : ℚ => c)) = [3 / 10] := by
    simp [frames, lastK]
  rw [hW] at h
  have hmem : ∀ x ∈ ([3 / 10] : List ℚ), |x| ≤ 1 := by
    intro x hx
    rw [List.mem_singleton] at hx
    rw [hx, abs_of_nonneg (by norm_num)]
    norm_num
  have hmean : ([3 / 10] : List ℚ).sum / (([3 / 10] : List ℚ).length : ℚ)
      ≤ 7 / 10 - 1 / 2 ^ 49 := by
    norm_num
  exact ⟨hmem, hmean, (h hmem).1 hmean⟩

/-- C5, counterexample: the decision of the program is not the comparison of the mean of
the stored scores with 0.7.  After the reference frame, the three scores
0.8999999999999998, 0.8999999999999999 and 0.3000000000000001 (each of them a double) fill
the window; their mean is below the double that `0.7` denotes and below 7/10, yet the value
that `average` returns is 0.7000000000000001 and the iteration makes no save/mail/upload
call.  With three scores equal to the double 0.7 the mean is the threshold itself, not
below it, yet the value that `average` returns is 0.6999999999999998 and the three calls
are made. -/
theorem end_to_end_dispatch_counterexample :
    (roundToDouble (8106479329266891 / 9007199254740992)
        = 8106479329266891 / 9007199254740992
      ∧ roundToDouble (2026619832316723 / 2251799813685248)
        = 2026619832316723 / 2251799813685248
      ∧ roundToDouble (5404319552844597 / 18014398509481984)
        = 5404319552844597 / 18014398509481984)
    ∧ (mainCycleDouble (fun _ c : ℚ => c)
          (mainRunDouble (fun _ c : ℚ => c) LoopState.init
            [captured 1 "Thu Oct 29 19:10:00 2026\n",
             captured (8106479329266891 / 9007199254740992) "Thu Oct 29 19:10:01 2026\n",
             captured (2026619832316723 / 2251799813685248) "Thu Oct 29 19:10:02 2026\n"]).1
          (captured (5404319552844597 / 18014398509481984)
            "Thu Oct 29 19:10:03 2026\n")).1.img_diff
        = [8106479329266891 / 9007199254740992, 2026619832316723 / 2251799813685248,
            5404319552844597 / 18014398509481984]
    ∧ ((8106479329266891 / 9007199254740992 + 2026619832316723 / 2251799813685248
          + 5404319552844597 / 18014398509481984 : ℚ) / 3 < roundToDouble THRESHOLD
      ∧ (8106479329266891 / 9007199254740992 + 2026619832316723 / 2251799813685248
          + 5404319552844597 / 18014398509481984 : ℚ) / 3 < 7 / 10)
    ∧ averageDouble [8106479329266891 / 9007199254740992,
          2026619832316723 / 2251799813685248, 5404319552844597 / 18014398509481984]
        = 6305039478318695 / 9007199254740992
    ∧ dispatchOf (mainCycleDouble (fun _ c : ℚ => c)
          (mainRunDouble (fun _ c : ℚ => c) LoopState.init
            [captured 1 "Thu Oct 29 19:10:00 2026\n",
             captured (8106479329266891 / 9007199254740992) "Thu Oct 29 19:10:01 2026\n",
             captured (2026619832316723 / 2251799813685248) "Thu Oct 29 19:10:02 2026\n"]).1
          (captured (5404319552844597 / 18014398509481984)
            "Thu Oct 29 19:10:03 2026\n")).2 = []
    ∧ (mainCycleDouble (fun _ c : ℚ => c)
          (mainRunDouble (fun _ c : ℚ => c) LoopState.init
            [captured 1 "Thu Oct 29 19:10:00 2026\n",
             captured (roundToDouble THRESHOLD) "Thu Oct 29 19:10:01 2026\n",
             captured (roundToDouble THRESHOLD) "Thu Oct 29 19:10:02 2026\n"]).1
          (captured (roundToDouble THRESHOLD) "Thu Oct 29 19:10:03 2026\n")).1.img_diff
        = [roundToDouble THRESHOLD, roundToDouble THRESHOLD, roundToDouble THRESHOLD]
    ∧ (roundToDouble THRESHOLD + roundToDouble THRESHOLD + roundToDouble THRESHOLD) / 3
        = roundToDouble THRESHOLD
    ∧ averageDouble [roundToDouble THRESHOLD, roundToDouble THRESHOLD, roundToDouble THRESHOLD]
        = 6305039478318693 / 9007199254740992
    ∧ dispatchOf (mainCycleDouble (fun _ c : ℚ => c)
          (mainRunDouble (fun _ c : ℚ => c) LoopState.init
            [captured 1 "Thu Oct 29 19:10:00 2026\n",
             captured (roundToDouble THRESHOLD) "Thu Oct 29 19:10:01 2026\n",
             captured (roundToDouble THRESHOLD) "Thu Oct 29 19:10:02 2026\n"]).1
          (captured (roundToDouble THRESHOLD) "Thu Oct 29 19:10:03 2026\n")).2
        = [ Effect.imwrite "Thu_Oct_29_19_10_03_2026y.jpg" (roundToDouble THRESHOLD) true,
            Effect.sendmail "future_wei@qq.com" "camera@pi" "Camera notification"
              "The camera have detected something strange.\n"
              (sendmail true "future_wei@qq.com" "camera@pi"
                "Camera notification" "The camera have detected something strange.\n"),
            Effect.loginAndUploadFile "sunnyfuture@gmail.com" "cxw@2623810"
              "Thu_Oct_29_19_10_03_2026y.jpg" ] := by
  have hthr : roundToDouble THRESHOLD = 3152519739159347 / 4503599627370496 :=
    roundToDouble_seven_tenths THRESHOLD (by norm_num [THRESHOLD])
  have hT : THRESHOLD = 7 / 10 := by norm_num [THRESHOLD]
  have hdate : getDateString "Thu Oct 29 19:10:03 2026\n" = "Thu_Oct_29_19_10_03_2026y" := by
    decide
  have hA := averageDouble_near_threshold
  have h7 := averageDouble_seven_tenths
  rw [← hT] at h7
  have c1 := three_scores_cycle 1 (8106479329266891 / 9007199254740992)
    (2026619832316723 / 2251799813685248) (5404319552844597 / 18014398509481984)
    (captured 1 "Thu Oct 29 19:10:00 2026\n")
    (captured (8106479329266891 / 9007199254740992) "Thu Oct 29 19:10:01 2026\n")
    (captured (2026619832316723 / 2251799813685248) "Thu Oct 29 19:10:02 2026\n")
    (captured (5404319552844597 / 18014398509481984) "Thu Oct 29 19:10:03 2026\n")
    rfl rfl rfl rfl
  have c2 := three_scores_cycle 1 (roundToDouble THRESHOLD) (roundToDouble THRESHOLD)
    (roundToDouble THRESHOLD)
    (captured 1 "Thu Oct 29 19:10:00 2026\n")
    (captured (roundToDouble THRESHOLD) "Thu Oct 29 19:10:01 2026\n")
    (captured (roundToDouble THRESHOLD) "Thu Oct 29 19:10:02 2026\n")
    (captured (roundToDouble THRESHOLD) "Thu Oct 29 19:10:03 2026\n")
    rfl rfl rfl rfl
  refine ⟨⟨roundToDouble_near_threshold_a _ rfl, roundToDouble_near_threshold_b _ rfl,
    roundToDouble_near_threshold_c _ rfl⟩, c1.1, ⟨?_, ?_⟩, hA, ?_, c2.1, ?_, h7, ?_⟩
  · rw [hthr]; norm_num
  · norm_num
  · rw [c1.2, hA, hthr, alertBranch, if_neg (by norm_num)]
  · ring
  · rw [c2.2, h7, alertBranch, if_pos (by rw [hthr]; norm_num)]
    simp [dispatch, captured, hdate]

/-- C6: an iteration on which the capture returns no frame leaves the flag, the reference
and the window as they are, makes no save/mail/upload call, and its only call is the wait of
10 (the wait of `N_Capture` at the end of the loop body is not made); three such iterations
in a row leave the variables unchanged and wait 10 three times. -/
theorem capture_failure_only_waits {Mat : Type} (compareImgDiff : Mat → Mat → ℚ)
    (K : Nat) (t : ℚ) (s : LoopState Mat) (inp inp2 inp3 : CycleInput Mat) :
    (cycle compareImgDiff K t s { inp with pImage := none }).1 = s
      ∧ (cycle compareImgDiff K t s { inp with pImage := none }).2 = [Effect.sleep 10]
      ∧ dispatchOf (cycle compareImgDiff K t s { inp with pImage := none }).2 = []
      ∧ sleepsOf (cycle compareImgDiff K t s { inp with pImage := none }).2
          = [Effect.sleep 10]
      ∧ Effect.sleep N_Capture ∉ (cycle compareImgDiff K t s { inp with pImage := none }).2
      ∧ run compareImgDiff K t s
            [{ inp with pImage := none }, { inp2 with pImage := none },
             { inp3 with pImage := none }]
          = (s, [[Effect.sleep 10], [Effect.sleep 10], [Effect.sleep 10]]) := by
  refine ⟨?_, ?_, ?_, ?_, ?_, ?_⟩
  · simp [cycle]
  · simp [cycle]
  · simp [cycle, dispatchOf, Effect.isDispatch]
  · simp [cycle, sleepsOf, Effect.isSleep]
  · simp [cycle, N_Capture]
  · simp [run, cycle]

/-- C7: the reference is set exactly once.  While every capture has failed the flag is
unset; after the first successful capture the flag is set and the reference is that first
frame; after any further iterations whatsoever the flag is still set and the reference is
still that first frame; and whenever an iteration prints a score, the flag was set when the
iteration began, the reference it held was the first frame ever captured, and the score
printed is the comparison of that reference with the frame of this iteration. -/
theorem reference_set_exactly_once {Mat : Type} [Inhabited Mat]
    (compareImgDiff : Mat → Mat → ℚ) (K : Nat) (t : ℚ)
    (fails : List (CycleInput Mat)) (hf : ∀ i ∈ fails, i.pImage = none)
    (inp0 : CycleInput Mat) (f0 : Mat) (rest : List (CycleInput Mat)) :
    (run compareImgDiff K t LoopState.init fails).1.isRefImageSet = false
      ∧ (run compareImgDiff K t LoopState.init
            (fails ++ [{ inp0 with pImage := some f0 }])).1.isRefImageSet = true
      ∧ (run compareImgDiff K t LoopState.init
            (fails ++ [{ inp0 with pImage := some f0 }])).1.ref_img = f0
      ∧ (run compareImgDiff K t LoopState.init
            (fails ++ { inp0 with pImage := some f0 } :: rest)).1.isRefImageSet = true
      ∧ (run compareImgDiff K t LoopState.init
            (fails ++ { inp0 with pImage := some f0 } :: rest)).1.ref_img = f0
      ∧ (∀ (ins : List (CycleInput Mat)) (inp : CycleInput Mat) (d : ℚ),
          Effect.printf d
              ∈ (cycle compareImgDiff K t (run compareImgDiff K t LoopState.init ins).1 inp).2 →
            (run compareImgDiff K t LoopState.init ins).1.isRefImageSet = true
              ∧ (frames ins).head?
                  = some (run compareImgDiff K t LoopState.init ins).1.ref_img
              ∧ ∃ cur, inp.pImage = some cur
                  ∧ d = compareImgDiff
                      (run compareImgDiff K t LoopState.init ins).1.ref_img cur) := by
  have hnil := frames_eq_nil fails hf
  have h1 : frames (fails ++ [{ inp0 with pImage := some f0 }]) = [f0] := by
    rw [frames_append, hnil]; simp [frames]
  have h2 : frames (fails ++ { inp0 with pImage := some f0 } :: rest) = f0 :: frames rest := by
    rw [frames_append, hnil]; simp [frames]
  refine ⟨?_, ?_, ?_, ?_, ?_, ?_⟩
  · rw [run_init, hnil]; rfl
  · rw [run_init, h1]
  · rw [run_init, h1]
  · rw [run_init, h2]
  · rw [run_init, h2]
  · intro ins inp d hd
    rw [run_init] at hd ⊢
    cases hfr : frames ins with
    | nil =>
      rw [hfr] at hd
      cases hp : inp.pImage with
      | none => simp [cycle, hp] at hd
      | some f => simp [cycle, hp, LoopState.init] at hd
    | cons g gs =>
      rw [hfr] at hd
      cases hp : inp.pImage with
      | none => simp [cycle, hp] at hd
      | some f =>
        rw [cycle_compare compareImgDiff K t _ inp f hp rfl] at hd
        simp only [List.mem_append, List.mem_singleton] at hd
        refine ⟨rfl, rfl, f, rfl, ?_⟩
        rcases hd with (hd | hd) | hd
        · exact Effect.printf.inj hd
        · exfalso
          unfold alertBranch dispatch at hd
          split at hd <;> simp at hd
        · cases hd

/-- Witness of C7: two failed captures, then the frame 5, then a failed capture and the
frames 6 and 7 (frames are numbers, the score is their quotient). -/
theorem reference_set_exactly_once_witness :
    (∀ i ∈ ([noFrame, noFrame] : List (CycleInput ℚ)), i.pImage = none)
      ∧ (run (fun r c : ℚ => c / r) 3 (7 / 10) LoopState.init
            (([noFrame, noFrame] : List (CycleInput ℚ))
              ++ { (noFrame : CycleInput ℚ) with pImage := some 5 }
              :: ([noFrame, captured 6 "a", captured 7 "b"] : List (CycleInput ℚ)))).1.ref_img
          = 5 :=
  ⟨by simp [noFrame],
    (reference_set_exactly_once (fun r c : ℚ => c / r) 3 (7 / 10) [noFrame, noFrame]
      (by simp [noFrame]) noFrame 5 [noFrame, captured 6 "a", captured 7 "b"]).2.2.2.2.1⟩

/-- C8: on the iteration that adopts the reference (flag unset in a state reached by the
loop, frame captured) the window stays empty, the new variables are the flag, the empty
window and the captured frame, the only call made is the wait of `N_Capture` (in particular
no score is printed and no save/mail/upload call is made), and the outcome is the same for
every score function, capacity and threshold: neither the score nor the alert test is
evaluated. -/
theorem adoption_cycle_computes_no_score {Mat : Type} [Inhabited Mat]
    (compareImgDiff : Mat → Mat → ℚ) (K : Nat) (t : ℚ)
    (ins : List (CycleInput Mat))
    (hs : (run compareImgDiff K t LoopState.init ins).1.isRefImageSet = false)
    (inp : CycleInput Mat) (f : Mat) :
    cycle compareImgDiff K t (run compareImgDiff K t LoopState.init ins).1
          { inp with pImage := some f }
        = ({ isRefImageSet := true, img_diff := [], ref_img := f }, [Effect.sleep N_Capture])
      ∧ dispatchOf (cycle compareImgDiff K t (run compareImgDiff K t LoopState.init ins).1
          { inp with pImage := some f }).2 = []
      ∧ (∀ d : ℚ, Effect.printf d
          ∉ (cycle compareImgDiff K t (run compareImgDiff K t LoopState.init ins).1
              { inp with pImage := some f }).2)
      ∧ (∀ (compareImgDiff2 : Mat → Mat → ℚ) (K2 : Nat) (t2 : ℚ),
          cycle compareImgDiff2 K2 t2 (run compareImgDiff K t LoopState.init ins).1
              { inp with pImage := some f }
            = cycle compareImgDiff K t (run compareImgDiff K t LoopState.init ins).1
              { inp with pImage := some f }) := by
  rw [run_init_not_set compareImgDiff K t ins hs]
  refine ⟨?_, ?_, ?_, ?_⟩
  · simp [cycle, LoopState.init]
  · simp [cycle, LoopState.init, dispatchOf, Effect.isDispatch]
  · simp [cycle, LoopState.init]
  · intro c2 K2 t2
    simp [cycle, LoopState.init]

/-- Witness of C8: after two failed captures the frame 5 is adopted. -/
theorem adoption_cycle_computes_no_score_witness :
    (run (fun r c : ℚ => c / r) 3 (7 / 10) LoopState.init
        ([noFrame, noFrame] : List (CycleInput ℚ))).1.isRefImageSet = false
      ∧ cycle (fun r c : ℚ => c / r) 3 (7 / 10)
          (run (fun r c : ℚ => c / r) 3 (7 / 10) LoopState.init
            ([noFrame, noFrame] : List (CycleInput ℚ))).1
          { (noFrame : CycleInput ℚ) with pImage := some 5 }
        = ({ isRefImageSet := true, img_diff := [], ref_img := 5 },
            [Effect.sleep N_Capture]) :=
  ⟨by simp [run, cycle, noFrame, LoopState.init],
    (adoption_cycle_computes_no_score (fun r c : ℚ => c / r) 3 (7 / 10) [noFrame, noFrame]
      (by simp [run, cycle, noFrame, LoopState.init]) noFrame 5).1⟩

/-- C9: on an iteration that compares a frame, the save/mail/upload part of the trace is
exactly `cv::imwrite`, then `sendmail`, then `loginAndUploadFile`, each once, when the
average of the window is below the threshold, and is empty otherwise; this holds for every
answer of the environment, and when the image write fails and `sendmail` returns -1 the mail
call and the upload call are still made.  Iterations with a failed capture or adopting the
reference make none of the three calls. -/
theorem dispatch_is_save_mail_upload {Mat : Type} (compareImgDiff : Mat → Mat → ℚ)
    (K : Nat) (t : ℚ) (s : LoopState Mat) (inp : CycleInput Mat) (cur : Mat) :
    dispatchOf (cycle compareImgDiff K t { s with isRefImageSet := true }
          { inp with pImage := some cur }).2
        = (if average (cycle compareImgDiff K t { s with isRefImageSet := true }
                { inp with pImage := some cur }).1.img_diff < t
           then
             [ Effect.imwrite (getDateString inp.asctime ++ ".jpg") cur inp.imwriteOk,
               Effect.sendmail "future_wei@qq.com" "camera@pi" "Camera notification"
                 "The camera have detected something strange.\n"
                 (sendmail inp.popenOk "future_wei@qq.com" "camera@pi"
                   "Camera notification" "The camera have detected something strange.\n"),
               Effect.loginAndUploadFile "sunnyfuture@gmail.com" "cxw@2623810"
                 (getDateString inp.asctime ++ ".jpg") ]
           else [])
      ∧ dispatchOf (cycle compareImgDiff K t { s with isRefImageSet := true }
          { inp with pImage := some cur, imwriteOk := false, popenOk := false }).2
        = (if average (cycle compareImgDiff K t { s with isRefImageSet := true }
                { inp with pImage := some cur, imwriteOk := false,
                           popenOk := false }).1.img_diff < t
           then
             [ Effect.imwrite (getDateString inp.asctime ++ ".jpg") cur false,
               Effect.sendmail "future_wei@qq.com" "camera@pi" "Camera notification"
                 "The camera have detected something strange.\n"
                 { piped := none, retval := -1 },
               Effect.loginAndUploadFile "sunnyfuture@gmail.com" "cxw@2623810"
                 (getDateString inp.asctime ++ ".jpg") ]
           else [])
      ∧ dispatchOf (cycle compareImgDiff K t s { inp with pImage := none }).2 = []
      ∧ dispatchOf (cycle compareImgDiff K t { s with isRefImageSet := false }
          { inp with pImage := some cur }).2 = [] := by
  refine ⟨?_, ?_, ?_, ?_⟩
  · rw [cycle_compare compareImgDiff K t _ _ cur rfl rfl]
    simp only [dispatchOf_compare_trace]
    simp [alertBranch, dispatch]
  · rw [cycle_compare compareImgDiff K t _ _ cur rfl rfl]
    simp only [dispatchOf_compare_trace]
    simp [alertBranch, dispatch, sendmail]
  · simp [cycle, dispatchOf, Effect.isDispatch]
  · simp [cycle, dispatchOf, Effect.isDispatch]

/-- C10: on an iteration that compares a frame, the paths handed to `loginAndUploadFile` are
the file names handed to `cv::imwrite` on that same iteration; when the alert branch is
taken there is one of each, it is `getDateString` of the clock text followed by `.jpg`, and
the image saved is the frame captured on that iteration.  In the example the reference is
the frame 1, the captured frame is 0.3, and the image saved is 0.3. -/
theorem upload_path_is_saved_filename {Mat : Type} (compareImgDiff : Mat → Mat → ℚ)
    (K : Nat) (t : ℚ) (s : LoopState Mat) (inp : CycleInput Mat) (cur : Mat) :
    uploadedPaths (cycle compareImgDiff K t { s with isRefImageSet := true }
          { inp with pImage := some cur }).2
        = (savedImages (cycle compareImgDiff K t { s with isRefImageSet := true }
          { inp with pImage := some cur }).2).map Prod.fst
      ∧ savedImages (cycle compareImgDiff K t { s with isRefImageSet := true }
          { inp with pImage := some cur }).2
        = (if average (cycle compareImgDiff K t { s with isRefImageSet := true }
                { inp with pImage := some cur }).1.img_diff < t
           then [(getDateString inp.asctime ++ ".jpg", cur)] else [])
      ∧ uploadedPaths (cycle compareImgDiff K t { s with isRefImageSet := true }
          { inp with pImage := some cur }).2
        = (if average (cycle compareImgDiff K t { s with isRefImageSet := true }
                { inp with pImage := some cur }).1.img_diff < t
           then [getDateString inp.asctime ++ ".jpg"] else [])
      ∧ (savedImages (mainCycle (fun _ c : ℚ => c)
            { isRefImageSet := true, img_diff := [], ref_img := 1 }
            (captured 0.3 "Thu Oct 29 19:10:04 2026\n")).2
          = [("Thu_Oct_29_19_10_04_2026y.jpg", 0.3)]
        ∧ uploadedPaths (mainCycle (fun _ c : ℚ => c)
            { isRefImageSet := true, img_diff := [], ref_img := 1 }
            (captured 0.3 "Thu Oct 29 19:10:04 2026\n")).2
          = ["Thu_Oct_29_19_10_04_2026y.jpg"]) := by
  have hdate : getDateString "Thu Oct 29 19:10:04 2026\n" = "Thu_Oct_29_19_10_04_2026y" := by
    decide
  have hsaved : savedImages (cycle compareImgDiff K t { s with isRefImageSet := true }
          { inp with pImage := some cur }).2
        = (if average (cycle compareImgDiff K t { s with isRefImageSet := true }
                { inp with pImage := some cur }).1.img_diff < t
           then [(getDateString inp.asctime ++ ".jpg", cur)] else []) := by
    rw [cycle_compare compareImgDiff K t _ _ cur rfl rfl]
    simp only [alertBranch]
    split <;> simp [savedImages, dispatch]
  have hup : uploadedPaths (cycle compareImgDiff K t { s with isRefImageSet := true }
          { inp with pImage := some cur }).2
        = (if average (cycle compareImgDiff K t { s with isRefImageSet := true }
                { inp with pImage := some cur }).1.img_diff < t
           then [getDateString inp.asctime ++ ".jpg"] else []) := by
    rw [cycle_compare compareImgDiff K t _ _ cur rfl rfl]
    simp only [alertBranch]
    split <;> simp [uploadedPaths, dispatch]
  refine ⟨?_, hsaved, hup, ?_, ?_⟩
  · rw [hsaved, hup]
    split <;> simp
  · simp [mainCycle, cycle, captured, pushEvict, average, alertBranch, dispatch,
      savedImages, AVG_COUNT, THRESHOLD, hdate]
    norm_num [List.filterMap_cons]
  · simp [mainCycle, cycle, captured, pushEvict, average, alertBranch, dispatch,
      uploadedPaths, AVG_COUNT, THRESHOLD, hdate]
    norm_num [List.filterMap_cons]

/-- C11: for every clock text `d` of the form of `asctime` (some characters without a
newline, then one newline), `getDateString d` has the same length as `d`, contains no
blank, no colon and no newline, ends in the character `y`, agrees with `d` at every position
before the last that held neither a blank nor a colon, and holds an underscore where `d`
held a blank or a colon; the file name handed to `cv::imwrite` by the alert branch is
`getDateString d` followed by `.jpg`. -/
theorem filename_is_normalised_date (d : String) (body : List Char)
    (hd : d.data = body ++ ['\n']) (hb : '\n' ∉ body) :
    (getDateString d).length = d.length
      ∧ ' ' ∉ (getDateString d).data
      ∧ ':' ∉ (getDateString d).data
      ∧ '\n' ∉ (getDateString d).data
      ∧ (getDateString d).data.getLast? = some 'y'
      ∧ (∀ i : Nat, i + 1 < d.length → d.data[i]? ≠ some ' ' → d.data[i]? ≠ some ':' →
          (getDateString d).data[i]? = d.data[i]?)
      ∧ (∀ i : Nat, i + 1 < d.length → (d.data[i]? = some ' ' ∨ d.data[i]? = some ':') →
          (getDateString d).data[i]? = some '_')
      ∧ (∀ (cur : Nat) (inp : CycleInput Nat),
          savedImages (dispatch cur { inp with asctime := d })
            = [(getDateString d ++ ".jpg", cur)]) := by
  have hdata := getDateString_data d body hd
  have hlen : d.length = body.length + 1 := by
    simp [String.length, hd]
  have hpos : ∀ i : Nat, i + 1 < d.length →
      (getDateString d).data[i]?
        = (d.data[i]?).map (fun c => if c = ' ' ∨ c = ':' then '_' else c) := by
    intro i hi
    have hi2 : i < body.length := by omega
    have hi3 : i < (replaceSeparators body).length := by
      rw [replaceSeparators_length]; exact hi2
    rw [hdata, hd, List.getElem?_append_left hi3, List.getElem?_append_left hi2,
      replaceSeparators_getElem?]
  refine ⟨?_, ?_, ?_, ?_, ?_, ?_, ?_, ?_⟩
  · simp [String.length, hdata, hd, replaceSeparators_length]
  · rw [hdata]
    intro h
    rcases List.mem_append.mp h with h | h
    · exact not_mem_replaceSeparators body ' ' (Or.inl rfl) h
    · simp at h
  · rw [hdata]
    intro h
    rcases List.mem_append.mp h with h | h
    · exact not_mem_replaceSeparators body ':' (Or.inr rfl) h
    · simp at h
  · rw [hdata]
    intro h
    rcases List.mem_append.mp h with h | h
    · exact newline_not_mem_replaceSeparators body hb h
    · simp at h
  · rw [hdata]; simp
  · intro i hi h1 h2
    rw [hpos i hi]
    cases hget : d.data[i]? with
    | none => rfl
    | some c =>
      rw [hget] at h1 h2
      have hc : ¬ (c = ' ' ∨ c = ':') := by
        intro h
        rcases h with h | h
        · exact h1 (by rw [h])
        · exact h2 (by rw [h])
      simp [hc]
  · intro i hi h
    rw [hpos i hi]
    rcases h with h | h <;> rw [h] <;> simp
  · intro cur inp
    simp [savedImages, dispatch]

/-- Witness of C11: the clock text `Thu Oct 29 19:10:04 2026` followed by a newline. -/
theorem filename_is_normalised_date_witness :
    ("Thu Oct 29 19:10:04 2026\n".data = "Thu Oct 29 19:10:04 2026".data ++ ['\n']
        ∧ '\n' ∉ "Thu Oct 29 19:10:04 2026".data)
      ∧ (getDateString "Thu Oct 29 19:10:04 2026\n").length
          = "Thu Oct 29 19:10:04 2026\n".length
      ∧ getDateString "Thu Oct 29 19:10:04 2026\n" = "Thu_Oct_29_19_10_04_2026y" :=
  ⟨⟨by decide, by decide⟩,
    (filename_is_normalised_date "Thu Oct 29 19:10:04 2026\n" "Thu Oct 29 19:10:04 2026".data
      (by decide) (by decide)).1,
    by decide⟩

/-- C12: for every frame `f`, `compareImgDiff` of `f` with itself is 1, for every pixel
conversion and every square-root function that is exact on squares; this includes the
frames whose histogram is constant, where the comparison returns 1 because the denominator
vanishes. -/
theorem compareImgDiff_self_eq_one (sqrt : ℚ → ℚ)
    (hsqrt : ∀ a : ℚ, 0 ≤ a → sqrt (a * a) = a) (cvtColor : Vec3b → Vec3b) (f : Image) :
    compareImgDiff sqrt cvtColor f f = 1 := by
  unfold compareImgDiff
  exact compareHist_self sqrt hsqrt _

/-- Witness of C12: the square root of the rationals of Mathlib, the conversion `bgr2hsv`,
and the one-pixel red frame, none of whose pixels lies inside the histogram ranges. -/
theorem compareImgDiff_self_eq_one_witness :
    (∀ a : ℚ, 0 ≤ a → Rat.sqrt (a * a) = a)
      ∧ pixelsInRange bgr2hsv redFrame = 0
      ∧ compareImgDiff Rat.sqrt bgr2hsv redFrame redFrame = 1 :=
  ⟨fun a ha => by rw [Rat.sqrt_eq, abs_of_nonneg ha],
    by decide,
    compareImgDiff_self_eq_one Rat.sqrt (fun a ha => by rw [Rat.sqrt_eq, abs_of_nonneg ha])
      bgr2hsv redFrame⟩

/-- C13: in exact real arithmetic, with the square root of the reals, the score that
`compareImgDiff` returns lies in `[-1, 1]` for every pair of frames (of the same dimensions
or not) and every pixel conversion: the correlation of the two normalised histograms is a
covariance divided by the square root of the product of the two variances, and is 1 when
that product does not exceed `DBL_EPSILON`.  Every sample of the window of a run of the
loop is a score that the scorer returned, so with a scorer whose values lie in `[-1, 1]`
every stored sample lies in `[-1, 1]`. -/
theorem score_in_unit_interval {Mat : Type} [Inhabited Mat]
    (cvtColor : Vec3b → Vec3b) (Ref Test : Image)
    (score : Mat → Mat → ℚ) (ins : List (CycleInput Mat)) :
    (-1 ≤ compareImgDiff Real.sqrt cvtColor Ref Test
        ∧ compareImgDiff Real.sqrt cvtColor Ref Test ≤ 1)
      ∧ (∀ x ∈ (mainRunDouble score LoopState.init ins).1.img_diff,
          ∃ a b : Mat, x = score a b)
      ∧ ((∀ a b : Mat, -1 ≤ score a b ∧ score a b ≤ 1) →
          ∀ x ∈ (mainRunDouble score LoopState.init ins).1.img_diff, -1 ≤ x ∧ x ≤ 1) := by
  refine ⟨?_, ?_, ?_⟩
  · exact compareImgDiff_mem_unit Real.sqrt
      (fun x hx => ⟨Real.sqrt_nonneg x, Real.mul_self_sqrt hx⟩) cvtColor Ref Test
  · intro x hx
    exact window_mem_scores _ score _ _ ins x hx
  · intro hb x hx
    obtain ⟨a, b, rfl⟩ := window_mem_scores _ score _ _ ins x hx
    exact hb a b

/-- Witness of C13: a scorer with the values 1 and -1, and a run that stores both. -/
theorem score_in_unit_interval_witness :
    (∀ a b : ℚ, -1 ≤ (if a = b then (1 : ℚ) else -1) ∧ (if a = b then (1 : ℚ) else -1) ≤ 1)
      ∧ (mainRunDouble (fun a b : ℚ => if a = b then (1 : ℚ) else -1) LoopState.init
          [captured 1 "", captured 1 "", captured 2 ""]).1.img_diff = [1, -1]
      ∧ ∀ x ∈ (mainRunDouble (fun a b : ℚ => if a = b then (1 : ℚ) else -1) LoopState.init
          [captured 1 "", captured 1 "", captured 2 ""]).1.img_diff, -1 ≤ x ∧ x ≤ 1 := by
  have hb : ∀ a b : ℚ,
      -1 ≤ (if a = b then (1 : ℚ) else -1) ∧ (if a = b then (1 : ℚ) else -1) ≤ 1 := by
    intro a b
    split <;> norm_num
  refine ⟨hb, ?_, (score_in_unit_interval bgr2hsv redFrame redFrame
    (fun a b : ℚ => if a = b then (1 : ℚ) else -1)
    [captured 1 "", captured 1 "", captured 2 ""]).2.2 hb⟩
  simp [mainRunDouble, runWith, cycleWith, captured, LoopState.init, pushEvict, AVG_COUNT]

/-- C14: `compareImgDiff`, executed statement by statement on the store of pixel buffers
(two clones, converted in place, released on return), returns the score that the two frames
determine and leaves every buffer as it was, whatever else the store holds; so two calls on
frames with the same pixels, in any two stores, return the same score.  Two runs of the
loop on the store, from fresh variables, with whatever average function, capacity and
threshold, whose iterations receive the same capture results (the same frames and the same
failures; the buffer of the capture may start with different pixels, and the clock texts
and the outcomes of the image write and of `popen` may differ) print the same scores on
every iteration, take the same alert decision on every iteration, and hold the same flag,
window and reference frame after every iteration.  Each such run makes the calls of the
loop in which the scorer is the function of the two frames. -/
theorem same_frames_same_scores (average : List ℚ → ℚ) (sqrt : ℚ → ℚ)
    (cvtColor : Vec3b → Vec3b) (K : Nat) (t : ℚ)
    (mem mem2 : List Image) (Ref Test Ref2 Test2 : Nat)
    (hTest : Test < mem.length) (hTest2 : Test2 < mem2.length)
    (hR : readMat mem2 Ref2 = readMat mem Ref) (hT : readMat mem2 Test2 = readMat mem Test)
    (buffer1 buffer2 : Image) (ins1 ins2 : List (CycleInput Image))
    (h : ins1.map (fun inp => inp.pImage) = ins2.map (fun inp => inp.pImage)) :
    compareImgDiffOn sqrt cvtColor Ref Test mem
        = (compareImgDiff sqrt cvtColor (readMat mem Ref) (readMat mem Test), mem)
      ∧ (compareImgDiffOn sqrt cvtColor Ref2 Test2 mem2).1
          = (compareImgDiffOn sqrt cvtColor Ref Test mem).1
      ∧ (runOn average sqrt cvtColor K t (MainState.init buffer1) ins1).2.map printedScores
          = (runOn average sqrt cvtColor K t (MainState.init buffer2) ins2).2.map
              printedScores
      ∧ (runOn average sqrt cvtColor K t (MainState.init buffer1) ins1).2.map triggered
          = (runOn average sqrt cvtColor K t (MainState.init buffer2) ins2).2.map triggered
      ∧ (∀ n : Nat,
          (runOn average sqrt cvtColor K t (MainState.init buffer1)
              (ins1.take n)).1.toLoopState
            = (runOn average sqrt cvtColor K t (MainState.init buffer2)
              (ins2.take n)).1.toLoopState)
      ∧ (runOn average sqrt cvtColor K t (MainState.init buffer1) ins1).2
          = (runWith average (compareImgDiff sqrt cvtColor) K t LoopState.init ins1).2
      ∧ (runOn averageDouble sqrt cvtColor AVG_COUNT (roundToDouble THRESHOLD)
            (MainState.init buffer1) ins1).2
          = (mainRunDouble (compareImgDiff sqrt cvtColor) LoopState.init ins1).2 := by
  obtain ⟨a1, _⟩ := runOn_init_refines average sqrt cvtColor K t buffer1 ins1
  obtain ⟨a2, _⟩ := runOn_init_refines average sqrt cvtColor K t buffer2 ins2
  obtain ⟨_, c2, c3⟩ := runWith_congr average (compareImgDiff sqrt cvtColor) K t
    LoopState.init ins1 ins2 h
  refine ⟨compareImgDiffOn_eq sqrt cvtColor Ref Test mem hTest, ?_, ?_, ?_, ?_, a1,
    (runOn_init_refines averageDouble sqrt cvtColor AVG_COUNT (roundToDouble THRESHOLD)
      buffer1 ins1).1⟩
  · rw [compareImgDiffOn_eq sqrt cvtColor Ref Test mem hTest,
      compareImgDiffOn_eq sqrt cvtColor Ref2 Test2 mem2 hTest2, hR, hT]
  · rw [a1, a2]
    exact c2
  · rw [a1, a2]
    exact c3
  · intro n
    have hn : (ins1.take n).map (fun inp => inp.pImage)
        = (ins2.take n).map (fun inp => inp.pImage) := by
      rw [List.map_take, List.map_take, h]
    rw [(runOn_init_refines average sqrt cvtColor K t buffer1 (ins1.take n)).2,
      (runOn_init_refines average sqrt cvtColor K t buffer2 (ins2.take n)).2]
    exact (runWith_congr average (compareImgDiff sqrt cvtColor) K t LoopState.init _ _ hn).1

/-- Witness of C14: the scorer of the source on one-pixel frames; a store of two buffers
and a store of three that hold the same two frames at other places; two runs that capture
the red frame twice, from different contents of the capture buffer, at different clock
texts and with different outcomes of the calls. -/
theorem same_frames_same_scores_witness :
    (1 < [redFrame, default].length ∧ 0 < [default, default, redFrame].length
      ∧ readMat [default, default, redFrame] 2 = readMat [redFrame, default] 0
      ∧ readMat [default, default, redFrame] 0 = readMat [redFrame, default] 1
      ∧ [captured redFrame "a", captured redFrame "b"].map (fun inp => inp.pImage)
        = [{ pImage := some redFrame, asctime := "c", imwriteOk := false, popenOk := false },
            captured redFrame "d"].map (fun inp => inp.pImage))
      ∧ (compareImgDiffOn Rat.sqrt bgr2hsv 2 0 [default, default, redFrame]).1
          = (compareImgDiffOn Rat.sqrt bgr2hsv 0 1 [redFrame, default]).1
      ∧ (runOn averageDouble Rat.sqrt bgr2hsv AVG_COUNT (roundToDouble THRESHOLD)
            (MainState.init default) [captured redFrame "a", captured redFrame "b"]).2.map
            printedScores
          = (runOn averageDouble Rat.sqrt bgr2hsv AVG_COUNT (roundToDouble THRESHOLD)
            (MainState.init redFrame)
            [{ pImage := some redFrame, asctime := "c", imwriteOk := false, popenOk := false },
              captured redFrame "d"]).2.map printedScores :=
  ⟨⟨by decide, by decide, rfl, rfl, rfl⟩,
    (same_frames_same_scores averageDouble Rat.sqrt bgr2hsv AVG_COUNT
      (roundToDouble THRESHOLD) [redFrame, default] [default, default, redFrame] 0 1 2 0
      (by decide) (by decide) rfl rfl default redFrame
      [captured redFrame "a", captured redFrame "b"]
      [{ pImage := some redFrame, asctime := "c", imwriteOk := false, popenOk := false },
        captured redFrame "d"] rfl).2.1,
    (same_frames_same_scores averageDouble Rat.sqrt bgr2hsv AVG_COUNT
      (roundToDouble THRESHOLD) [redFrame, default] [default, default, redFrame] 0 1 2 0
      (by decide) (by decide) rfl rfl default redFrame
      [captured redFrame "a", captured redFrame "b"]
      [{ pImage := some redFrame, asctime := "c", imwriteOk := false, popenOk := false },
        captured redFrame "d"] rfl).2.2.1⟩

/-- C17, as the source behaves: for every frame and every pixel conversion, the counts of
the histogram built by `compareImgDiff` add up to the number of pixels whose converted hue
is below 255 and whose converted saturation is below 180, not to the number of pixels of
the frame.  The red pixel (blue 0, green 0, red 255) converts to hue 0, saturation 255,
value 255; the histogram of the one-pixel frame holding it adds up to 0, while the frame
has 1 pixel. -/
theorem histogram_total_counts_pixels_in_range (cvtColor : Vec3b → Vec3b) (img : Image) :
    (frameHist cvtColor img).sum = pixelsInRange cvtColor img
      ∧ bgr2hsv { c0 := 0, c1 := 0, c2 := 255 } = { c0 := 0, c1 := 255, c2 := 255 }
      ∧ (frameHist bgr2hsv redFrame).sum = 0
      ∧ redFrame.rows * redFrame.cols = 1
      ∧ (frameHist bgr2hsv redFrame).sum ≠ redFrame.rows * redFrame.cols := by
  have hred : (frameHist bgr2hsv redFrame).sum = 0 := by
    rw [frameHist_sum]
    decide
  refine ⟨frameHist_sum cvtColor img, by decide, hred, rfl, ?_⟩
  rw [hred]
  decide

/-- C15: the alert decision keeps no memory.  Over any run of consecutive iterations that
each compare a frame and whose smoothed value is below the threshold, every iteration makes
the full save/mail/upload sequence, so `n` such iterations make it `n` times; and the
decision of an iteration is `average window < t` for the window after the push, so two
iterations reached through different histories that end with the same window decide
alike. -/
theorem no_hysteresis_every_cycle_dispatches {Mat : Type} (compareImgDiff : Mat → Mat → ℚ)
    (K : Nat) (t : ℚ) (s : LoopState Mat) (hs : s.isRefImageSet = true)
    (ins : List (CycleInput Mat)) (hcap : ∀ inp ∈ ins, inp.pImage ≠ none)
    (hbelow : ∀ k : Nat, k < ins.length →
      average (run compareImgDiff K t s (ins.take (k + 1))).1.img_diff < t) :
    (run compareImgDiff K t s ins).2.map dispatchOf
        = ins.filterMap (fun inp => inp.pImage.map (fun cur => dispatch cur inp))
      ∧ ((run compareImgDiff K t s ins).2.map dispatchOf).length = ins.length
      ∧ (∀ d ∈ (run compareImgDiff K t s ins).2.map dispatchOf, d.length = 3)
      ∧ (∀ (s1 s2 : LoopState Mat) (inp1 inp2 : CycleInput Mat) (c1 c2 : Mat),
          triggered (cycle compareImgDiff K t { s1 with isRefImageSet := true }
              { inp1 with pImage := some c1 }).2
            = decide (average (cycle compareImgDiff K t { s1 with isRefImageSet := true }
              { inp1 with pImage := some c1 }).1.img_diff < t)
          ∧ ((cycle compareImgDiff K t { s1 with isRefImageSet := true }
                { inp1 with pImage := some c1 }).1.img_diff
              = (cycle compareImgDiff K t { s2 with isRefImageSet := true }
                { inp2 with pImage := some c2 }).1.img_diff →
            triggered (cycle compareImgDiff K t { s1 with isRefImageSet := true }
                { inp1 with pImage := some c1 }).2
              = triggered (cycle compareImgDiff K t { s2 with isRefImageSet := true }
                { inp2 with pImage := some c2 }).2)) := by
  have hrun := run_all_below compareImgDiff K t s hs ins hcap hbelow
  have hdec : ∀ (s1 : LoopState Mat) (inp1 : CycleInput Mat) (c1 : Mat),
      triggered (cycle compareImgDiff K t { s1 with isRefImageSet := true }
          { inp1 with pImage := some c1 }).2
        = decide (average (cycle compareImgDiff K t { s1 with isRefImageSet := true }
          { inp1 with pImage := some c1 }).1.img_diff < t) := by
    intro s1 inp1 c1
    rw [cycle_compare compareImgDiff K t _ _ c1 rfl rfl]
    simp only [triggered_compare_trace]
  refine ⟨hrun, ?_, ?_, ?_⟩
  · rw [hrun, filterMap_dispatch_length ins hcap]
  · intro d hd
    rw [hrun] at hd
    obtain ⟨inp, _, hinp⟩ := List.mem_filterMap.mp hd
    cases hp : inp.pImage with
    | none => rw [hp] at hinp; simp at hinp
    | some cur =>
      rw [hp] at hinp
      simp only [Option.map_some', Option.some.injEq] at hinp
      rw [← hinp]
      simp [dispatch]
  · intro s1 s2 inp1 inp2 c1 c2
    refine ⟨hdec s1 inp1 c1, ?_⟩
    intro hw
    rw [hdec s1 inp1 c1, hdec s2 inp2 c2, hw]

/-- Witness of C15: capacity 3, threshold 0.7, the scores 0.3 and 0.2 in a row (frames are
numbers and the score of a frame is the frame itself): both iterations dispatch. -/
theorem no_hysteresis_every_cycle_dispatches_witness :
    ((∀ inp ∈ ([captured (3 / 10) "a", captured (2 / 10) "b"] : List (CycleInput ℚ)),
          inp.pImage ≠ none)
        ∧ (∀ k : Nat,
            k < ([captured (3 / 10) "a", captured (2 / 10) "b"] : List (CycleInput ℚ)).length →
            average (run (fun _ c : ℚ => c) 3 (7 / 10)
              { isRefImageSet := true, img_diff := [], ref_img := 1 }
              (([captured (3 / 10) "a", captured (2 / 10) "b"] : List (CycleInput ℚ)).take
                (k + 1))).1.img_diff < 7 / 10))
      ∧ (run (fun _ c : ℚ => c) 3 (7 / 10)
            { isRefImageSet := true, img_diff := [], ref_img := 1 }
            [captured (3 / 10) "a", captured (2 / 10) "b"]).2.map dispatchOf
          = [dispatch (3 / 10) (captured (3 / 10) "a"),
              dispatch (2 / 10) (captured (2 / 10) "b")] :=
  have hcap : ∀ inp ∈ ([captured (3 / 10) "a", captured (2 / 10) "b"] : List (CycleInput ℚ)),
      inp.pImage ≠ none := by
    intro inp hinp
    simp only [List.mem_cons, List.mem_singleton, List.not_mem_nil, or_false] at hinp
    rcases hinp with h | h <;> rw [h] <;> simp [captured]
  have hbelow : ∀ k : Nat,
      k < ([captured (3 / 10) "a", captured (2 / 10) "b"] : List (CycleInput ℚ)).length →
      average (run (fun _ c : ℚ => c) 3 (7 / 10)
        { isRefImageSet := true, img_diff := [], ref_img := 1 }
        (([captured (3 / 10) "a", captured (2 / 10) "b"] : List (CycleInput ℚ)).take
          (k + 1))).1.img_diff < 7 / 10 := by
    intro k hk
    simp only [List.length_cons, List.length_nil] at hk
    interval_cases k
    · simp [run, cycle, captured, pushEvict, average]
      norm_num
    · simp [run, cycle, captured, pushEvict, average]
      norm_num
  ⟨⟨hcap, hbelow⟩,
    (no_hysteresis_every_cycle_dispatches (fun _ c : ℚ => c) 3 (7 / 10)
      { isRefImageSet := true, img_diff := [], ref_img := 1 } rfl
      [captured (3 / 10) "a", captured (2 / 10) "b"] hcap hbelow).1.trans
      (by simp [captured])⟩

/-- C18: with a capacity `K ≥ 1`, in every state reached by the loop from its initial
variables with the reference set, the iteration that captures a frame pushes the score, then
calls `average` on the window after the push and eviction, and tests the returned value
against the threshold; that window has at least 1 and at most `K` entries, so the divisor
`size` of `sum / size` is not zero.  No other iteration calls `average`: replacing `average`
by any function that agrees with it on the windows of 1 to `K` entries, whatever it returns
on the empty window, changes no run of the loop, in exact and in binary64 arithmetic. -/
theorem average_called_on_nonempty_window {Mat : Type} [Inhabited Mat]
    (compareImgDiff : Mat → Mat → ℚ) (K : Nat) (t : ℚ) (hK : 1 ≤ K)
    (ins : List (CycleInput Mat)) (inp : CycleInput Mat) (cur : Mat)
    (hset : (run compareImgDiff K t LoopState.init ins).1.isRefImageSet = true) :
    cycle compareImgDiff K t (run compareImgDiff K t LoopState.init ins).1
          { inp with pImage := some cur }
        = ({ (run compareImgDiff K t LoopState.init ins).1 with
              img_diff := pushEvict K (run compareImgDiff K t LoopState.init ins).1.img_diff
                (compareImgDiff (run compareImgDiff K t LoopState.init ins).1.ref_img cur) },
            [Effect.printf
                (compareImgDiff (run compareImgDiff K t LoopState.init ins).1.ref_img cur)]
              ++ alertBranch t
                  (average (pushEvict K (run compareImgDiff K t LoopState.init ins).1.img_diff
                    (compareImgDiff (run compareImgDiff K t LoopState.init ins).1.ref_img
                      cur)))
                  cur { inp with pImage := some cur }
              ++ [Effect.sleep N_Capture])
      ∧ 1 ≤ (pushEvict K (run compareImgDiff K t LoopState.init ins).1.img_diff
              (compareImgDiff (run compareImgDiff K t LoopState.init ins).1.ref_img
                cur)).length
      ∧ (pushEvict K (run compareImgDiff K t LoopState.init ins).1.img_diff
              (compareImgDiff (run compareImgDiff K t LoopState.init ins).1.ref_img
                cur)).length ≤ K
      ∧ (((pushEvict K (run compareImgDiff K t LoopState.init ins).1.img_diff
              (compareImgDiff (run compareImgDiff K t LoopState.init ins).1.ref_img
                cur)).length : Nat) : ℚ) ≠ 0
      ∧ (∀ avg : List ℚ → ℚ,
          (∀ w : List ℚ, 1 ≤ w.length → w.length ≤ K → avg w = average w) →
          ∀ ins2 : List (CycleInput Mat),
            runWith avg compareImgDiff K t LoopState.init ins2
              = run compareImgDiff K t LoopState.init ins2)
      ∧ (∀ avg : List ℚ → ℚ,
          (∀ w : List ℚ, 1 ≤ w.length → w.length ≤ K → avg w = averageDouble w) →
          ∀ ins2 : List (CycleInput Mat),
            runWith avg compareImgDiff K t LoopState.init ins2
              = runWith averageDouble compareImgDiff K t LoopState.init ins2) := by
  have hlen := run_init_window_length compareImgDiff K t ins
  have hw := pushEvict_length K (run compareImgDiff K t LoopState.init ins).1.img_diff
    (compareImgDiff (run compareImgDiff K t LoopState.init ins).1.ref_img cur) hlen
  refine ⟨cycle_compare compareImgDiff K t _ _ cur rfl hset, ?_, ?_, ?_, ?_, ?_⟩
  · rw [hw]; omega
  · rw [hw]; omega
  · have : (pushEvict K (run compareImgDiff K t LoopState.init ins).1.img_diff
        (compareImgDiff (run compareImgDiff K t LoopState.init ins).1.ref_img
          cur)).length ≠ 0 := by
      rw [hw]; omega
    exact_mod_cast this
  · intro avg hagree ins2
    rw [run_eq_runWith]
    exact runWith_congr_avg avg compareImgDiff K t average hK hagree LoopState.init
      (by simp [LoopState.init]) ins2
  · intro avg hagree ins2
    exact runWith_congr_avg avg compareImgDiff K t averageDouble hK hagree LoopState.init
      (by simp [LoopState.init]) ins2

/-- Witness of C18: the constants of the source, the first comparison after the reference
was adopted (frames are numbers and the score of a frame is the frame itself). -/
theorem average_called_on_nonempty_window_witness :
    (1 ≤ AVG_COUNT
        ∧ (run (fun _ c : ℚ => c) AVG_COUNT THRESHOLD LoopState.init
            [captured 1 "a"]).1.isRefImageSet = true)
      ∧ 1 ≤ (pushEvict AVG_COUNT
          (run (fun _ c : ℚ => c) AVG_COUNT THRESHOLD LoopState.init
            [captured 1 "a"]).1.img_diff
          ((fun _ c : ℚ => c)
            (run (fun _ c : ℚ => c) AVG_COUNT THRESHOLD LoopState.init
              [captured 1 "a"]).1.ref_img (9 / 10))).length :=
  have hset : (run (fun _ c : ℚ => c) AVG_COUNT THRESHOLD LoopState.init
      [captured 1 "a"]).1.isRefImageSet = true := by
    simp [run, cycle, captured, LoopState.init]
  ⟨⟨by decide, hset⟩,
    (average_called_on_nonempty_window (fun _ c : ℚ => c) AVG_COUNT THRESHOLD (by decide)
      [captured 1 "a"] noFrame (9 / 10) hset).2.1⟩

/-- C19, as the program computes: for every non-empty window of at most `2 ^ 53`
samples that lie between `a` and `b` and are at most `B` in absolute value, the value that
`average` returns in binary64 lies between `a - d` and `b + d`, where
`d = (size + 2) * (2 ^ (-53) * B + 2 ^ (-1075))` bounds the rounding; if every sample is in
`[-1, 1]` the value is in `[-1, 1]`; and if every sample of the window of an iteration is at
least the threshold plus `d`, the iteration makes no save/mail/upload call. -/
theorem average_within_rounding_of_samples {Mat : Type} (l : List ℚ) (hne : l ≠ [])
    (hlen : l.length ≤ 2 ^ 53) (a b B : ℚ) (h : ∀ x ∈ l, a ≤ x ∧ x ≤ b ∧ |x| ≤ B) :
    a - ((l.length : ℚ) + 2) * (2 ^ (-53 : ℤ) * B + 2 ^ (-1075 : ℤ)) ≤ averageDouble l
      ∧ averageDouble l ≤ b + ((l.length : ℚ) + 2) * (2 ^ (-53 : ℤ) * B + 2 ^ (-1075 : ℤ))
      ∧ ((∀ x ∈ l, -1 ≤ x ∧ x ≤ 1) → -1 ≤ averageDouble l ∧ averageDouble l ≤ 1)
      ∧ (∀ (compareImgDiff : Mat → Mat → ℚ) (K : Nat) (t : ℚ) (s : LoopState Mat)
          (inp : CycleInput Mat) (cur : Mat),
          pushEvict K s.img_diff (compareImgDiff s.ref_img cur) = l →
          t + ((l.length : ℚ) + 2) * (2 ^ (-53 : ℤ) * B + 2 ^ (-1075 : ℤ)) ≤ a →
          dispatchOf (cycleWith averageDouble compareImgDiff K t
            { s with isRefImageSet := true } { inp with pImage := some cur }).2 = []) := by
  have hB0 : 0 ≤ B := by
    obtain ⟨x, hx⟩ := List.exists_mem_of_ne_nil _ hne
    exact le_trans (abs_nonneg x) (h x hx).2.2
  have herr := averageDouble_error B hB0 l hne (fun x hx => (h x hx).2.2) hlen
  have hex := average_between_exact l a b hne (fun x hx => ⟨(h x hx).1, (h x hx).2.1⟩)
  rw [average_eq_sum_div] at hex
  rw [abs_le] at herr
  obtain ⟨herr1, herr2⟩ := herr
  obtain ⟨hex1, hex2⟩ := hex
  have hunit := fun hu => averageDouble_mem_unit l hne hu hlen
  generalize ((l.length : ℚ) + 2) * (2 ^ (-53 : ℤ) * B + 2 ^ (-1075 : ℤ)) = d at herr1 herr2 ⊢
  have hlo : a - d ≤ averageDouble l := by linarith
  refine ⟨hlo, by linarith, hunit, ?_⟩
  intro compareImgDiff K t s inp cur hw ht
  rw [cycleWith_compare averageDouble compareImgDiff K t _ _ cur rfl rfl,
    dispatchOf_compare_trace]
  simp only [hw, alertBranch]
  rw [if_neg]
  linarith

/-- Witness of C19: the window `[1/2, 1/2]`. -/
theorem average_within_rounding_of_samples_witness :
    (([1 / 2, 1 / 2] : List ℚ) ≠ [] ∧ ([1 / 2, 1 / 2] : List ℚ).length ≤ 2 ^ 53
        ∧ ∀ x ∈ ([1 / 2, 1 / 2] : List ℚ), (1 / 2 : ℚ) ≤ x ∧ x ≤ 1 / 2 ∧ |x| ≤ 1 / 2)
      ∧ averageDouble ([1 / 2, 1 / 2] : List ℚ)
          ≤ 1 / 2 + ((([1 / 2, 1 / 2] : List ℚ).length : ℚ) + 2)
              * (2 ^ (-53 : ℤ) * (1 / 2) + 2 ^ (-1075 : ℤ)) :=
  have hx : ∀ x ∈ ([1 / 2, 1 / 2] : List ℚ), (1 / 2 : ℚ) ≤ x ∧ x ≤ 1 / 2 ∧ |x| ≤ 1 / 2 := by
    intro x hx
    simp only [List.mem_cons, List.mem_singleton, List.not_mem_nil, or_false, or_self] at hx
    rw [hx]
    refine ⟨le_rfl, le_rfl, ?_⟩
    rw [abs_of_nonneg (by norm_num)]
  ⟨⟨by simp, by simp, hx⟩,
    (@average_within_rounding_of_samples ℚ [1 / 2, 1 / 2] (by simp) (by simp)
      (1 / 2) (1 / 2) (1 / 2) hx).2.1⟩

/-- Counterexample to C19 as stated.  The window of three times the double nearest to 0.1:
`average` in binary64 returns a value above every sample.  The window of three times the
double nearest to 0.7, which is the threshold of the source: every sample is at least the
threshold, `average` returns 0.6999999999999998, below it, and the iteration saves, mails
and uploads. -/
theorem average_between_samples_counterexample :
    (∀ x ∈ [roundToDouble (1 / 10), roundToDouble (1 / 10), roundToDouble (1 / 10)],
        x ≤ roundToDouble (1 / 10))
      ∧ roundToDouble (1 / 10)
          < averageDouble
              [roundToDouble (1 / 10), roundToDouble (1 / 10), roundToDouble (1 / 10)]
      ∧ (∀ x ∈ [roundToDouble (7 / 10), roundToDouble (7 / 10), roundToDouble (7 / 10)],
          roundToDouble THRESHOLD ≤ x)
      ∧ averageDouble
            [roundToDouble (7 / 10), roundToDouble (7 / 10), roundToDouble (7 / 10)]
          < roundToDouble THRESHOLD
      ∧ (mainCycleDouble (fun _ c : ℚ => c)
            { isRefImageSet := true,
              img_diff := [roundToDouble (7 / 10), roundToDouble (7 / 10)], ref_img := 1 }
            (captured (roundToDouble (7 / 10)) "Thu Oct 29 19:10:04 2026\n")).1.img_diff
          = [roundToDouble (7 / 10), roundToDouble (7 / 10), roundToDouble (7 / 10)]
      ∧ dispatchOf (mainCycleDouble (fun _ c : ℚ => c)
            { isRefImageSet := true,
              img_diff := [roundToDouble (7 / 10), roundToDouble (7 / 10)], ref_img := 1 }
            (captured (roundToDouble (7 / 10)) "Thu Oct 29 19:10:04 2026\n")).2
          = dispatch (roundToDouble (7 / 10))
              (captured (roundToDouble (7 / 10)) "Thu Oct 29 19:10:04 2026\n") := by
  have hd1 := roundToDouble_one_tenth (1 / 10) rfl
  have hd7 := roundToDouble_seven_tenths (7 / 10) rfl
  have ht : roundToDouble THRESHOLD = roundToDouble (7 / 10) := rfl
  have hlt : averageDouble
        [roundToDouble (7 / 10), roundToDouble (7 / 10), roundToDouble (7 / 10)]
      < roundToDouble THRESHOLD := by
    rw [ht, averageDouble_seven_tenths, hd7]
    norm_num
  have hw : pushEvict AVG_COUNT [roundToDouble (7 / 10), roundToDouble (7 / 10)]
        (roundToDouble (7 / 10))
      = [roundToDouble (7 / 10), roundToDouble (7 / 10), roundToDouble (7 / 10)] := by
    simp [pushEvict, AVG_COUNT]
  refine ⟨?_, ?_, ?_, hlt, ?_, ?_⟩
  · intro x hx
    simp only [List.mem_cons, List.mem_singleton, List.not_mem_nil, or_false, or_self] at hx
    rw [hx]
  · rw [averageDouble_one_tenth, hd1]
    norm_num
  · intro x hx
    simp only [List.mem_cons, List.mem_singleton, List.not_mem_nil, or_false, or_self] at hx
    rw [hx, ht]
  · rw [mainCycleDouble, cycleWith_compare averageDouble _ _ _ _ _ (roundToDouble (7 / 10))
      rfl rfl]
    exact hw
  · rw [mainCycleDouble, cycleWith_compare averageDouble _ _ _ _ _ (roundToDouble (7 / 10))
      rfl rfl, dispatchOf_compare_trace]
    simp only [hw, alertBranch]
    rw [if_pos hlt]

/-- C20: while fewer than `K` scores have been pushed, the window holds all of them and
`average` divides their sum by their number `n`, not by `K`; on the first comparison after
the reference was adopted the window is the single raw score, the smoothed value equals
that score, and the save/mail/upload sequence is made if and only if the raw score is below
the threshold. -/
theorem short_window_mean_is_unpadded {Mat : Type} [Inhabited Mat]
    (compareImgDiff : Mat → Mat → ℚ) (K : Nat) (t : ℚ) (scores : List ℚ)
    (hn : scores.length < K) (inp0 inp : CycleInput Mat) (f0 cur : Mat) :
    scores.foldl (pushEvict K) [] = scores
      ∧ average (scores.foldl (pushEvict K) []) = scores.sum / (scores.length : ℚ)
      ∧ (cycle compareImgDiff K t
            (run compareImgDiff K t LoopState.init [{ inp0 with pImage := some f0 }]).1
            { inp with pImage := some cur }).1.img_diff = [compareImgDiff f0 cur]
      ∧ average (cycle compareImgDiff K t
            (run compareImgDiff K t LoopState.init [{ inp0 with pImage := some f0 }]).1
            { inp with pImage := some cur }).1.img_diff = compareImgDiff f0 cur
      ∧ (triggered (cycle compareImgDiff K t
            (run compareImgDiff K t LoopState.init [{ inp0 with pImage := some f0 }]).1
            { inp with pImage := some cur }).2 = true ↔ compareImgDiff f0 cur < t)
      ∧ dispatchOf (cycle compareImgDiff K t
            (run compareImgDiff K t LoopState.init [{ inp0 with pImage := some f0 }]).1
            { inp with pImage := some cur }).2
          = (if compareImgDiff f0 cur < t then dispatch cur { inp with pImage := some cur }
             else []) := by
  have hfold : scores.foldl (pushEvict K) [] = scores := by
    rw [foldl_pushEvict_nil, lastK]
    have : scores.length - K = 0 := by omega
    rw [this, List.drop_zero]
  have hs : (run compareImgDiff K t LoopState.init [{ inp0 with pImage := some f0 }]).1
      = { isRefImageSet := true, img_diff := [], ref_img := f0 } := by
    simp [run, cycle, LoopState.init]
  have hpush : pushEvict K [] (compareImgDiff f0 cur) = [compareImgDiff f0 cur] := by
    have hK : ¬ 1 > K := by omega
    simp [pushEvict, hK]
  have havg : average [compareImgDiff f0 cur] = compareImgDiff f0 cur := by
    simp [average]
  rw [hs, cycle_compare compareImgDiff K t _ _ cur rfl rfl]
  refine ⟨hfold, ?_, hpush, ?_, ?_, ?_⟩
  · rw [hfold, average_eq_sum_div]
  · simp only [hpush]
    exact havg
  · rw [triggered_compare_trace]
    simp only [hpush, havg, decide_eq_true_eq]
  · rw [dispatchOf_compare_trace]
    simp only [hpush, havg, alertBranch]

/-- Witness of C20: capacity 3 and the two scores 0.9 and 0.5, whose mean is 0.7 and not
1.4 / 3. -/
theorem short_window_mean_is_unpadded_witness :
    ([9 / 10, 5 / 10] : List ℚ).length < 3
      ∧ average (([9 / 10, 5 / 10] : List ℚ).foldl (pushEvict 3) [])
          = ([9 / 10, 5 / 10] : List ℚ).sum / ((([9 / 10, 5 / 10] : List ℚ).length : Nat) : ℚ)
      ∧ ([9 / 10, 5 / 10] : List ℚ).sum / ((([9 / 10, 5 / 10] : List ℚ).length : Nat) : ℚ)
          = 7 / 10 :=
  ⟨by decide,
    (short_window_mean_is_unpadded (fun _ c : ℚ => c) 3 (7 / 10) [9 / 10, 5 / 10] (by decide)
      noFrame noFrame 1 (5 / 10)).2.1,
    by norm_num⟩

/-- C21: the alert decision and the saved frame do not follow the raw score of the present
frame.  With the constants of the source (capacity 3, threshold 0.7) there is a history
after which the present frame scores 0.9, at or above the threshold, the window is
`[0.3, 0.3, 0.9]` with average 0.5, and the iteration triggers, saving and uploading the
present frame; and there is a history after which the present frame scores 0.5, below the
threshold, the window is `[0.95, 0.92, 0.5]` with average 0.79, and no save/mail/upload
call is made.  (Frames are numbers and the score of a frame is the frame itself.) -/
theorem trigger_decoupled_from_raw_score :
    (∃ (ins : List (CycleInput ℚ)) (inp : CycleInput ℚ) (cur : ℚ),
        inp.pImage = some cur
          ∧ printedScores (mainCycle (fun _ c : ℚ => c)
              (run (fun _ c : ℚ => c) AVG_COUNT THRESHOLD LoopState.init ins).1 inp).2 = [cur]
          ∧ THRESHOLD ≤ cur
          ∧ (mainCycle (fun _ c : ℚ => c)
              (run (fun _ c : ℚ => c) AVG_COUNT THRESHOLD LoopState.init ins).1
              inp).1.img_diff = [0.3, 0.3, 0.9]
          ∧ average ([0.3, 0.3, 0.9] : List ℚ) = 0.5
          ∧ triggered (mainCycle (fun _ c : ℚ => c)
              (run (fun _ c : ℚ => c) AVG_COUNT THRESHOLD LoopState.init ins).1 inp).2 = true
          ∧ savedImages (mainCycle (fun _ c : ℚ => c)
              (run (fun _ c : ℚ => c) AVG_COUNT THRESHOLD LoopState.init ins).1 inp).2
            = [(getDateString inp.asctime ++ ".jpg", cur)]
          ∧ uploadedPaths (mainCycle (fun _ c : ℚ => c)
              (run (fun _ c : ℚ => c) AVG_COUNT THRESHOLD LoopState.init ins).1 inp).2
            = [getDateString inp.asctime ++ ".jpg"])
      ∧ (∃ (ins : List (CycleInput ℚ)) (inp : CycleInput ℚ) (cur : ℚ),
        inp.pImage = some cur
          ∧ printedScores (mainCycle (fun _ c : ℚ => c)
              (run (fun _ c : ℚ => c) AVG_COUNT THRESHOLD LoopState.init ins).1 inp).2 = [cur]
          ∧ cur < THRESHOLD
          ∧ (mainCycle (fun _ c : ℚ => c)
              (run (fun _ c : ℚ => c) AVG_COUNT THRESHOLD LoopState.init ins).1
              inp).1.img_diff = [0.95, 0.92, 0.5]
          ∧ average ([0.95, 0.92, 0.5] : List ℚ) = 0.79
          ∧ triggered (mainCycle (fun _ c : ℚ => c)
              (run (fun _ c : ℚ => c) AVG_COUNT THRESHOLD LoopState.init ins).1 inp).2 = false
          ∧ dispatchOf (mainCycle (fun _ c : ℚ => c)
              (run (fun _ c : ℚ => c) AVG_COUNT THRESHOLD LoopState.init ins).1 inp).2
            = []) := by
  have hs1 : (run (fun _ c : ℚ => c) AVG_COUNT THRESHOLD LoopState.init
        [captured 1 "a", captured 0.3 "b", captured 0.3 "c"]).1
      = { isRefImageSet := true, img_diff := [0.3, 0.3], ref_img := 1 } := by
    simp [run, cycle, captured, LoopState.init, pushEvict, AVG_COUNT]
  have hs2 : (run (fun _ c : ℚ => c) AVG_COUNT THRESHOLD LoopState.init
        [captured 1 "a", captured 0.95 "b", captured 0.92 "c"]).1
      = { isRefImageSet := true, img_diff := [0.95, 0.92], ref_img := 1 } := by
    simp [run, cycle, captured, LoopState.init, pushEvict, AVG_COUNT]
  have hw1 : pushEvict AVG_COUNT [0.3, 0.3] 0.9 = [0.3, 0.3, 0.9] := by
    simp [pushEvict, AVG_COUNT]
  have hw2 : pushEvict AVG_COUNT [0.95, 0.92] 0.5 = [0.95, 0.92, 0.5] := by
    simp [pushEvict, AVG_COUNT]
  have ha1 : average ([0.3, 0.3, 0.9] : List ℚ) = 0.5 := by
    simp [average]; norm_num
  have ha2 : average ([0.95, 0.92, 0.5] : List ℚ) = 0.79 := by
    simp [average]; norm_num
  have hlt1 : average ([0.3, 0.3, 0.9] : List ℚ) < THRESHOLD := by
    rw [ha1]; norm_num [THRESHOLD]
  have hlt2 : ¬ average ([0.95, 0.92, 0.5] : List ℚ) < THRESHOLD := by
    rw [ha2]; norm_num [THRESHOLD]
  constructor
  · refine ⟨[captured 1 "a", captured 0.3 "b", captured 0.3 "c"],
      captured 0.9 "Thu Oct 29 19:10:04 2026\n", 0.9, rfl, ?_, ?_, ?_, ha1, ?_, ?_, ?_⟩
    · rw [hs1, mainCycle, cycle_compare _ _ _ _ _ 0.9 rfl rfl, printedScores_compare_trace]
    · norm_num [THRESHOLD]
    · rw [hs1, mainCycle, cycle_compare _ _ _ _ _ 0.9 rfl rfl]
      exact hw1
    · rw [hs1, mainCycle, cycle_compare _ _ _ _ _ 0.9 rfl rfl, triggered_compare_trace]
      simp only [hw1, decide_eq_true_eq]
      exact hlt1
    · rw [hs1, mainCycle, cycle_compare _ _ _ _ _ 0.9 rfl rfl]
      simp only [hw1, alertBranch]
      rw [if_pos hlt1]
      simp [savedImages, dispatch]
    · rw [hs1, mainCycle, cycle_compare _ _ _ _ _ 0.9 rfl rfl]
      simp only [hw1, alertBranch]
      rw [if_pos hlt1]
      simp [uploadedPaths, dispatch]
  · refine ⟨[captured 1 "a", captured 0.95 "b", captured 0.92 "c"],
      captured 0.5 "Thu Oct 29 19:10:04 2026\n", 0.5, rfl, ?_, ?_, ?_, ha2, ?_, ?_⟩
    · rw [hs2, mainCycle, cycle_compare _ _ _ _ _ 0.5 rfl rfl, printedScores_compare_trace]
    · norm_num [THRESHOLD]
    · rw [hs2, mainCycle, cycle_compare _ _ _ _ _ 0.5 rfl rfl]
      exact hw2
    · rw [hs2, mainCycle, cycle_compare _ _ _ _ _ 0.5 rfl rfl, triggered_compare_trace]
      simp only [hw2, decide_eq_false_iff_not]
      exact hlt2
    · rw [hs2, mainCycle, cycle_compare _ _ _ _ _ 0.5 rfl rfl, dispatchOf_compare_trace]
      simp only [hw2, alertBranch]
      rw [if_neg hlt2]

end CameraPi
